import Mathlib

/-!
# Pomme: the timer engine, the blocker and the control server

A shallow embedding of the pomodoro timer of `philleif/pomme`
(`internal/timer/timer.go`), of its blocker (`internal/blocker/blocker.go`),
of the daemon that serves the control socket (`internal/daemon/daemon.go`)
and of the rendering the status uses (`internal/sparkline/sparkline.go`).

Modelling conventions.

* Go `int` is a 64-bit integer, embedded as `Int`; an increment or a product
  whose exact value leaves the range from `MinInt64` to `MaxInt64` wraps
  around modulo `2 ^ 64` (`wrapInt`).
* `time.Duration` is a count of nanoseconds and `time.Time` an instant in
  nanoseconds, both embedded as `Int`; `now.Sub(u)` is `now - u` and
  `t.remaining -= elapsed` is the exact difference.
* `float64` values are embedded as the rational numbers they are;
  `float64 x` is the value that `x` is rounded to (round to nearest, ties to
  even, 53 bits).  `Duration.Seconds` and `Duration.Minutes` follow package
  `time`.
* The mutex makes every method body, and the section under the lock of every
  iteration of the tick loop, one atomic step.  A method is a function on the
  `Timer` record.
* `close` on a channel that is `nil` or already closed panics in Go; a method
  that can execute `close` returns `Option`, with `none` for the panic.
* The completion callback is embedded as the list of phases it is invoked
  with; the field `onComplete` records whether a callback is registered.  The
  tick loop calls the callback after it has released the lock, and `Skip`
  starts it as a goroutine: in the daemon the run of a callback is a step of
  its own (`Sys.step`).
* `go t.run()` is counted by the field `tickLoops`, the number of tick-loop
  goroutines started so far.  What these goroutines do among the calls of the
  clients is embedded by `Conc.step`.
-/

namespace Pomme

/-! ## Data model -/

/-- Type `Phase` of timer.go. -/
inductive Phase
  | PhaseWork
  | PhaseShortBreak
  | PhaseLongBreak
  deriving DecidableEq, Repr

/-- Method `Phase.String` of timer.go. -/
def Phase.String : Phase → String
  | Phase.PhaseWork => "work"
  | Phase.PhaseShortBreak => "short_break"
  | Phase.PhaseLongBreak => "long_break"

/-- Type `State` of timer.go. -/
inductive State
  | StateIdle
  | StateRunning
  | StatePaused
  deriving DecidableEq, Repr

/-- Method `State.String` of timer.go. -/
def State.String : State → String
  | State.StateIdle => "idle"
  | State.StateRunning => "running"
  | State.StatePaused => "paused"

/-- One nanosecond, the unit of `time.Duration`. -/
def Nanosecond : Int := 1

/-- Constant `time.Second`. -/
def Second : Int := 1000000000 * Nanosecond

/-- Constant `time.Minute`. -/
def Minute : Int := 60 * Second

/-- The largest value of Go's `int`, `math.MaxInt64`, which is `2 ^ 63 - 1`
(the program is built for 64-bit platforms). -/
def MaxInt64 : Int := 9223372036854775807

/-- The smallest value of Go's `int`, `math.MinInt64`, which is `- 2 ^ 63`. -/
def MinInt64 : Int := -9223372036854775808

/-- The value of a Go `int` expression whose exact value is `x`: Go's signed
arithmetic wraps around, so the value is the one congruent to `x` modulo
`2 ^ 64` between `MinInt64` and `MaxInt64`, that is
`(x + 2 ^ 63) % 2 ^ 64 - 2 ^ 63`. -/
def wrapInt (x : Int) : Int :=
  (x + 9223372036854775808) % 18446744073709551616 - 9223372036854775808

/-- Type `Config` of timer.go. -/
structure Config where
  WorkDuration : Int
  ShortBreakDuration : Int
  LongBreakDuration : Int
  LongBreakAfter : Int
  deriving DecidableEq, Repr

/-- Function `DefaultConfig` of timer.go. -/
def DefaultConfig : Config :=
  { WorkDuration := 30 * Minute
    ShortBreakDuration := 5 * Minute
    LongBreakDuration := 20 * Minute
    LongBreakAfter := 4 }

/-- The value of a `chan struct{}` field: never made, made and open, or closed. -/
inductive Chan
  | nil
  | opened
  | closed
  deriving DecidableEq, Repr

/-- Type `Timer` of timer.go (the mutex is the atomicity of each step);
`onComplete` is whether a callback is registered, and `tickLoops` is the
number of goroutines started by `go t.run()` so far. -/
structure Timer where
  config : Config
  state : State
  phase : Phase
  remaining : Int
  intervalsToday : Int
  intervalsSinceBreak : Int
  lastTick : Int
  onComplete : Bool
  stopChan : Chan
  tickLoops : Nat
  deriving DecidableEq, Repr

/-- Type `Status` of timer.go. -/
structure Status where
  State : State
  Phase : Phase
  Remaining : Int
  IntervalsToday : Int
  deriving DecidableEq, Repr

/-! ## Operations -/

/-- Function `New` of timer.go: the zero value for every field not listed. -/
def New (config : Config) : Timer :=
  { config := config
    state := State.StateIdle
    phase := Phase.PhaseWork
    remaining := config.WorkDuration
    intervalsToday := 0
    intervalsSinceBreak := 0
    lastTick := 0
    onComplete := false
    stopChan := Chan.nil
    tickLoops := 0 }

/-- Method `SetOnComplete`: `registered` is whether the function given is not nil. -/
def Timer.SetOnComplete (t : Timer) (registered : Bool) : Timer :=
  { t with onComplete := registered }

/-- Method `Start`; `now` is the value of `time.Now()`. -/
def Timer.Start (t : Timer) (now : Int) : Timer :=
  if t.state = State.StateRunning then
    t
  else
    { t with
      state := State.StateRunning
      lastTick := now
      stopChan := Chan.opened
      tickLoops := t.tickLoops + 1 }

/-- Method `advancePhase`; the two increments `t.intervalsToday++` and
`t.intervalsSinceBreak++` wrap around at `MaxInt64`. -/
def Timer.advancePhase (t : Timer) : Timer :=
  if t.phase = Phase.PhaseWork then
    let t1 := { t with intervalsToday := wrapInt (t.intervalsToday + 1) }
    let t2 := { t1 with intervalsSinceBreak := wrapInt (t1.intervalsSinceBreak + 1) }
    if t2.intervalsSinceBreak ≥ t2.config.LongBreakAfter then
      { t2 with
        phase := Phase.PhaseLongBreak
        remaining := t2.config.LongBreakDuration
        intervalsSinceBreak := 0 }
    else
      { t2 with
        phase := Phase.PhaseShortBreak
        remaining := t2.config.ShortBreakDuration }
  else
    { t with
      phase := Phase.PhaseWork
      remaining := t.config.WorkDuration }

/-- One iteration of the `ticker.C` case of method `run`, under the lock;
`now` is the instant delivered by the ticker.  The result carries the
arguments of the calls to the completion callback. -/
def Timer.tick (t : Timer) (now : Int) : Timer × List Phase :=
  if t.state ≠ State.StateRunning then
    (t, [])
  else
    let elapsed := now - t.lastTick
    let t1 := { t with lastTick := now }
    let t2 := { t1 with remaining := t1.remaining - elapsed }
    if t2.remaining ≤ 0 then
      let completedPhase := t2.phase
      let t3 := t2.advancePhase
      (t3, if t3.onComplete then [completedPhase] else [])
    else
      (t2, [])

/-- The statement `close(t.stopChan)`: it panics unless the channel is open.
It does nothing to the goroutines started; what a tick loop does once its
channel is closed is a step of that goroutine (see `Conc.step`). -/
def Timer.closeStop (t : Timer) : Option Timer :=
  match t.stopChan with
  | Chan.opened => some { t with stopChan := Chan.closed }
  | Chan.nil => none
  | Chan.closed => none

/-- Method `Pause`. -/
def Timer.Pause (t : Timer) : Option Timer :=
  if t.state = State.StateRunning then
    let t1 := { t with state := State.StatePaused }
    if t1.stopChan ≠ Chan.nil then t1.closeStop else some t1
  else
    some t

/-- Method `Resume`; `now` is the value of `time.Now()` in the call to `Start`. -/
def Timer.Resume (t : Timer) (now : Int) : Timer :=
  if t.state ≠ State.StatePaused then
    t
  else
    t.Start now

/-- Method `Skip`; the list is the argument of the callback goroutine, if any. -/
def Timer.Skip (t : Timer) : Option (Timer × List Phase) :=
  (if t.state = State.StateRunning ∧ t.stopChan ≠ Chan.nil then t.closeStop else some t).bind
    fun t1 =>
      let completedPhase := t1.phase
      let t2 := t1.advancePhase
      let t3 := { t2 with state := State.StateIdle }
      some (t3, if t3.onComplete then [completedPhase] else [])

/-- Method `Reset`. -/
def Timer.Reset (t : Timer) : Option Timer :=
  (if t.state = State.StateRunning ∧ t.stopChan ≠ Chan.nil then t.closeStop else some t).bind
    fun t1 =>
      some { t1 with
        state := State.StateIdle
        phase := Phase.PhaseWork
        remaining := t1.config.WorkDuration
        intervalsSinceBreak := 0 }

/-- Method `Remaining`. -/
def Timer.Remaining (t : Timer) : Int := t.remaining

/-- Method `IntervalsToday`. -/
def Timer.IntervalsToday (t : Timer) : Int := t.intervalsToday

/-- Method `SetIntervalsToday`. -/
def Timer.SetIntervalsToday (t : Timer) (n : Int) : Timer :=
  { t with intervalsToday := n }

/-- Method `Status`. -/
def Timer.Status (t : Timer) : Status :=
  { State := t.state
    Phase := t.phase
    Remaining := t.remaining
    IntervalsToday := t.intervalsToday }

/-- The integer nearest to `x`, and the even one of the two nearest when `x`
is half way between them. -/
def roundEven (x : ℚ) : Int :=
  let f := Int.floor x
  if x - f < 1 / 2 then f
  else if 1 / 2 < x - f then f + 1
  else if f % 2 = 0 then f
  else f + 1

/-- The `float64` that the number `x` is rounded to (IEEE 754 binary64, round
to nearest, ties to even): with `e` the exponent of `x`, at least `-1022`, the
multiple of `2 ^ (e - 52)` nearest to `x`.  This is the result of a conversion
to `float64` and of an operation on `float64`s whose exact result is `x`.  The
numbers rounded here are below `2 ^ 63`, so that no infinity arises. -/
def float64 (x : ℚ) : ℚ :=
  if x = 0 then 0
  else
    let e := max (Int.log 2 |x|) (-1022)
    roundEven (x / 2 ^ (e - 52)) * 2 ^ (e - 52)

/-- The conversion `int(x)` of a `float64`, which drops the fraction. -/
def truncInt (x : ℚ) : Int :=
  if 0 ≤ x then Int.floor x else Int.ceil x

/-- Method `Duration.Seconds` of package `time`:
`sec := d / Second; nsec := d % Second; return float64(sec) + float64(nsec)/1e9`. -/
def Duration.Seconds (d : Int) : ℚ :=
  let sec := Int.tdiv d Second
  let nsec := Int.tmod d Second
  float64 (float64 sec + float64 (float64 nsec / float64 1000000000))

/-- Method `Duration.Minutes` of package `time`:
`min := d / Minute; nsec := d % Minute; return float64(min) + float64(nsec)/(60*1e9)`. -/
def Duration.Minutes (d : Int) : ℚ :=
  let min := Int.tdiv d Minute
  let nsec := Int.tmod d Minute
  float64 (float64 min + float64 (float64 nsec / float64 (60 * 1000000000)))

/-- Field `RemainingSeconds` of `Daemon.GetStatus` (daemon.go): the remaining
time clamped at zero, then `int(remaining.Seconds())`. -/
def RemainingSeconds (status : Status) : Int :=
  let remaining := if status.Remaining < 0 then 0 else status.Remaining
  truncInt (Duration.Seconds remaining)

/-! ## Executions -/

/-- One atomic step of a timer: a method call or one tick of the loop. -/
inductive Op
  | start (now : Int)
  | pause
  | resume (now : Int)
  | skip
  | reset
  | setIntervalsToday (n : Int)
  | setOnComplete (registered : Bool)
  | tick (now : Int)
  deriving DecidableEq, Repr

/-- The effect of one step: the new timer and the callback arguments, or
`none` when the step panics. -/
def step (t : Timer) : Op → Option (Timer × List Phase)
  | Op.start now => some (t.Start now, [])
  | Op.pause => t.Pause.map fun t1 => (t1, [])
  | Op.resume now => some (t.Resume now, [])
  | Op.skip => t.Skip
  | Op.reset => t.Reset.map fun t1 => (t1, [])
  | Op.setIntervalsToday n => some (t.SetIntervalsToday n, [])
  | Op.setOnComplete registered => some (t.SetOnComplete registered, [])
  | Op.tick now => some (t.tick now)

/-- A sequence of steps, with the callback arguments in order. -/
def exec (t : Timer) : List Op → Option (Timer × List Phase)
  | [] => some (t, [])
  | op :: ops =>
    (step t op).bind fun r1 =>
      (exec r1.1 ops).bind fun r2 =>
        some (r2.1, r1.2 ++ r2.2)

/-- The timer once its tick loop has been told to stop: the effect of
`if t.state == StateRunning && t.stopChan != nil { close(t.stopChan) }` on a
timer whose stop channel is open while it runs. -/
def Timer.stopped (t : Timer) : Timer :=
  if t.state = State.StateRunning then
    { t with stopChan := Chan.closed }
  else
    t

/-- The stop channel of a running timer is open: `Start` makes it, and every
method that closes it leaves the Running state in the same step. -/
def Timer.chanOK (t : Timer) : Prop :=
  t.state = State.StateRunning → t.stopChan = Chan.opened

instance (t : Timer) : Decidable t.chanOK := by
  unfold Timer.chanOK
  infer_instance

/-- The steps of an uninterrupted run: every step but `Reset`, a new seed of
`intervalsToday` and a change of callback. -/
def Op.isRun : Op → Bool
  | Op.reset => false
  | Op.setIntervalsToday _ => false
  | Op.setOnComplete _ => false
  | _ => true

/-- Where a timer seeded with `n` intervals stands in its first cycle, given
the phases `evs` completed so far: in the Work phase after `j` completed
pairs, in the short break after the Work phase `j + 1`, in the long break
after the Work phase `LongBreakAfter`, or past the first cycle. -/
def Cycle (n : Int) (s : Timer) (evs : List Phase) : Prop :=
  (∃ j : Nat, evs.length = 2 * j ∧ (j : Int) < s.config.LongBreakAfter ∧
      evs.count Phase.PhaseWork = j ∧ s.phase = Phase.PhaseWork ∧
      s.intervalsSinceBreak = j ∧ s.intervalsToday = n + j) ∨
  (∃ j : Nat, evs.length = 2 * j + 1 ∧ (j : Int) + 1 < s.config.LongBreakAfter ∧
      evs.count Phase.PhaseWork = j + 1 ∧ s.phase = Phase.PhaseShortBreak ∧
      s.intervalsSinceBreak = j + 1 ∧ s.intervalsToday = n + (j + 1)) ∨
  ((evs.length : Int) = 2 * s.config.LongBreakAfter - 1 ∧
      (evs.count Phase.PhaseWork : Int) = s.config.LongBreakAfter ∧
      s.phase = Phase.PhaseLongBreak ∧
      s.intervalsSinceBreak = 0 ∧ s.intervalsToday = n + s.config.LongBreakAfter) ∨
  (2 * s.config.LongBreakAfter ≤ (evs.length : Int))

/-- The full configured duration of a phase. -/
def Config.duration (config : Config) : Phase → Int
  | Phase.PhaseWork => config.WorkDuration
  | Phase.PhaseShortBreak => config.ShortBreakDuration
  | Phase.PhaseLongBreak => config.LongBreakDuration

/-! ## The blocker (`internal/blocker/blocker.go`) -/

/-- Type `Blocker` of blocker.go (the mutex is the atomicity of each method). -/
structure Blocker where
  enabled : Bool
  alwaysBlock : Bool
  inInterval : Bool
  stopChan : Chan
  running : Bool
  deriving DecidableEq, Repr

/-- Function `New` of blocker.go: the zero value of every field. -/
def Blocker.New : Blocker :=
  { enabled := false
    alwaysBlock := false
    inInterval := false
    stopChan := Chan.nil
    running := false }

/-- Method `Blocker.Start`. -/
def Blocker.Start (b : Blocker) : Blocker :=
  if b.running then
    b
  else
    { b with running := true, stopChan := Chan.opened }

/-- The statement `close(b.stopChan)`: it panics unless the channel is open. -/
def Blocker.closeStop (b : Blocker) : Option Blocker :=
  match b.stopChan with
  | Chan.opened => some { b with stopChan := Chan.closed }
  | Chan.nil => none
  | Chan.closed => none

/-- Method `Blocker.Stop`. -/
def Blocker.Stop (b : Blocker) : Option Blocker :=
  if b.running ∧ b.stopChan ≠ Chan.nil then
    b.closeStop.map fun b1 => { b1 with running := false }
  else
    some b

/-- Method `Blocker.shouldBlock`. -/
def Blocker.shouldBlock (b : Blocker) : Bool :=
  if !b.enabled then
    false
  else
    b.inInterval || b.alwaysBlock

/-- Method `Blocker.SetEnabled`. -/
def Blocker.SetEnabled (b : Blocker) (enabled : Bool) : Blocker :=
  { b with enabled := enabled }

/-- Method `Blocker.Enabled`. -/
def Blocker.Enabled (b : Blocker) : Bool := b.enabled

/-- Method `Blocker.SetAlwaysBlock`. -/
def Blocker.SetAlwaysBlock (b : Blocker) (always : Bool) : Blocker :=
  { b with alwaysBlock := always }

/-- Method `Blocker.AlwaysBlock`. -/
def Blocker.AlwaysBlock (b : Blocker) : Bool := b.alwaysBlock

/-- Method `Blocker.SetInInterval`. -/
def Blocker.SetInInterval (b : Blocker) (inInterval : Bool) : Blocker :=
  { b with inInterval := inInterval }

/-- Method `Blocker.ToggleEnabled`: the new blocker and the value returned. -/
def Blocker.ToggleEnabled (b : Blocker) : Blocker × Bool :=
  let b1 := { b with enabled := !b.enabled }
  (b1, b1.enabled)

/-- Method `Blocker.ToggleAlwaysBlock`: the new blocker and the value returned. -/
def Blocker.ToggleAlwaysBlock (b : Blocker) : Blocker × Bool :=
  let b1 := { b with alwaysBlock := !b.alwaysBlock }
  (b1, b1.alwaysBlock)

/-! ## Rendering (`internal/sparkline/sparkline.go`) -/

/-- Indexing of a Go slice, `xs[i]`: `none` is the panic on an index out of
range. -/
def sliceIndex {α : Type} (xs : List α) (i : Int) : Option α :=
  if i < 0 then none else xs[i.toNat]?

/-- Table `brailleExt` of sparkline.go. -/
def brailleExt : List Char := ['⠀', '⢀', '⣀', '⣠', '⣤', '⣴', '⣶', '⣾', '⣿']

/-- Table `subscripts` of sparkline.go. -/
def subscripts : List String :=
  ["₀", "₁", "₂", "₃", "₄", "₅", "₆", "₇", "₈", "₉", "₁₀", "₁₁", "₁₂"]

/-- The glyph that the loops of `GenerateBraille` and `GenerateBrailleSpaced`
choose for the value `v`, with `levels := len(brailleExt) - 1`, the product
`v * levels` of two `int`s, which wraps around, and Go's integer division,
which truncates toward zero. -/
def brailleGlyph (v maxVal : Int) : Option Char :=
  let levels : Int := brailleExt.length - 1
  if v ≤ 0 then
    sliceIndex brailleExt 0
  else if v ≥ maxVal then
    sliceIndex brailleExt levels
  else
    sliceIndex brailleExt (Int.tdiv (wrapInt (v * levels)) maxVal)

/-- The loop of `GenerateBrailleSpaced` from index `i` on: `len` is
`len(values)` and `result` the text built so far. -/
def GenerateBrailleSpaced.loop (len maxVal : Int) : Int → List Int → String → Option String
  | _, [], result => some result
  | i, v :: rest, result =>
    (brailleGlyph v maxVal).bind fun char =>
      let result1 := result.push char
      let result2 := if i < len - 1 then result1 ++ "  " else result1
      GenerateBrailleSpaced.loop len maxVal (i + 1) rest result2

/-- Function `GenerateBrailleSpaced` of sparkline.go. -/
def GenerateBrailleSpaced (values : List Int) (maxVal : Int) : Option String :=
  if values.length = 0 then
    some ""
  else
    let maxVal1 := if maxVal ≤ 0 then 12 else maxVal
    GenerateBrailleSpaced.loop values.length maxVal1 0 values ""

/-- Function `Subscript` of sparkline.go; `fmt.Sprintf("%d", n)` is the
decimal numeral of `n`, and `n % 10` truncates toward zero. -/
def Subscript (n : Int) : Option String :=
  if n ≥ 0 ∧ n < subscripts.length then
    sliceIndex subscripts n
  else if n ≥ 10 then
    (sliceIndex subscripts (Int.tmod n 10)).map fun digit => "₁" ++ digit
  else
    some (toString n)

/-- Function `CompactStatus` of sparkline.go. -/
def CompactStatus (icon time sparkline : String) (todayCount : Int) : Option String :=
  (Subscript todayCount).map fun sub => icon ++ " " ++ time ++ " " ++ sparkline ++ sub

/-- The verb `%02d` of `fmt.Sprintf`: the decimal numeral, with a zero in
front of a single digit. -/
def pad2 (v : Int) : String :=
  if 0 ≤ v ∧ v < 10 then "0" ++ toString v else toString v

/-! ## The daemon (`internal/daemon/daemon.go`)

The persistent store, the notification service, the unix socket and the JSON
codec are outside the repository's own logic.  What the daemon reads from
them is an argument of the function that reads it (`days` is the result of
`storage.Last7Days()`, `now` that of `time.Now()`), and what it does to them
is listed in the `Effect`s the function returns. -/

/-- Method `Timer.State`. -/
def Timer.State (t : Timer) : Pomme.State := t.state

/-- Method `Timer.Phase`. -/
def Timer.Phase (t : Timer) : Pomme.Phase := t.phase

/-- Constant `DailyGoal` of daemon.go. -/
def DailyGoal : Int := 12

/-- Type `Command` of daemon.go. -/
structure Command where
  Action : String
  deriving DecidableEq, Repr

/-- Type `StatusData` of daemon.go. -/
structure StatusData where
  TimerState : String
  Phase : String
  Remaining : String
  RemainingSeconds : Int
  IntervalsToday : Int
  DailyGoal : Int
  BlockEnabled : Bool
  AlwaysBlock : Bool
  Sparkline : String
  StatusLine : String
  WeekValues : List Int
  deriving DecidableEq, Repr

/-- Type `Response` of daemon.go; `Data` is `nil` or a `StatusData`. -/
structure Response where
  Success : Bool
  Data : Option StatusData
  Error : String
  deriving DecidableEq, Repr

/-- Type `DayStats` of storage.go. -/
structure DayStats where
  Date : String
  Intervals : Int
  deriving DecidableEq, Repr

/-- The value of the `net.Listener` field: never set, listening, or closed. -/
inductive Listener
  | nil
  | listening
  | closed
  deriving DecidableEq, Repr

/-- Type `Storage` of storage.go, as far as the daemon changes it: whether
the database handle has been closed. -/
structure Storage where
  closed : Bool
  deriving DecidableEq, Repr

/-- Type `Daemon` of daemon.go; `onStatusChange` records whether an observer
is registered. -/
structure Daemon where
  timer : Timer
  storage : Storage
  blocker : Blocker
  listener : Listener
  onStatusChange : Bool
  stopChan : Chan
  deriving DecidableEq, Repr

/-- What a daemon function does to its collaborators. -/
inductive Effect
  | recordInterval
  | notification (title message : String)
  | statusChange (status : StatusData)
  deriving DecidableEq, Repr

/-- Function `New` of daemon.go, when the store opens; `todayCount` is the
result of `store.TodayCount()`. -/
def Daemon.New (todayCount : Int) : Daemon :=
  let t := Pomme.New DefaultConfig
  let b := Blocker.New
  let t1 := t.SetIntervalsToday todayCount
  let t2 := t1.SetOnComplete true
  { timer := t2
    storage := { closed := false }
    blocker := b
    listener := Listener.nil
    onStatusChange := false
    stopChan := Chan.nil }

/-- Method `Daemon.SetOnStatusChange`: `registered` is whether the function
given is not nil. -/
def Daemon.SetOnStatusChange (d : Daemon) (registered : Bool) : Daemon :=
  { d with onStatusChange := registered }

/-- Method `Daemon.GetStatus`; `none` is a panic of the rendering.
`remaining.Minutes()` and `remaining.Seconds()` are `float64`s, and `int(...)`
drops their fractions.  The first value given to `statusLine` is overwritten
before it is used. -/
def Daemon.GetStatus (d : Daemon) (days : List DayStats) : Option StatusData :=
  let status := d.timer.Status
  let intervals := days.map fun day => day.Intervals
  (GenerateBrailleSpaced intervals DailyGoal).bind fun spark =>
    let remaining := if status.Remaining < 0 then 0 else status.Remaining
    let mins := truncInt (Duration.Minutes remaining)
    let secs := Int.tmod (truncInt (Duration.Seconds remaining)) 60
    let icon0 :=
      match status.Phase with
      | Phase.PhaseWork => "ðŸ…"
      | Phase.PhaseShortBreak => "â˜•"
      | Phase.PhaseLongBreak => "â˜•"
    let icon := if status.State = State.StatePaused then "â¸" else icon0
    let timeStr := pad2 mins ++ ":" ++ pad2 secs
    (CompactStatus icon timeStr spark status.IntervalsToday).bind fun statusLine =>
      some
        { TimerState := status.State.String
          Phase := status.Phase.String
          Remaining := pad2 mins ++ ":" ++ pad2 secs
          RemainingSeconds := truncInt (Duration.Seconds remaining)
          IntervalsToday := status.IntervalsToday
          DailyGoal := DailyGoal
          BlockEnabled := d.blocker.Enabled
          AlwaysBlock := d.blocker.AlwaysBlock
          Sparkline := spark
          StatusLine := statusLine
          WeekValues := intervals }

/-- Method `Daemon.notifyStatusChange`: the observer, if any, is called with
the status. -/
def Daemon.notifyStatusChange (d : Daemon) (days : List DayStats) : Option (List Effect) :=
  if d.onStatusChange then
    (d.GetStatus days).map fun status => [Effect.statusChange status]
  else
    some []

/-- Method `Daemon.onPhaseComplete`, the completion callback of the timer. -/
def Daemon.onPhaseComplete (d : Daemon) (phase : Phase) (days : List DayStats) :
    Option (Daemon × List Effect) :=
  let effects1 :=
    if phase = Phase.PhaseWork then
      [Effect.recordInterval, Effect.notification "Work interval complete!" "Time for a break."]
    else
      [Effect.notification "Break complete!" "Ready to focus?"]
  let d1 :=
    { d with
      blocker :=
        d.blocker.SetInInterval
          (decide (d.timer.Phase = Phase.PhaseWork) &&
            decide (d.timer.State = State.StateRunning)) }
  (d1.notifyStatusChange days).map fun effects2 => (d1, effects1 ++ effects2)

/-- Method `Daemon.Start`; `listenOK` is whether `net.Listen` succeeds. -/
def Daemon.Start (d : Daemon) (listenOK : Bool) : Except String Daemon :=
  if !listenOK then
    Except.error "failed to listen on socket"
  else
    let d1 := { d with listener := Listener.listening }
    let d2 := { d1 with blocker := d1.blocker.SetEnabled true }
    let d3 := { d2 with blocker := d2.blocker.Start }
    Except.ok { d3 with stopChan := Chan.opened }

/-- The statement `close(d.stopChan)`: it panics unless the channel is open. -/
def Daemon.closeStop (d : Daemon) : Option Daemon :=
  match d.stopChan with
  | Chan.opened => some { d with stopChan := Chan.closed }
  | Chan.nil => none
  | Chan.closed => none

/-- Method `Daemon.Stop`; `none` is a panic. -/
def Daemon.Stop (d : Daemon) : Option Daemon :=
  (if d.stopChan ≠ Chan.nil then d.closeStop else some d).bind fun d1 =>
    let d2 := if d1.listener ≠ Listener.nil then { d1 with listener := Listener.closed } else d1
    d2.blocker.Stop.bind fun b =>
      let d3 := { d2 with blocker := b }
      some { d3 with storage := { closed := true } }

/-- What `handleCommand` does: the daemon after it, the response, the
callback goroutines started by `Skip`, and the effects. -/
structure Handled where
  daemon : Daemon
  response : Response
  spawned : List Phase
  effects : List Effect
  deriving DecidableEq, Repr

/-- The tail of the cases of `handleCommand` that change something:
`d.notifyStatusChange()` and then the response with `d.GetStatus()`. -/
def Daemon.respond (d : Daemon) (spawned : List Phase) (days : List DayStats) :
    Option Handled :=
  (d.notifyStatusChange days).bind fun effects =>
    (d.GetStatus days).map fun status =>
      { daemon := d
        response := { Success := true, Data := some status, Error := "" }
        spawned := spawned
        effects := effects }

/-- Method `Daemon.handleCommand`; `none` is a panic. -/
def Daemon.handleCommand (d : Daemon) (cmd : Command) (now : Int) (days : List DayStats) :
    Option Handled :=
  if cmd.Action = "status" then
    (d.GetStatus days).map fun status =>
      { daemon := d
        response := { Success := true, Data := some status, Error := "" }
        spawned := []
        effects := [] }
  else if cmd.Action = "start" then
    let t :=
      if d.timer.State = State.StatePaused then d.timer.Resume now else d.timer.Start now
    let d1 := { d with timer := t }
    let d2 :=
      { d1 with
        blocker := d1.blocker.SetInInterval (decide (d1.timer.Phase = Phase.PhaseWork)) }
    d2.respond [] days
  else if cmd.Action = "pause" then
    d.timer.Pause.bind fun t =>
      let d1 := { d with timer := t }
      let d2 := { d1 with blocker := d1.blocker.SetInInterval false }
      d2.respond [] days
  else if cmd.Action = "skip" then
    d.timer.Skip.bind fun r =>
      let d1 := { d with timer := r.1 }
      let d2 := { d1 with blocker := d1.blocker.SetInInterval false }
      d2.respond r.2 days
  else if cmd.Action = "reset" then
    d.timer.Reset.bind fun t =>
      let d1 := { d with timer := t }
      let d2 := { d1 with blocker := d1.blocker.SetInInterval false }
      d2.respond [] days
  else if cmd.Action = "toggle_block" then
    let d1 := { d with blocker := d.blocker.ToggleEnabled.1 }
    d1.respond [] days
  else if cmd.Action = "toggle_always" then
    let d1 := { d with blocker := d.blocker.ToggleAlwaysBlock.1 }
    d1.respond [] days
  else
    some
      { daemon := d
        response := { Success := false, Data := none, Error := "unknown action" }
        spawned := []
        effects := [] }

/-- Method `Daemon.handleConnection`: `line` is the result of reading up to
the newline (`none` when the read fails) and `unmarshal` is `json.Unmarshal`
into a `Command` (`none` when it reports an error).  The response written to
the connection is `none` when nothing is written. -/
def Daemon.handleConnection (d : Daemon) (unmarshal : String → Option Command)
    (line : Option String) (now : Int) (days : List DayStats) :
    Option (Daemon × Option Response × List Phase × List Effect) :=
  match line with
  | none => some (d, none, [], [])
  | some text =>
    match unmarshal text with
    | none =>
      some (d, some { Success := false, Data := none, Error := "invalid command" }, [], [])
    | some cmd =>
      (d.handleCommand cmd now days).map fun h =>
        (h.daemon, some h.response, h.spawned, h.effects)

/-- One iteration of the tick loop of the daemon's timer up to
`t.mu.Unlock()`: the daemon after the tick, and the argument of the call
`onComplete(completedPhase)` that the loop makes next, outside the lock. -/
def Daemon.tick (d : Daemon) (now : Int) : Daemon × List Phase :=
  let r := d.timer.tick now
  ({ d with timer := r.1 }, r.2)

/-- The daemon together with the completion callbacks that are due and have
not run yet: `pending` are the goroutines that `Skip` has started, `calling`
the calls that a tick loop makes after it has released the lock of the timer. -/
structure Sys where
  daemon : Daemon
  pending : List Phase
  calling : List Phase
  deriving DecidableEq, Repr

/-- One sequential step of the daemon: a command from the control socket, the
section under the lock of an iteration of the tick loop, the run of the
callback goroutine number `i`, or the call number `i` of the callback by a
tick loop. -/
inductive SysOp
  | command (action : String) (now : Int) (days : List DayStats)
  | tick (now : Int)
  | callback (i : Nat) (days : List DayStats)
  | call (i : Nat) (days : List DayStats)
  deriving DecidableEq, Repr

/-- The effect of one step on the daemon; `none` is a panic. -/
def Sys.step (s : Sys) : SysOp → Option Sys
  | SysOp.command action now days =>
    (s.daemon.handleCommand { Action := action } now days).map fun h =>
      { s with daemon := h.daemon, pending := s.pending ++ h.spawned }
  | SysOp.tick now =>
    let r := s.daemon.tick now
    some { s with daemon := r.1, calling := s.calling ++ r.2 }
  | SysOp.callback i days =>
    match s.pending[i]? with
    | none => some s
    | some phase =>
      (s.daemon.onPhaseComplete phase days).map fun r =>
        { s with daemon := r.1, pending := s.pending.eraseIdx i }
  | SysOp.call i days =>
    match s.calling[i]? with
    | none => some s
    | some phase =>
      (s.daemon.onPhaseComplete phase days).map fun r =>
        { s with daemon := r.1, calling := s.calling.eraseIdx i }

/-- A sequence of steps of the daemon. -/
def Sys.exec : Sys → List SysOp → Option Sys
  | s, [] => some s
  | s, op :: ops => (s.step op).bind fun s1 => Sys.exec s1 ops

/-- The focus flag of the blocker agrees with the timer: `inInterval` is
true exactly when the phase is Work and the timer is running. -/
def Daemon.focusOK (d : Daemon) : Prop :=
  d.blocker.inInterval =
    (decide (d.timer.phase = Phase.PhaseWork) && decide (d.timer.state = State.StateRunning))

/-- What the daemon keeps true between steps: the stop channel of the timer is
consistent, the callback is registered, and the focus flag agrees with the
timer whenever no tick loop has a callback still to call. -/
def Sys.inv (s : Sys) : Prop :=
  s.daemon.timer.chanOK ∧ s.daemon.timer.onComplete = true ∧
    (s.calling = [] → s.daemon.focusOK)

/-- The two decimal digits of a number below one hundred, tens first. -/
def twoDigits (v : Int) : String :=
  String.mk [Nat.digitChar (v.toNat / 10), Nat.digitChar (v.toNat % 10)]

/-! ## The sparklines (`internal/sparkline/sparkline.go`) -/

/-- Table `blocks` of sparkline.go. -/
def blocks : List Char := ['▁', '▂', '▃', '▄', '▅', '▆', '▇', '█']

/-- The loop of `Generate` that raises `maxVal` to the largest value. -/
def Generate.largest (maxVal : Int) : List Int → Int
  | [] => maxVal
  | v :: rest => Generate.largest (if v > maxVal then v else maxVal) rest

/-- The glyph that the loop of `Generate` chooses for the value `v`, with the
product `v * (len(blocks) - 1)` of two `int`s, which wraps around, and Go's
integer division, which truncates toward zero. -/
def blockGlyph (v maxVal : Int) : Option Char :=
  if v ≤ 0 then
    sliceIndex blocks 0
  else if v ≥ maxVal then
    sliceIndex blocks ((blocks.length : Int) - 1)
  else
    sliceIndex blocks (Int.tdiv (wrapInt (v * ((blocks.length : Int) - 1))) maxVal)

/-- The loop `for i, v := range values { result[i] = ... }` over a slice of
runes of the length of `values`: the runes written, or `none` when the choice
of a glyph panics. -/
def fillRunes (glyph : Int → Option Char) : List Int → Option (List Char)
  | [] => some []
  | v :: rest => (glyph v).bind fun c => (fillRunes glyph rest).map fun cs => c :: cs

/-- Function `Generate` of sparkline.go. -/
def Generate (values : List Int) (maxVal : Int) : Option String :=
  if values.length = 0 then
    some ""
  else
    let maxVal1 := if maxVal ≤ 0 then Generate.largest 1 values else maxVal
    (fillRunes (fun v => blockGlyph v maxVal1) values).map String.mk

/-- Function `GenerateBraille` of sparkline.go. -/
def GenerateBraille (values : List Int) (maxVal : Int) : Option String :=
  if values.length = 0 then
    some ""
  else
    let maxVal1 := if maxVal ≤ 0 then 12 else maxVal
    (fillRunes (fun v => brailleGlyph v maxVal1) values).map String.mk

/-- The value `x` clamped to the range from `lo` to `hi`. -/
def clamp (x lo hi : Int) : Int := max lo (min x hi)

/-- The level of the value `v` on a scale of `L` levels with maximum `m`:
`clamp (floor (v * L / m)) 0 L`. -/
def level (L m v : Int) : Int := clamp (Int.fdiv (v * L) m) 0 L

/-- The effective maximum of `Generate`: `maxVal` if positive, otherwise the
largest value, and at least 1. -/
def blocksMax (values : List Int) (maxVal : Int) : Int :=
  if 0 < maxVal then maxVal else values.foldl max 1

/-- The effective maximum of the braille sparklines: `maxVal` if positive,
otherwise 12. -/
def brailleMax (maxVal : Int) : Int :=
  if 0 < maxVal then maxVal else 12

/-- Glyphs separated by exactly two spaces. -/
def spaced : List Char → List Char
  | [] => []
  | [c] => [c]
  | c :: d :: rest => c :: ' ' :: ' ' :: spaced (d :: rest)

/-- The decimal numeral of `n` written with subscript digits: each decimal
digit replaced by the subscript digit for it, in order. -/
def subscriptNumeral (n : Nat) : String :=
  String.mk ((Nat.toDigits 10 n).map fun c => Char.ofNat (0x2080 + (c.toNat - 48)))

/-! ## The menu bar (`internal/menubar/menubar.go`) -/

/-- The menu item whose click `handleClicks` receives. -/
inductive Click
  | start
  | pause
  | skip
  | reset
  | block
  | always
  | openTUI
  | quit
  deriving DecidableEq, Repr

/-- One iteration of the loop of `MenuBar.handleClicks`: what the click does
to the daemon, with the callback goroutines that `Skip` starts; `none` is a
panic.  Checking and unchecking the menu items, opening the terminal and
`systray.Quit` act on the system tray only. -/
def MenuBar.handleClick (d : Daemon) (now : Int) : Click → Option (Daemon × List Phase)
  | Click.start =>
    let d1 := { d with timer := d.timer.Start now }
    some ({ d1 with blocker := d1.blocker.SetInInterval true }, [])
  | Click.pause =>
    d.timer.Pause.map fun t =>
      let d1 := { d with timer := t }
      ({ d1 with blocker := d1.blocker.SetInInterval false }, [])
  | Click.skip =>
    d.timer.Skip.map fun r => ({ d with timer := r.1 }, r.2)
  | Click.reset =>
    d.timer.Reset.map fun t =>
      let d1 := { d with timer := t }
      ({ d1 with blocker := d1.blocker.SetInInterval false }, [])
  | Click.block => some ({ d with blocker := d.blocker.ToggleEnabled.1 }, [])
  | Click.always => some ({ d with blocker := d.blocker.ToggleAlwaysBlock.1 }, [])
  | Click.openTUI => some (d, [])
  | Click.quit => some (d, [])

/-! ## The tick loop among concurrent calls

The steps of the goroutines that run `Timer.run`, interleaved with the calls
of the clients.  A section under the mutex is one step; so is entering the
`select`, which reads the field `t.stopChan` without the mutex and waits on
the channel it read.  Channels are told apart by the number of the `make`
that made them. -/

/-- Where a goroutine that runs `Timer.run` stands: at the head of the `for`
loop; in the `select`, waiting for the ticker and for the stop channel it
read on entering (`none` is the nil channel, which is never ready); after the
ticker case with the instant received, before `t.mu.Lock()`; or returned. -/
inductive LoopPC
  | top
  | selecting (stop : Option Nat)
  | ticked (now : Int)
  | returned
  deriving DecidableEq, Repr

/-- A timer with the channels made for it and the goroutines started for
it: `current` is the channel that `t.stopChan` holds, `made` the number of
channels made, `closed` the channels closed, and `loops` the goroutines in
the order of their `go t.run()`. -/
structure Conc where
  timer : Timer
  current : Option Nat
  made : Nat
  closed : List Nat
  loops : List LoopPC
  deriving DecidableEq, Repr

/-- A fresh timer: no channel and no goroutine. -/
def Conc.New (config : Config) : Conc :=
  { timer := Pomme.New config
    current := none
    made := 0
    closed := []
    loops := [] }

/-- The channels closed after `close(t.stopChan)`. -/
def Conc.closeCurrent (c : Conc) : List Nat :=
  match c.current with
  | some id => id :: c.closed
  | none => c.closed

/-- The channels closed after the guarded `close` of `Pause`, `Skip` and
`Reset`, which runs on a running timer with a stop channel. -/
def Conc.closedAfterStop (c : Conc) : List Nat :=
  if c.timer.state = State.StateRunning ∧ c.timer.stopChan ≠ Chan.nil then
    c.closeCurrent
  else
    c.closed

/-- The method `Start` with its channel and its goroutine. -/
def Conc.Start (c : Conc) (now : Int) : Conc :=
  if c.timer.state = State.StateRunning then
    c
  else
    { timer := c.timer.Start now
      current := some c.made
      made := c.made + 1
      closed := c.closed
      loops := c.loops ++ [LoopPC.top] }

/-- One step of the timer among its goroutines: a call of a client, or a
step of the goroutine number `i`. -/
inductive ConcOp
  | start (now : Int)
  | pause
  | resume (now : Int)
  | skip
  | reset
  | enterSelect (i : Nat)
  | stopCase (i : Nat)
  | tickCase (i : Nat) (now : Int)
  | body (i : Nat)
  deriving DecidableEq, Repr

/-- The effect of one step; `none` when the goroutine is not at that step,
or when the call panics.  `enterSelect` reads `t.stopChan`; `stopCase` is
`case <-t.stopChan`, ready once the channel read is closed; `tickCase` is
`case now := <-ticker.C`; `body` is the section under the mutex, after which
the goroutine is at the head of the loop again. -/
def Conc.step (c : Conc) : ConcOp → Option Conc
  | ConcOp.start now => some (c.Start now)
  | ConcOp.pause =>
    c.timer.Pause.map fun t => { c with timer := t, closed := c.closedAfterStop }
  | ConcOp.resume now =>
    if c.timer.state ≠ State.StatePaused then some c else some (c.Start now)
  | ConcOp.skip =>
    c.timer.Skip.map fun r => { c with timer := r.1, closed := c.closedAfterStop }
  | ConcOp.reset =>
    c.timer.Reset.map fun t => { c with timer := t, closed := c.closedAfterStop }
  | ConcOp.enterSelect i =>
    match c.loops[i]? with
    | some LoopPC.top => some { c with loops := c.loops.set i (LoopPC.selecting c.current) }
    | _ => none
  | ConcOp.stopCase i =>
    match c.loops[i]? with
    | some (LoopPC.selecting (some id)) =>
      if id ∈ c.closed then some { c with loops := c.loops.set i LoopPC.returned } else none
    | _ => none
  | ConcOp.tickCase i now =>
    match c.loops[i]? with
    | some (LoopPC.selecting _) => some { c with loops := c.loops.set i (LoopPC.ticked now) }
    | _ => none
  | ConcOp.body i =>
    match c.loops[i]? with
    | some (LoopPC.ticked now) =>
      some { c with timer := (c.timer.tick now).1, loops := c.loops.set i LoopPC.top }
    | _ => none

/-- A sequence of steps of the timer among its goroutines. -/
def Conc.exec : Conc → List ConcOp → Option Conc
  | c, [] => some c
  | c, op :: ops => (c.step op).bind fun c1 => Conc.exec c1 ops

/-- The goroutines of the tick loop that have not returned. -/
def Conc.live (c : Conc) : Nat :=
  (c.loops.filter fun pc => decide (pc ≠ LoopPC.returned)).length

/-- The goroutines that wait in the `select` on a stop channel that is open,
so that no `close` has reached them. -/
def Conc.waitingOnOpen (c : Conc) : Nat :=
  (c.loops.filter fun pc =>
    match pc with
    | LoopPC.selecting (some id) => decide (id ∉ c.closed)
    | _ => false).length

/-- Whether the channel that `t.stopChan` holds is not closed, so that a
goroutine that reads the field now waits (a nil channel is never ready). -/
def Conc.currentOpen (c : Conc) : Bool :=
  match c.current with
  | some id => decide (id ∉ c.closed)
  | none => true

/-- The tick loops that have not been cancelled: the goroutines that have not
returned, leaving out those that wait in the `select` on a closed channel and,
when the channel that `t.stopChan` holds is closed, those that will read it at
the head of the loop. -/
def Conc.uncancelled (c : Conc) : Nat :=
  (c.loops.filter fun pc =>
    match pc with
    | LoopPC.returned => false
    | LoopPC.selecting (some id) => decide (id ∉ c.closed)
    | LoopPC.selecting none => true
    | LoopPC.top => c.currentOpen
    | LoopPC.ticked _ => c.currentOpen).length

/-! ## Frame lemmas -/

/-- Inside the range of `int` nothing wraps. -/
theorem wrapInt_eq (x : Int) (h0 : MinInt64 ≤ x) (h1 : x ≤ MaxInt64) : wrapInt x = x := by
  unfold MinInt64 at h0
  unfold MaxInt64 at h1
  unfold wrapInt
  omega

/-- The value after the wrap is in the range of `int`. -/
theorem wrapInt_range (x : Int) : MinInt64 ≤ wrapInt x ∧ wrapInt x ≤ MaxInt64 := by
  unfold MinInt64 MaxInt64 wrapInt
  omega

@[simp] theorem advancePhase_config (t : Timer) : t.advancePhase.config = t.config := by
  simp only [Timer.advancePhase]
  split_ifs <;> rfl

@[simp] theorem advancePhase_state (t : Timer) : t.advancePhase.state = t.state := by
  simp only [Timer.advancePhase]
  split_ifs <;> rfl

@[simp] theorem advancePhase_lastTick (t : Timer) : t.advancePhase.lastTick = t.lastTick := by
  simp only [Timer.advancePhase]
  split_ifs <;> rfl

@[simp] theorem advancePhase_onComplete (t : Timer) :
    t.advancePhase.onComplete = t.onComplete := by
  simp only [Timer.advancePhase]
  split_ifs <;> rfl

@[simp] theorem advancePhase_stopChan (t : Timer) : t.advancePhase.stopChan = t.stopChan := by
  simp only [Timer.advancePhase]
  split_ifs <;> rfl

@[simp] theorem advancePhase_tickLoops (t : Timer) :
    t.advancePhase.tickLoops = t.tickLoops := by
  simp only [Timer.advancePhase]
  split_ifs <;> rfl

/-- The phase, the remaining time and the counters after a transition depend
only on the phase, the counters and the configuration before it. -/
theorem advancePhase_core (a b : Timer) (hc : a.config = b.config) (hp : a.phase = b.phase)
    (ht : a.intervalsToday = b.intervalsToday)
    (hi : a.intervalsSinceBreak = b.intervalsSinceBreak) :
    a.advancePhase.phase = b.advancePhase.phase ∧
      a.advancePhase.remaining = b.advancePhase.remaining ∧
      a.advancePhase.intervalsToday = b.advancePhase.intervalsToday ∧
      a.advancePhase.intervalsSinceBreak = b.advancePhase.intervalsSinceBreak := by
  simp only [Timer.advancePhase, hc, hp, ht, hi]
  split_ifs <;> simp

@[simp] theorem stopped_config (t : Timer) : t.stopped.config = t.config := by
  unfold Timer.stopped
  split_ifs <;> rfl

@[simp] theorem stopped_state (t : Timer) : t.stopped.state = t.state := by
  unfold Timer.stopped
  split_ifs <;> rfl

@[simp] theorem stopped_phase (t : Timer) : t.stopped.phase = t.phase := by
  unfold Timer.stopped
  split_ifs <;> rfl

@[simp] theorem stopped_remaining (t : Timer) : t.stopped.remaining = t.remaining := by
  unfold Timer.stopped
  split_ifs <;> rfl

@[simp] theorem stopped_intervalsToday (t : Timer) :
    t.stopped.intervalsToday = t.intervalsToday := by
  unfold Timer.stopped
  split_ifs <;> rfl

@[simp] theorem stopped_intervalsSinceBreak (t : Timer) :
    t.stopped.intervalsSinceBreak = t.intervalsSinceBreak := by
  unfold Timer.stopped
  split_ifs <;> rfl

@[simp] theorem stopped_lastTick (t : Timer) : t.stopped.lastTick = t.lastTick := by
  unfold Timer.stopped
  split_ifs <;> rfl

@[simp] theorem stopped_onComplete (t : Timer) : t.stopped.onComplete = t.onComplete := by
  unfold Timer.stopped
  split_ifs <;> rfl

/-- Stopping a timer that is not running changes nothing. -/
theorem stopped_of_not_running (t : Timer) (h : t.state ≠ State.StateRunning) :
    t.stopped = t := by
  simp [Timer.stopped, h]

/-- On a timer whose channel is consistent, the guarded `close` of `Skip` and
`Reset` does not panic. -/
theorem stopIfRunning_eq (s : Timer) (hwf : s.chanOK) :
    (if s.state = State.StateRunning ∧ s.stopChan ≠ Chan.nil then s.closeStop else some s) =
      some s.stopped := by
  by_cases h : s.state = State.StateRunning
  · have hc := hwf h
    simp [Timer.stopped, Timer.closeStop, h, hc]
  · simp [Timer.stopped, h]

/-- The result of `Skip` on a timer whose channel is consistent. -/
theorem Skip_eq (s : Timer) (hwf : s.chanOK) :
    s.Skip =
      some ({ s.stopped.advancePhase with state := State.StateIdle },
        if s.onComplete then [s.phase] else []) := by
  unfold Timer.Skip
  rw [stopIfRunning_eq s hwf]
  simp

/-- The result of `Reset` on a timer whose channel is consistent. -/
theorem Reset_eq (s : Timer) (hwf : s.chanOK) :
    s.Reset =
      some { s.stopped with
        state := State.StateIdle
        phase := Phase.PhaseWork
        remaining := s.config.WorkDuration
        intervalsSinceBreak := 0 } := by
  unfold Timer.Reset
  rw [stopIfRunning_eq s hwf]
  simp

/-- The result of `Pause` on a running timer whose channel is open. -/
theorem Pause_running (s : Timer) (hr : s.state = State.StateRunning)
    (hc : s.stopChan = Chan.opened) :
    s.Pause = some { s with state := State.StatePaused, stopChan := Chan.closed } := by
  simp [Timer.Pause, Timer.closeStop, hr, hc]

/-- The method `Pause` leaves a timer that is not running as it is. -/
theorem Pause_not_running (s : Timer) (hr : s.state ≠ State.StateRunning) :
    s.Pause = some s := by
  simp [Timer.Pause, hr]

/-- A tick of a timer that is not running changes nothing and calls nothing. -/
theorem tick_not_running (s : Timer) (now : Int) (h : s.state ≠ State.StateRunning) :
    s.tick now = (s, []) := by
  simp [Timer.tick, h]

/-- A tick of a running timer that leaves time on the clock. -/
theorem tick_pos (s : Timer) (now : Int) (h : s.state = State.StateRunning)
    (hpos : 0 < s.remaining - (now - s.lastTick)) :
    s.tick now =
      ({ s with lastTick := now, remaining := s.remaining - (now - s.lastTick) }, []) := by
  simp [Timer.tick, h, not_le.mpr hpos]

/-- A tick of a running timer that exhausts the clock. -/
theorem tick_nonpos (s : Timer) (now : Int) (h : s.state = State.StateRunning)
    (hle : s.remaining - (now - s.lastTick) ≤ 0) :
    s.tick now =
      (({ s with lastTick := now, remaining := s.remaining - (now - s.lastTick) } :
          Timer).advancePhase,
        if s.onComplete then [s.phase] else []) := by
  simp [Timer.tick, h, hle]

/-- The three outcomes of a tick. -/
theorem tick_cases (s : Timer) (now : Int) :
    s.tick now = (s, []) ∨
      (0 < s.remaining - (now - s.lastTick) ∧
        s.tick now =
          ({ s with lastTick := now, remaining := s.remaining - (now - s.lastTick) }, [])) ∨
      s.tick now =
        (({ s with lastTick := now, remaining := s.remaining - (now - s.lastTick) } :
            Timer).advancePhase,
          if s.onComplete then [s.phase] else []) := by
  by_cases h : s.state = State.StateRunning
  · by_cases hpos : 0 < s.remaining - (now - s.lastTick)
    · exact Or.inr (Or.inl ⟨hpos, tick_pos s now h hpos⟩)
    · exact Or.inr (Or.inr (tick_nonpos s now h (not_lt.mp hpos)))
  · exact Or.inl (tick_not_running s now h)

@[simp] theorem tick_state (s : Timer) (now : Int) : (s.tick now).1.state = s.state := by
  rcases tick_cases s now with h | ⟨_, h⟩ | h <;> simp [h]

@[simp] theorem tick_stopChan (s : Timer) (now : Int) :
    (s.tick now).1.stopChan = s.stopChan := by
  rcases tick_cases s now with h | ⟨_, h⟩ | h <;> simp [h]

@[simp] theorem tick_config (s : Timer) (now : Int) : (s.tick now).1.config = s.config := by
  rcases tick_cases s now with h | ⟨_, h⟩ | h <;> simp [h]

@[simp] theorem tick_onComplete (s : Timer) (now : Int) :
    (s.tick now).1.onComplete = s.onComplete := by
  rcases tick_cases s now with h | ⟨_, h⟩ | h <;> simp [h]

/-- The method `Start` leaves the channel of a timer consistent. -/
theorem Start_chanOK (s : Timer) (now : Int) (hwf : s.chanOK) : (s.Start now).chanOK := by
  unfold Timer.Start
  split_ifs with h
  · exact hwf
  · intro _
    rfl

/-- Every step that does not panic leaves the channel consistent. -/
theorem step_chanOK (s : Timer) (op : Op) (r : Timer × List Phase) (hwf : s.chanOK)
    (h : step s op = some r) : r.1.chanOK := by
  cases op with
  | start now =>
    simp only [step, Option.some.injEq] at h
    subst h
    exact Start_chanOK s now hwf
  | pause =>
    by_cases hr : s.state = State.StateRunning
    · simp only [step, Pause_running s hr (hwf hr), Option.map_some', Option.some.injEq] at h
      subst h
      intro h'
      simp at h'
    · simp only [step, Pause_not_running s hr, Option.map_some', Option.some.injEq] at h
      subst h
      exact hwf
  | resume now =>
    simp only [step, Option.some.injEq] at h
    subst h
    unfold Timer.Resume
    split_ifs
    · exact hwf
    · exact Start_chanOK s now hwf
  | skip =>
    simp only [step, Skip_eq s hwf, Option.some.injEq] at h
    subst h
    intro h'
    simp at h'
  | reset =>
    simp only [step, Reset_eq s hwf, Option.map_some', Option.some.injEq] at h
    subst h
    intro h'
    simp at h'
  | setIntervalsToday n =>
    simp only [step, Option.some.injEq] at h
    subst h
    exact hwf
  | setOnComplete registered =>
    simp only [step, Option.some.injEq] at h
    subst h
    exact hwf
  | tick now =>
    simp only [step, Option.some.injEq] at h
    subst h
    intro h'
    rw [tick_state] at h'
    rw [tick_stopChan]
    exact hwf h'

/-- On a timer whose channel is consistent no step panics. -/
theorem step_total (s : Timer) (op : Op) (hwf : s.chanOK) : ∃ r, step s op = some r := by
  cases op with
  | start now => exact ⟨_, rfl⟩
  | pause =>
    show ∃ r, (s.Pause.map fun t1 => (t1, ([] : List Phase))) = some r
    by_cases hr : s.state = State.StateRunning
    · rw [Pause_running s hr (hwf hr)]
      exact ⟨_, rfl⟩
    · rw [Pause_not_running s hr]
      exact ⟨_, rfl⟩
  | resume now => exact ⟨_, rfl⟩
  | skip =>
    show ∃ r, s.Skip = some r
    rw [Skip_eq s hwf]
    exact ⟨_, rfl⟩
  | reset =>
    show ∃ r, (s.Reset.map fun t1 => (t1, ([] : List Phase))) = some r
    rw [Reset_eq s hwf]
    exact ⟨_, rfl⟩
  | setIntervalsToday n => exact ⟨_, rfl⟩
  | setOnComplete registered => exact ⟨_, rfl⟩
  | tick now => exact ⟨_, rfl⟩

@[simp] theorem Start_config (s : Timer) (now : Int) : (s.Start now).config = s.config := by
  unfold Timer.Start
  split_ifs <;> rfl

@[simp] theorem Start_phase (s : Timer) (now : Int) : (s.Start now).phase = s.phase := by
  unfold Timer.Start
  split_ifs <;> rfl

@[simp] theorem Start_remaining (s : Timer) (now : Int) :
    (s.Start now).remaining = s.remaining := by
  unfold Timer.Start
  split_ifs <;> rfl

@[simp] theorem Start_intervalsToday (s : Timer) (now : Int) :
    (s.Start now).intervalsToday = s.intervalsToday := by
  unfold Timer.Start
  split_ifs <;> rfl

@[simp] theorem Start_intervalsSinceBreak (s : Timer) (now : Int) :
    (s.Start now).intervalsSinceBreak = s.intervalsSinceBreak := by
  unfold Timer.Start
  split_ifs <;> rfl

@[simp] theorem Start_onComplete (s : Timer) (now : Int) :
    (s.Start now).onComplete = s.onComplete := by
  unfold Timer.Start
  split_ifs <;> rfl

@[simp] theorem Resume_config (s : Timer) (now : Int) : (s.Resume now).config = s.config := by
  unfold Timer.Resume
  split_ifs <;> simp

@[simp] theorem Resume_phase (s : Timer) (now : Int) : (s.Resume now).phase = s.phase := by
  unfold Timer.Resume
  split_ifs <;> simp

@[simp] theorem Resume_remaining (s : Timer) (now : Int) :
    (s.Resume now).remaining = s.remaining := by
  unfold Timer.Resume
  split_ifs <;> simp

@[simp] theorem Resume_intervalsToday (s : Timer) (now : Int) :
    (s.Resume now).intervalsToday = s.intervalsToday := by
  unfold Timer.Resume
  split_ifs <;> simp

@[simp] theorem Resume_intervalsSinceBreak (s : Timer) (now : Int) :
    (s.Resume now).intervalsSinceBreak = s.intervalsSinceBreak := by
  unfold Timer.Resume
  split_ifs <;> simp

@[simp] theorem Resume_onComplete (s : Timer) (now : Int) :
    (s.Resume now).onComplete = s.onComplete := by
  unfold Timer.Resume
  split_ifs <;> simp

/-- What one step does to the configuration, the phase, the remaining time,
the counters and the callback: it leaves the phase and the counters alone and
calls nothing (the remaining time is kept, or is what a tick left on the
clock), or it is a phase transition with its callback, or it is `Reset`, or
it is `SetIntervalsToday`. -/
theorem step_core (s : Timer) (op : Op) (r : Timer × List Phase) (hwf : s.chanOK)
    (h : step s op = some r) :
    r.1.config = s.config ∧
    ((r.1.phase = s.phase ∧ r.1.intervalsToday = s.intervalsToday ∧
        r.1.intervalsSinceBreak = s.intervalsSinceBreak ∧
        (r.1.remaining = s.remaining ∨ 0 < r.1.remaining) ∧ r.2 = []) ∨
      (r.1.phase = s.advancePhase.phase ∧
        r.1.remaining = s.advancePhase.remaining ∧
        r.1.intervalsToday = s.advancePhase.intervalsToday ∧
        r.1.intervalsSinceBreak = s.advancePhase.intervalsSinceBreak ∧
        r.2 = if s.onComplete then [s.phase] else []) ∨
      (op = Op.reset ∧ r.1.phase = Phase.PhaseWork ∧
        r.1.remaining = s.config.WorkDuration ∧
        r.1.intervalsToday = s.intervalsToday ∧
        r.1.intervalsSinceBreak = 0 ∧ r.2 = []) ∨
      (∃ n, op = Op.setIntervalsToday n ∧ r.1.phase = s.phase ∧
        r.1.remaining = s.remaining ∧
        r.1.intervalsToday = n ∧
        r.1.intervalsSinceBreak = s.intervalsSinceBreak ∧ r.2 = [])) := by
  cases op with
  | start now =>
    simp only [step, Option.some.injEq] at h
    subst h
    exact ⟨by simp, Or.inl ⟨by simp, by simp, by simp, Or.inl (by simp), rfl⟩⟩
  | pause =>
    by_cases hr : s.state = State.StateRunning
    · simp only [step, Pause_running s hr (hwf hr), Option.map_some', Option.some.injEq] at h
      subst h
      exact ⟨rfl, Or.inl ⟨rfl, rfl, rfl, Or.inl rfl, rfl⟩⟩
    · simp only [step, Pause_not_running s hr, Option.map_some', Option.some.injEq] at h
      subst h
      exact ⟨rfl, Or.inl ⟨rfl, rfl, rfl, Or.inl rfl, rfl⟩⟩
  | resume now =>
    simp only [step, Option.some.injEq] at h
    subst h
    exact ⟨by simp, Or.inl ⟨by simp, by simp, by simp, Or.inl (by simp), rfl⟩⟩
  | skip =>
    simp only [step, Skip_eq s hwf, Option.some.injEq] at h
    subst h
    obtain ⟨h1, h2, h3, h4⟩ :=
      advancePhase_core s.stopped s (by simp) (by simp) (by simp) (by simp)
    exact ⟨by simp, Or.inr (Or.inl ⟨h1, h2, h3, h4, rfl⟩)⟩
  | reset =>
    simp only [step, Reset_eq s hwf, Option.map_some', Option.some.injEq] at h
    subst h
    exact ⟨by simp, Or.inr (Or.inr (Or.inl ⟨rfl, rfl, rfl, by simp, rfl, rfl⟩))⟩
  | setIntervalsToday n =>
    simp only [step, Option.some.injEq] at h
    subst h
    exact ⟨rfl, Or.inr (Or.inr (Or.inr ⟨n, rfl, rfl, rfl, rfl, rfl, rfl⟩))⟩
  | setOnComplete registered =>
    simp only [step, Option.some.injEq] at h
    subst h
    exact ⟨rfl, Or.inl ⟨rfl, rfl, rfl, Or.inl rfl, rfl⟩⟩
  | tick now =>
    simp only [step, Option.some.injEq] at h
    subst h
    refine ⟨by simp, ?_⟩
    rcases tick_cases s now with h | ⟨hpos, h⟩ | h
    · rw [h]
      exact Or.inl ⟨rfl, rfl, rfl, Or.inl rfl, rfl⟩
    · rw [h]
      exact Or.inl ⟨rfl, rfl, rfl, Or.inr hpos, rfl⟩
    · rw [h]
      obtain ⟨h1, h2, h3, h4⟩ :=
        advancePhase_core
          { s with lastTick := now, remaining := s.remaining - (now - s.lastTick) } s
          rfl rfl rfl rfl
      exact Or.inr (Or.inl ⟨h1, h2, h3, h4, rfl⟩)

/-- After a transition the break counter is again below the threshold. -/
theorem advancePhase_intervalsSinceBreak_range (s : Timer)
    (hk : 1 ≤ s.config.LongBreakAfter) (hmax : s.config.LongBreakAfter ≤ MaxInt64)
    (h : 0 ≤ s.intervalsSinceBreak ∧ s.intervalsSinceBreak < s.config.LongBreakAfter) :
    0 ≤ s.advancePhase.intervalsSinceBreak ∧
      s.advancePhase.intervalsSinceBreak < s.config.LongBreakAfter := by
  have hw : wrapInt (s.intervalsSinceBreak + 1) = s.intervalsSinceBreak + 1 :=
    wrapInt_eq _ (by unfold MinInt64; omega) (by omega)
  simp only [Timer.advancePhase, hw]
  split_ifs with h1 h2
  · dsimp only
    omega
  · dsimp only at h2 ⊢
    omega
  · exact h

/-- After a transition the remaining time is a configured duration. -/
theorem advancePhase_remaining_pos (s : Timer) (hw : 0 < s.config.WorkDuration)
    (hs : 0 < s.config.ShortBreakDuration) (hl : 0 < s.config.LongBreakDuration) :
    0 < s.advancePhase.remaining := by
  simp only [Timer.advancePhase]
  split_ifs
  · exact hl
  · exact hs
  · exact hw

/-- The transition out of the Work phase when neither increment wraps. -/
theorem advancePhase_work (s : Timer) (hw : s.phase = Phase.PhaseWork)
    (hwt : wrapInt (s.intervalsToday + 1) = s.intervalsToday + 1)
    (hwi : wrapInt (s.intervalsSinceBreak + 1) = s.intervalsSinceBreak + 1) :
    s.advancePhase.intervalsToday = s.intervalsToday + 1 ∧
      ((s.config.LongBreakAfter ≤ s.intervalsSinceBreak + 1 ∧
          s.advancePhase.phase = Phase.PhaseLongBreak ∧
          s.advancePhase.intervalsSinceBreak = 0) ∨
        (s.intervalsSinceBreak + 1 < s.config.LongBreakAfter ∧
          s.advancePhase.phase = Phase.PhaseShortBreak ∧
          s.advancePhase.intervalsSinceBreak = s.intervalsSinceBreak + 1)) := by
  simp only [Timer.advancePhase, hw, if_true, hwt, hwi]
  split_ifs with h
  · exact ⟨rfl, Or.inl ⟨h, rfl, rfl⟩⟩
  · exact ⟨rfl, Or.inr ⟨not_le.mp h, rfl, rfl⟩⟩

/-- The transition out of a break. -/
theorem advancePhase_break (s : Timer) (hb : s.phase ≠ Phase.PhaseWork) :
    s.advancePhase.phase = Phase.PhaseWork ∧
      s.advancePhase.intervalsToday = s.intervalsToday ∧
      s.advancePhase.intervalsSinceBreak = s.intervalsSinceBreak := by
  simp only [Timer.advancePhase, if_neg hb, and_self]

/-- A step of an uninterrupted run keeps the callback. -/
theorem step_onComplete (s : Timer) (op : Op) (r : Timer × List Phase) (hwf : s.chanOK)
    (hrun : op.isRun = true) (h : step s op = some r) : r.1.onComplete = s.onComplete := by
  cases op with
  | start now =>
    simp only [step, Option.some.injEq] at h
    subst h
    simp
  | pause =>
    by_cases hr : s.state = State.StateRunning
    · simp only [step, Pause_running s hr (hwf hr), Option.map_some', Option.some.injEq] at h
      subst h
      rfl
    · simp only [step, Pause_not_running s hr, Option.map_some', Option.some.injEq] at h
      subst h
      rfl
  | resume now =>
    simp only [step, Option.some.injEq] at h
    subst h
    simp
  | skip =>
    simp only [step, Skip_eq s hwf, Option.some.injEq] at h
    subst h
    simp
  | reset => simp [Op.isRun] at hrun
  | setIntervalsToday n => simp [Op.isRun] at hrun
  | setOnComplete registered => simp [Op.isRun] at hrun
  | tick now =>
    simp only [step, Option.some.injEq] at h
    subst h
    simp

/-- The position in the cycle depends on the configuration, the phase and
the counters only. -/
theorem Cycle_congr (n : Int) (a b : Timer) (evs : List Phase) (hc : b.config = a.config)
    (hp : b.phase = a.phase) (ht : b.intervalsToday = a.intervalsToday)
    (hi : b.intervalsSinceBreak = a.intervalsSinceBreak) (h : Cycle n a evs) :
    Cycle n b evs := by
  unfold Cycle at h ⊢
  rw [hc, hp, ht, hi]
  exact h

/-- A phase transition with its callback moves the timer one place along the
cycle, when the threshold is an `int` and the seed leaves room for the
intervals of the cycle. -/
theorem Cycle_advance (n : Int) (s : Timer) (evs : List Phase)
    (hmax : s.config.LongBreakAfter ≤ MaxInt64) (hn0 : MinInt64 ≤ n)
    (hn1 : n + s.config.LongBreakAfter ≤ MaxInt64) (h : Cycle n s evs) :
    Cycle n s.advancePhase (evs ++ [s.phase]) := by
  have hl : (evs ++ [s.phase]).length = evs.length + 1 := by simp
  unfold Cycle at h ⊢
  rw [advancePhase_config]
  rcases h with ⟨j, hlen, hj, hcount, hp, hi, ht⟩ | ⟨j, hlen, hj, hcount, hp, hi, ht⟩ |
    ⟨hlen, hcount, hp, hi, ht⟩ | hlen
  · have hcnt : (evs ++ [s.phase]).count Phase.PhaseWork = evs.count Phase.PhaseWork + 1 := by
      rw [hp]
      simp
    obtain ⟨ht', hcase⟩ :=
      advancePhase_work s hp (wrapInt_eq _ (by omega) (by omega))
        (wrapInt_eq _ (by unfold MinInt64; omega) (by omega))
    rcases hcase with ⟨hge, hp', hi'⟩ | ⟨hlt, hp', hi'⟩
    · refine Or.inr (Or.inr (Or.inl ⟨?_, ?_, hp', hi', ?_⟩))
      · omega
      · omega
      · omega
    · refine Or.inr (Or.inl ⟨j, ?_, ?_, ?_, hp', ?_, ?_⟩)
      · omega
      · omega
      · omega
      · omega
      · omega
  · have hb : s.phase ≠ Phase.PhaseWork := by
      rw [hp]
      decide
    have hcnt : (evs ++ [s.phase]).count Phase.PhaseWork = evs.count Phase.PhaseWork := by
      rw [hp]
      simp
    obtain ⟨hp', ht', hi'⟩ := advancePhase_break s hb
    refine Or.inl ⟨j + 1, ?_, ?_, ?_, hp', ?_, ?_⟩
    · omega
    · push_cast
      omega
    · omega
    · push_cast
      omega
    · push_cast
      omega
  · refine Or.inr (Or.inr (Or.inr ?_))
    omega
  · refine Or.inr (Or.inr (Or.inr ?_))
    omega

/-- A step of an uninterrupted run of a timer with a callback keeps the
timer on the cycle. -/
theorem step_Cycle (n : Int) (s : Timer) (op : Op) (r : Timer × List Phase)
    (pre : List Phase) (hmax : s.config.LongBreakAfter ≤ MaxInt64) (hn0 : MinInt64 ≤ n)
    (hn1 : n + s.config.LongBreakAfter ≤ MaxInt64)
    (hwf : s.chanOK) (hcb : s.onComplete = true) (hrun : op.isRun = true)
    (hcyc : Cycle n s pre) (h : step s op = some r) : Cycle n r.1 (pre ++ r.2) := by
  obtain ⟨hc, hcases⟩ := step_core s op r hwf h
  rcases hcases with ⟨hp, ht, hi, _, hev⟩ | ⟨hp, _, ht, hi, hev⟩ | ⟨hop, _⟩ | ⟨m, hop, _⟩
  · rw [hev, List.append_nil]
    exact Cycle_congr n s r.1 pre hc hp ht hi hcyc
  · rw [hev, hcb, if_pos rfl]
    exact Cycle_congr n s.advancePhase r.1 _ (by rw [hc, advancePhase_config]) hp ht hi
      (Cycle_advance n s pre hmax hn0 hn1 hcyc)
  · rw [hop] at hrun
    simp [Op.isRun] at hrun
  · rw [hop] at hrun
    simp [Op.isRun] at hrun

/-- Unfolding of `exec` on a sequence that starts with `op`. -/
theorem exec_cons_eq_some (s : Timer) (op : Op) (ops : List Op) (r : Timer × List Phase)
    (h : exec s (op :: ops) = some r) :
    ∃ r1 r2, step s op = some r1 ∧ exec r1.1 ops = some r2 ∧ r = (r2.1, r1.2 ++ r2.2) := by
  simp only [exec, Option.bind_eq_some] at h
  obtain ⟨r1, h1, r2, h2, h3⟩ := h
  exact ⟨r1, r2, h1, h2, (Option.some.inj h3).symm⟩

/-- A property of timers that every step preserves holds after every
sequence of steps. -/
theorem exec_invariant (I : Timer → Prop)
    (hstep : ∀ (s : Timer) (op : Op) (r : Timer × List Phase),
      I s → step s op = some r → I r.1) :
    ∀ (ops : List Op) (s : Timer) (r : Timer × List Phase),
      I s → exec s ops = some r → I r.1 := by
  intro ops
  induction ops with
  | nil =>
    intro s r hI h
    simp only [exec, Option.some.injEq] at h
    subst h
    exact hI
  | cons op ops ih =>
    intro s r hI h
    obtain ⟨r1, r2, h1, h2, h3⟩ := exec_cons_eq_some s op ops r h
    subst h3
    exact ih r1.1 r2 (hstep s op r1 hI h1) h2

/-- An uninterrupted run of a timer with a callback keeps the timer on the
cycle. -/
theorem exec_Cycle (n : Int) (hn0 : MinInt64 ≤ n) (ops : List Op) :
    ∀ (s : Timer) (r : Timer × List Phase) (pre : List Phase),
      s.config.LongBreakAfter ≤ MaxInt64 → n + s.config.LongBreakAfter ≤ MaxInt64 →
      (∀ op ∈ ops, op.isRun = true) → s.chanOK → s.onComplete = true → Cycle n s pre →
      exec s ops = some r → Cycle n r.1 (pre ++ r.2) := by
  induction ops with
  | nil =>
    intro s r pre _ _ _ _ _ hcyc h
    simp only [exec, Option.some.injEq] at h
    subst h
    rw [List.append_nil]
    exact hcyc
  | cons op ops ih =>
    intro s r pre hmax hn1 hrun hwf hcb hcyc h
    obtain ⟨r1, r2, h1, h2, h3⟩ := exec_cons_eq_some s op ops r h
    subst h3
    have hop : op.isRun = true := hrun op (List.mem_cons_self op ops)
    have hrest : ∀ o ∈ ops, o.isRun = true := fun o ho => hrun o (List.mem_cons_of_mem op ho)
    have hcyc1 := step_Cycle n s op r1 pre hmax hn0 hn1 hwf hcb hop hcyc h1
    have hcb1 : r1.1.onComplete = true := (step_onComplete s op r1 hwf hop h1).trans hcb
    have hcfg1 : r1.1.config = s.config := (step_core s op r1 hwf h1).1
    have := ih r1.1 r2 (pre ++ r1.2) (by rw [hcfg1]; exact hmax) (by rw [hcfg1]; exact hn1)
      hrest (step_chanOK s op r1 hwf h1) hcb1 hcyc1 h2
    rw [List.append_assoc] at this
    exact this

/-- The channel of a fresh timer is consistent. -/
theorem New_chanOK (config : Config) : (New config).chanOK := by
  intro h
  simp [New] at h

/-- The channel of every timer reached from a consistent one is consistent. -/
theorem exec_chanOK (ops : List Op) (s : Timer) (r : Timer × List Phase) (hwf : s.chanOK)
    (h : exec s ops = some r) : r.1.chanOK :=
  exec_invariant Timer.chanOK step_chanOK ops s r hwf h

/-- No sequence of steps panics on a timer whose channel is consistent. -/
theorem exec_total (ops : List Op) : ∀ (s : Timer), s.chanOK → ∃ r, exec s ops = some r := by
  induction ops with
  | nil =>
    intro s _
    exact ⟨_, rfl⟩
  | cons op ops ih =>
    intro s hwf
    obtain ⟨r1, h1⟩ := step_total s op hwf
    obtain ⟨r2, h2⟩ := ih r1.1 (step_chanOK s op r1 hwf h1)
    exact ⟨(r2.1, r1.2 ++ r2.2), by simp [exec, h1, h2]⟩

/-! ## Lemmas on ticks and tick loops -/

@[simp] theorem tick_tickLoops (s : Timer) (now : Int) :
    (s.tick now).1.tickLoops = s.tickLoops := by
  rcases tick_cases s now with h | ⟨_, h⟩ | h <;> simp [h]

/-- After a transition the remaining time is the full duration of the new
phase, whatever it was before. -/
theorem advancePhase_remaining (s : Timer) :
    s.advancePhase.remaining = s.config.duration s.advancePhase.phase := by
  simp only [Timer.advancePhase]
  split_ifs <;> rfl

/-- The method `Pause` never leaves a timer running. -/
theorem Pause_state (s p : Timer) (h : s.Pause = some p) : p.state ≠ State.StateRunning := by
  by_cases hr : s.state = State.StateRunning
  · cases hsc : s.stopChan <;>
      simp [Timer.Pause, Timer.closeStop, hr, hsc] at h <;>
      (subst h; simp)
  · rw [Pause_not_running s hr, Option.some.injEq] at h
    subst h
    exact hr

/-- The method `Skip` leaves the timer idle. -/
theorem Skip_state (s : Timer) (r : Timer × List Phase) (h : s.Skip = some r) :
    r.1.state = State.StateIdle := by
  simp only [Timer.Skip, Option.bind_eq_some, Option.some.injEq] at h
  obtain ⟨t1, _, h2⟩ := h
  subst h2
  rfl

/-- The method `Reset` leaves the timer idle. -/
theorem Reset_state (s p : Timer) (h : s.Reset = some p) : p.state = State.StateIdle := by
  simp only [Timer.Reset, Option.bind_eq_some, Option.some.injEq] at h
  obtain ⟨t1, _, h2⟩ := h
  subst h2
  rfl

/-- In a chain of instants no instant is later than the last. -/
theorem chain_le_getLastD (l : List Int) :
    ∀ a : Int, List.Chain (fun x y => x ≤ y) a l → a ≤ l.getLastD a := by
  induction l with
  | nil =>
    intro a _
    exact le_refl a
  | cons b l ih =>
    intro a h
    rw [List.chain_cons] at h
    rw [List.getLastD_cons]
    exact le_trans h.1 (ih b h.2)

/-! ## Lemmas on rendering -/

/-- An index inside the table `brailleExt` finds a glyph. -/
theorem sliceIndex_brailleExt (i : Int) (h0 : 0 ≤ i) (h8 : i ≤ 8) :
    ∃ c, sliceIndex brailleExt i = some c := by
  interval_cases i <;> exact ⟨_, rfl⟩

/-- With a positive maximum every value whose product with the number of
levels does not wrap has a glyph. -/
theorem brailleGlyph_total (v maxVal : Int) (hmax : 0 < maxVal)
    (hfit : v < maxVal → v * 8 ≤ MaxInt64) :
    ∃ c, brailleGlyph v maxVal = some c := by
  unfold brailleGlyph
  have hlev : ((brailleExt.length : Int) - 1) = 8 := by decide
  simp only [hlev]
  split_ifs with h1 h2
  · exact sliceIndex_brailleExt 0 (by decide) (by decide)
  · exact sliceIndex_brailleExt 8 (by decide) (by decide)
  · have hv : 0 ≤ v * 8 := by omega
    rw [wrapInt_eq _ (by unfold MinInt64; omega) (hfit (by omega)),
      Int.tdiv_eq_ediv hv (le_of_lt hmax)]
    apply sliceIndex_brailleExt
    · exact Int.ediv_nonneg hv (le_of_lt hmax)
    · have : v * 8 / maxVal < 8 := Int.ediv_lt_of_lt_mul hmax (by omega)
      omega

/-- With a positive maximum the loop of `GenerateBrailleSpaced` returns on
values whose products do not wrap. -/
theorem GenerateBrailleSpaced_loop_total (len maxVal : Int) (hmax : 0 < maxVal)
    (values : List Int) (hfit : ∀ v ∈ values, v < maxVal → v * 8 ≤ MaxInt64) :
    ∀ (i : Int) (result : String),
      ∃ text, GenerateBrailleSpaced.loop len maxVal i values result = some text := by
  induction values with
  | nil =>
    intro i result
    exact ⟨result, rfl⟩
  | cons v rest ih =>
    intro i result
    obtain ⟨c, hc⟩ := brailleGlyph_total v maxVal hmax (hfit v (List.mem_cons_self v rest))
    simp only [GenerateBrailleSpaced.loop, hc, Option.some_bind]
    exact ih (fun w hw => hfit w (List.mem_cons_of_mem v hw)) _ _

/-- The function `GenerateBrailleSpaced` returns on values whose products do
not wrap. -/
theorem GenerateBrailleSpaced_total (values : List Int) (maxVal : Int)
    (hfit : ∀ v ∈ values, v < (if maxVal ≤ 0 then 12 else maxVal) → v * 8 ≤ MaxInt64) :
    ∃ text, GenerateBrailleSpaced values maxVal = some text := by
  by_cases h : values.length = 0
  · exact ⟨"", by rw [GenerateBrailleSpaced, if_pos h]⟩
  · rw [GenerateBrailleSpaced, if_neg h]
    apply GenerateBrailleSpaced_loop_total
    · split_ifs <;> omega
    · exact hfit

/-- With the daily goal as maximum `GenerateBrailleSpaced` returns on every
list: a value below 12 has a product below 96. -/
theorem GenerateBrailleSpaced_DailyGoal (values : List Int) :
    ∃ text, GenerateBrailleSpaced values DailyGoal = some text := by
  apply GenerateBrailleSpaced_total
  intro v _ hv
  have h12 : (if DailyGoal ≤ 0 then (12 : Int) else DailyGoal) = 12 := by decide
  rw [h12] at hv
  unfold MaxInt64
  omega

/-- An index inside the table `subscripts` finds a text. -/
theorem sliceIndex_subscripts (i : Int) (h0 : 0 ≤ i) (h12 : i ≤ 12) :
    ∃ t, sliceIndex subscripts i = some t := by
  interval_cases i <;> exact ⟨_, rfl⟩

/-- The function `Subscript` returns on every input. -/
theorem Subscript_total (n : Int) : ∃ text, Subscript n = some text := by
  unfold Subscript
  have hlen : (subscripts.length : Int) = 13 := by decide
  simp only [hlen]
  split_ifs with h1 h2
  · exact sliceIndex_subscripts n h1.1 (by omega)
  · have hn : 0 ≤ n := by omega
    obtain ⟨t, ht⟩ :=
      sliceIndex_subscripts (Int.tmod n 10) (Int.tmod_nonneg 10 hn)
        (by
          have := Int.tmod_lt_of_pos n (show (0 : Int) < 10 by decide)
          omega)
    exact ⟨_, by rw [ht]; rfl⟩
  · exact ⟨_, rfl⟩

/-- The function `CompactStatus` returns on every input. -/
theorem CompactStatus_total (icon time sparkline : String) (todayCount : Int) :
    ∃ text, CompactStatus icon time sparkline todayCount = some text := by
  obtain ⟨sub, hsub⟩ := Subscript_total todayCount
  exact ⟨_, by rw [CompactStatus, hsub]; rfl⟩

/-! ## Lemmas on `float64` -/

/-- Rounding keeps a number between the integers it lies between. -/
theorem roundEven_sandwich (y : ℚ) (a b : Int) (ha : (a : ℚ) ≤ y) (hb : y ≤ (b : ℚ)) :
    a ≤ roundEven y ∧ roundEven y ≤ b := by
  have hfa : a ≤ Int.floor y := Int.le_floor.mpr ha
  have hfb : Int.floor y ≤ b := Int.floor_le_floor hb |>.trans (by simp)
  have hstep : (Int.floor y : ℚ) < y → Int.floor y + 1 ≤ b := by
    intro hlt
    have : ((Int.floor y : Int) : ℚ) < (b : ℚ) := lt_of_lt_of_le hlt hb
    have := Int.cast_lt.mp this
    omega
  unfold roundEven
  simp only
  split_ifs with h1 h2 h3
  · exact ⟨hfa, hfb⟩
  · have hlt : (Int.floor y : ℚ) < y := by linarith
    exact ⟨by omega, hstep hlt⟩
  · exact ⟨hfa, hfb⟩
  · have hlt : (Int.floor y : ℚ) < y := by linarith
    exact ⟨by omega, hstep hlt⟩

/-- Rounding gives the integer that is less than one half away. -/
theorem roundEven_near (y : ℚ) (n : Int) (h : |y - n| < 1 / 2) : roundEven y = n := by
  rw [abs_lt] at h
  obtain ⟨h1, h2⟩ := h
  unfold roundEven
  simp only
  by_cases hn : (n : ℚ) ≤ y
  · have hf : Int.floor y = n := by
      rw [Int.floor_eq_iff]
      constructor
      · exact hn
      · linarith
    rw [hf, if_pos (by linarith)]
  · have hf : Int.floor y = n - 1 := by
      rw [Int.floor_eq_iff]
      push_cast
      constructor
      · linarith
      · linarith
    rw [hf]
    push_cast
    rw [if_neg (by linarith), if_pos (by linarith)]
    ring

/-- The unit in the last place of a positive number below `2 ^ (k + 1)`
divides `2 ^ (k - 52)`. -/
theorem ulp_dvd (x : ℚ) (k : Int) (hx : 0 < x) (hk : -1022 ≤ k) (hxk : x < 2 ^ (k + 1)) :
    ∃ m : Nat, (2 : ℚ) ^ (k - 52) =
      (m : ℚ) * 2 ^ (max (Int.log 2 |x|) (-1022) - 52) ∧
      (0 : ℚ) < 2 ^ (max (Int.log 2 |x|) (-1022) - 52) := by
  have habs : |x| = x := abs_of_pos hx
  rw [habs]
  have hlog : Int.log 2 x < k + 1 := by
    rw [← Int.lt_zpow_iff_log_lt (by norm_num) hx]
    exact_mod_cast hxk
  have he : max (Int.log 2 x) (-1022) ≤ k := by omega
  generalize max (Int.log 2 x) (-1022) = e at he
  refine ⟨2 ^ (k - e).toNat, ?_, by positivity⟩
  have h1 : k - 52 = ((k - e).toNat : Int) + (e - 52) := by
    rw [Int.toNat_of_nonneg (by omega)]
    ring
  rw [h1, zpow_add₀ (by norm_num), zpow_natCast]
  push_cast
  rfl

/-- Rounding to `float64` keeps a positive number between two numbers of the
grid `2 ^ (k - 52)` that it lies between, when it is below `2 ^ (k + 1)`. -/
theorem float64_sandwich (x a b : ℚ) (k na nb : Int) (hx : 0 < x) (hk : -1022 ≤ k)
    (hxk : x < 2 ^ (k + 1)) (ha : a = na * 2 ^ (k - 52)) (hb : b = nb * 2 ^ (k - 52))
    (hax : a ≤ x) (hxb : x ≤ b) : a ≤ float64 x ∧ float64 x ≤ b := by
  obtain ⟨m, hm, hu⟩ := ulp_dvd x k hx hk hxk
  unfold float64
  rw [if_neg (ne_of_gt hx)]
  simp only
  generalize (2 : ℚ) ^ (max (Int.log 2 |x|) (-1022) - 52) = u at hm hu
  rw [hm] at ha hb
  have ha' : ((na * m : Int) : ℚ) ≤ x / u := by
    rw [le_div_iff₀ hu]
    push_cast
    rw [ha] at hax
    linarith
  have hb' : x / u ≤ ((nb * m : Int) : ℚ) := by
    rw [div_le_iff₀ hu]
    push_cast
    rw [hb] at hxb
    linarith
  obtain ⟨h1, h2⟩ := roundEven_sandwich (x / u) (na * m) (nb * m) ha' hb'
  have h1' : ((na * m : Int) : ℚ) ≤ (roundEven (x / u) : ℚ) := by exact_mod_cast h1
  have h2' : (roundEven (x / u) : ℚ) ≤ ((nb * m : Int) : ℚ) := by exact_mod_cast h2
  push_cast at h1' h2'
  constructor
  · rw [ha]
    nlinarith
  · rw [hb]
    nlinarith

/-- Rounding a positive number with exponent `k` gives the number of the grid
`2 ^ (k - 52)` that is less than half a unit away. -/
theorem float64_near (x : ℚ) (k n : Int) (hx : 0 < x) (hk : -1022 ≤ k)
    (hlo : 2 ^ k ≤ x) (hhi : x < 2 ^ (k + 1)) (hn : |x / 2 ^ (k - 52) - n| < 1 / 2) :
    float64 x = n * 2 ^ (k - 52) := by
  have habs : |x| = x := abs_of_pos hx
  have hlog1 : Int.log 2 x < k + 1 := by
    rw [← Int.lt_zpow_iff_log_lt (by norm_num) hx]
    exact_mod_cast hhi
  have hlog2 : k ≤ Int.log 2 x := by
    rw [← Int.zpow_le_iff_le_log (by norm_num) hx]
    exact_mod_cast hlo
  have he : max (Int.log 2 x) (-1022) = k := by omega
  unfold float64
  rw [if_neg (ne_of_gt hx)]
  simp only
  rw [habs, he, roundEven_near _ n hn]

/-- An integer below `2 ^ 53` is a `float64`. -/
theorem float64_int (n : Int) (h0 : 0 ≤ n) (h : n < 9007199254740992) :
    float64 (n : ℚ) = n := by
  rcases eq_or_lt_of_le h0 with h0 | h0
  · rw [← h0]
    simp [float64]
  · have hx : (0 : ℚ) < n := by exact_mod_cast h0
    have hlt : (n : ℚ) < 2 ^ ((52 : Int) + 1) := by
      have : (n : ℚ) < 9007199254740992 := by exact_mod_cast h
      norm_num
      exact this
    obtain ⟨h1, h2⟩ :=
      float64_sandwich n n n 52 n n hx (by decide) hlt (by norm_num) (by norm_num)
        (le_refl _) (le_refl _)
    exact le_antisymm h2 h1

/-- Rounding to an integer moves a number by one half at most. -/
theorem roundEven_error (y : ℚ) : |(roundEven y : ℚ) - y| ≤ 1 / 2 := by
  have h1 : (Int.floor y : ℚ) ≤ y := Int.floor_le y
  have h2 : y < (Int.floor y : ℚ) + 1 := Int.lt_floor_add_one y
  unfold roundEven
  simp only
  rw [abs_le]
  split_ifs with h3 h4 h5
  · constructor <;> linarith
  · push_cast
    constructor <;> linarith
  · constructor <;> linarith
  · push_cast
    constructor <;> linarith

/-- Rounding a positive number below `2 ^ (k + 1)` to `float64` moves it by
half a unit `2 ^ (k - 52)` at most. -/
theorem float64_error (x : ℚ) (k : Int) (hx : 0 < x) (hk : -1022 ≤ k)
    (hxk : x < 2 ^ (k + 1)) : |float64 x - x| ≤ 2 ^ (k - 53) := by
  obtain ⟨m, hm, hu⟩ := ulp_dvd x k hx hk hxk
  unfold float64
  rw [if_neg (ne_of_gt hx)]
  simp only
  generalize (2 : ℚ) ^ (max (Int.log 2 |x|) (-1022) - 52) = u at hm hu
  have hm1 : (1 : ℚ) ≤ m := by
    have hpos : (0 : ℚ) < 2 ^ (k - 52) := by positivity
    rw [hm] at hpos
    have hm0 : (0 : ℚ) < m := by
      by_contra hneg
      have hle : (m : ℚ) ≤ 0 := not_lt.mp hneg
      have := mul_nonpos_of_nonpos_of_nonneg hle (le_of_lt hu)
      linarith
    have : 0 < m := by exact_mod_cast hm0
    exact_mod_cast this
  have hk53 : (2 : ℚ) ^ (k - 53) = 2 ^ (k - 52) / 2 := by
    have : k - 53 = (k - 52) + (-1) := by ring
    rw [this, zpow_add₀ (by norm_num)]
    norm_num
    ring
  have herr := roundEven_error (x / u)
  have hxu : x = x / u * u := by field_simp
  have hdiff : (roundEven (x / u) : ℚ) * u - x = ((roundEven (x / u) : ℚ) - x / u) * u := by
    rw [sub_mul]
    rw [← hxu]
  rw [hdiff, abs_mul, abs_of_pos hu, hk53, hm]
  have h1 : |(roundEven (x / u) : ℚ) - x / u| * u ≤ 1 / 2 * u :=
    mul_le_mul_of_nonneg_right herr (le_of_lt hu)
  have h2 : 1 / 2 * u ≤ (m : ℚ) * u / 2 := by nlinarith
  linarith

/-- The sum of an integer `s` below `2 ^ (k + 1)` and a fraction that is more
than half a unit `2 ^ (k - 52)` below 1 is rounded to a `float64` whose integer
part is `s`. -/
theorem truncInt_float64_add (s : Int) (q : ℚ) (k : Int) (hk0 : 0 ≤ k) (hk1 : k ≤ 52)
    (hs0 : 0 ≤ s) (hs1 : (s : ℚ) + 1 ≤ 2 ^ (k + 1)) (hq0 : 0 ≤ q)
    (hq1 : q < 1 - 2 ^ (k - 53)) : truncInt (float64 (s + q)) = s := by
  have hs0' : (0 : ℚ) ≤ s := by exact_mod_cast hs0
  have hu : (0 : ℚ) < 2 ^ (k - 53) := by positivity
  have hN : (((2 : Int) ^ (52 - k).toNat : Int) : ℚ) * 2 ^ (k - 52) = 1 := by
    push_cast
    rw [← zpow_natCast, Int.toNat_of_nonneg (by omega), ← zpow_add₀ (by norm_num)]
    have : 52 - k + (k - 52) = 0 := by ring
    rw [this, zpow_zero]
  have hbound : (s : ℚ) ≤ float64 (s + q) ∧ float64 (s + q) < s + 1 := by
    rcases eq_or_lt_of_le (add_nonneg hs0' hq0) with h | h
    · rw [← h]
      have hs : (s : ℚ) = 0 := by linarith
      simp only [float64, if_true, hs]
      constructor
      · exact le_refl _
      · norm_num
    · have hlt : (s : ℚ) + q < 2 ^ (k + 1) := by linarith
      obtain ⟨h1, _⟩ :=
        float64_sandwich (s + q) s (s + 1) k (s * 2 ^ (52 - k).toNat)
          ((s + 1) * 2 ^ (52 - k).toNat) h (by omega) hlt
          (by
            push_cast
            push_cast at hN
            rw [mul_assoc, hN, mul_one])
          (by
            push_cast
            push_cast at hN
            rw [mul_assoc, hN, mul_one])
          (by linarith) (by linarith)
      have herr := float64_error (s + q) k h (by omega) hlt
      rw [abs_le] at herr
      exact ⟨h1, by linarith⟩
  obtain ⟨h1, h2⟩ := hbound
  unfold truncInt
  rw [if_pos (le_trans hs0' h1), Int.floor_eq_iff]
  exact ⟨h1, h2⟩

/-- The quotient of two integers `0 ≤ n < m` is rounded to a `float64` that is
not negative and exceeds the quotient by `2 ^ (-54)` at most. -/
theorem float64_quotient (n m : Int) (hn : 0 ≤ n) (hnm : n < m) :
    0 ≤ float64 ((n : ℚ) / m) ∧ float64 ((n : ℚ) / m) ≤ (n : ℚ) / m + 2 ^ (-54 : Int) := by
  have hm : (0 : ℚ) < m := by exact_mod_cast (lt_of_le_of_lt hn hnm)
  rcases eq_or_lt_of_le hn with h | h
  · subst h
    simp only [Int.cast_zero, zero_div, float64, if_true, zero_add]
    exact ⟨le_refl _, by positivity⟩
  · have hx : (0 : ℚ) < (n : ℚ) / m := div_pos (by exact_mod_cast h) hm
    have hlt : (n : ℚ) / m < 2 ^ ((-1 : Int) + 1) := by
      rw [div_lt_iff₀ hm]
      have : (n : ℚ) < m := by exact_mod_cast hnm
      simpa using this
    obtain ⟨h1, _⟩ :=
      float64_sandwich ((n : ℚ) / m) 0 1 (-1) 0 9007199254740992 hx (by decide) hlt
        (by norm_num) (by norm_num) (le_of_lt hx) (by
          have : (n : ℚ) / m < 1 := by simpa using hlt
          linarith)
    have herr := float64_error ((n : ℚ) / m) (-1) hx (by decide) hlt
    rw [abs_le] at herr
    exact ⟨h1, by
      have := herr.2
      norm_num at this ⊢
      linarith⟩

/-- Below `2 ^ 24` seconds the integer part of `Seconds` is the number of
whole seconds. -/
theorem truncInt_Seconds (d : Int) (h0 : 0 ≤ d) (h1 : d < 16777216 * Second) :
    truncInt (Duration.Seconds d) = d / Second := by
  have hS : Second = 1000000000 := by decide
  rw [hS] at h1 ⊢
  unfold Duration.Seconds
  simp only [hS]
  rw [Int.tdiv_eq_ediv h0 (by decide), Int.tmod_eq_emod h0 (by decide)]
  have hsec0 : 0 ≤ d / 1000000000 := by omega
  have hsec1 : d / 1000000000 < 16777216 := by omega
  have hn0 : 0 ≤ d % 1000000000 := by omega
  have hn1 : d % 1000000000 < 1000000000 := by omega
  rw [float64_int _ hsec0 (by omega), float64_int _ hn0 (by omega)]
  have hc : float64 (1000000000 : ℚ) = 1000000000 := by
    have := float64_int 1000000000 (by decide) (by decide)
    simpa using this
  rw [hc]
  have hq := float64_quotient (d % 1000000000) 1000000000 hn0 hn1
  simp only [Int.cast_ofNat] at hq
  have hfrac : ((d % 1000000000 : Int) : ℚ) / 1000000000 ≤ 999999999 / 1000000000 := by
    have : ((d % 1000000000 : Int) : ℚ) ≤ 999999999 := by
      exact_mod_cast (show d % 1000000000 ≤ 999999999 by omega)
    exact div_le_div_of_nonneg_right this (by norm_num)
  refine truncInt_float64_add _ _ 23 (by decide) (by decide) hsec0 ?_ hq.1 ?_
  · have : ((d / 1000000000 : Int) : ℚ) + 1 ≤ 16777216 := by
      exact_mod_cast (show d / 1000000000 + 1 ≤ 16777216 by omega)
    norm_num
    linarith
  · refine lt_of_le_of_lt (le_trans hq.2 (add_le_add_right hfrac _)) ?_
    norm_num

/-- Below `2 ^ 18` minutes the integer part of `Minutes` is the number of
whole minutes. -/
theorem truncInt_Minutes (d : Int) (h0 : 0 ≤ d) (h1 : d < 262144 * Minute) :
    truncInt (Duration.Minutes d) = d / Minute := by
  have hM : Minute = 60000000000 := by decide
  rw [hM] at h1 ⊢
  unfold Duration.Minutes
  simp only [hM]
  rw [Int.tdiv_eq_ediv h0 (by decide), Int.tmod_eq_emod h0 (by decide)]
  have hmin0 : 0 ≤ d / 60000000000 := by omega
  have hmin1 : d / 60000000000 < 262144 := by omega
  have hn0 : 0 ≤ d % 60000000000 := by omega
  have hn1 : d % 60000000000 < 60000000000 := by omega
  rw [float64_int _ hmin0 (by omega), float64_int _ hn0 (by omega)]
  have hc : float64 ((60 : ℚ) * 1000000000) = 60000000000 := by
    have := float64_int 60000000000 (by decide) (by decide)
    norm_num at this ⊢
    exact this
  rw [hc]
  have hq := float64_quotient (d % 60000000000) 60000000000 hn0 hn1
  simp only [Int.cast_ofNat] at hq
  have hfrac : ((d % 60000000000 : Int) : ℚ) / 60000000000 ≤ 59999999999 / 60000000000 := by
    have : ((d % 60000000000 : Int) : ℚ) ≤ 59999999999 := by
      exact_mod_cast (show d % 60000000000 ≤ 59999999999 by omega)
    exact div_le_div_of_nonneg_right this (by norm_num)
  refine truncInt_float64_add _ _ 17 (by decide) (by decide) hmin0 ?_ hq.1 ?_
  · have : ((d / 60000000000 : Int) : ℚ) + 1 ≤ 262144 := by
      exact_mod_cast (show d / 60000000000 + 1 ≤ 262144 by omega)
    norm_num
    linarith
  · refine lt_of_le_of_lt (le_trans hq.2 (add_le_add_right hfrac _)) ?_
    norm_num

/-- At `2 ^ 24` seconds less one nanosecond `Seconds` is rounded up to
`2 ^ 24 + 1`: the fraction `0.999999999` is less than half a unit `2 ^ (-28)`
below 1. -/
theorem truncInt_Seconds_rounds_up :
    truncInt (Duration.Seconds 16777216999999999) = 16777217 := by
  have h1 : Int.tdiv 16777216999999999 Second = 16777216 := by decide
  have h2 : Int.tmod 16777216999999999 Second = 999999999 := by decide
  unfold Duration.Seconds
  simp only [h1, h2]
  have hc : float64 (1000000000 : ℚ) = 1000000000 := by
    have := float64_int 1000000000 (by decide) (by decide)
    simpa using this
  have hs : float64 ((16777216 : Int) : ℚ) = 16777216 := by
    have := float64_int 16777216 (by decide) (by decide)
    simpa using this
  have hn : float64 ((999999999 : Int) : ℚ) = 999999999 := by
    have := float64_int 999999999 (by decide) (by decide)
    simpa using this
  rw [hc, hs, hn]
  obtain ⟨hq1, hq2⟩ :=
    float64_sandwich ((999999999 : ℚ) / 1000000000)
      ((9007199254740992 - 12582912 : Int) * 2 ^ (-53 : Int))
      ((9007199254740992 - 8388608 : Int) * 2 ^ (-53 : Int)) (-1)
      (9007199254740992 - 12582912) (9007199254740992 - 8388608)
      (by norm_num) (by decide) (by norm_num) rfl rfl (by norm_num) (by norm_num)
  generalize float64 ((999999999 : ℚ) / 1000000000) = q at hq1 hq2
  norm_num at hq1 hq2
  have hx : float64 ((16777216 : ℚ) + q) = (16777217 * 268435456 : Int) * 2 ^ ((24 : Int) - 52) := by
    apply float64_near _ 24 _ (by linarith) (by decide)
    · norm_num
      linarith
    · norm_num
      linarith
    · rw [abs_lt]
      norm_num
      constructor <;> linarith
  rw [hx]
  norm_num [truncInt]

/-- At the same duration the integer part of `Minutes` is the number of
whole minutes. -/
theorem truncInt_Minutes_large :
    truncInt (Duration.Minutes 16777216999999999) = 279620 := by
  have h1 : Int.tdiv 16777216999999999 Minute = 279620 := by decide
  have h2 : Int.tmod 16777216999999999 Minute = 16999999999 := by decide
  unfold Duration.Minutes
  simp only [h1, h2]
  have hc : float64 ((60 : ℚ) * 1000000000) = 60000000000 := by
    have := float64_int 60000000000 (by decide) (by decide)
    norm_num at this ⊢
    exact this
  have hs : float64 ((279620 : Int) : ℚ) = 279620 := by
    have := float64_int 279620 (by decide) (by decide)
    simpa using this
  have hn : float64 ((16999999999 : Int) : ℚ) = 16999999999 := by
    have := float64_int 16999999999 (by decide) (by decide)
    simpa using this
  rw [hc, hs, hn]
  have hq := float64_quotient 16999999999 60000000000 (by decide) (by decide)
  simp only [Int.cast_ofNat] at hq
  have := truncInt_float64_add 279620 _ 18 (by decide) (by decide) (by decide) (by norm_num)
    hq.1 (lt_of_le_of_lt hq.2 (by norm_num))
  simpa using this

/-! ## Lemmas on the daemon -/

/-- The method `GetStatus` returns on every input, with the flags of the
blocker and the status of the timer. -/
theorem GetStatus_total (d : Daemon) (days : List DayStats) :
    ∃ status, d.GetStatus days = some status ∧
      status.BlockEnabled = d.blocker.enabled ∧
      status.AlwaysBlock = d.blocker.alwaysBlock ∧
      status.TimerState = d.timer.state.String ∧
      status.Phase = d.timer.phase.String ∧
      status.IntervalsToday = d.timer.intervalsToday ∧
      status.RemainingSeconds = RemainingSeconds d.timer.Status := by
  obtain ⟨spark, hspark⟩ := GenerateBrailleSpaced_DailyGoal (days.map fun day => day.Intervals)
  unfold Daemon.GetStatus
  simp only [hspark, Option.some_bind]
  generalize hcs : CompactStatus _ _ _ _ = o
  obtain ⟨line, hline⟩ : ∃ l, o = some l := by
    rw [← hcs]
    exact CompactStatus_total _ _ _ _
  subst hline
  exact ⟨_, rfl, rfl, rfl, rfl, rfl, rfl, rfl⟩

/-- The method `notifyStatusChange` returns on every input. -/
theorem notifyStatusChange_total (d : Daemon) (days : List DayStats) :
    ∃ effects, d.notifyStatusChange days = some effects := by
  obtain ⟨status, hst, _⟩ := GetStatus_total d days
  unfold Daemon.notifyStatusChange
  split_ifs
  · exact ⟨_, by rw [hst]; rfl⟩
  · exact ⟨_, rfl⟩

/-- The tail of a case of `handleCommand` answers with the status of the
daemon and leaves the daemon as it is. -/
theorem respond_spec (d : Daemon) (spawned : List Phase) (days : List DayStats) :
    ∃ status effects, d.GetStatus days = some status ∧
      d.respond spawned days =
        some
          { daemon := d
            response := { Success := true, Data := some status, Error := "" }
            spawned := spawned
            effects := effects } := by
  obtain ⟨status, hst, _⟩ := GetStatus_total d days
  obtain ⟨effects, heff⟩ := notifyStatusChange_total d days
  exact ⟨status, effects, hst, by simp [Daemon.respond, hst, heff]⟩

/-- The daemon and the goroutines after the tail of a case of
`handleCommand`. -/
theorem respond_daemon (d : Daemon) (spawned : List Phase) (days : List DayStats)
    (h : Handled) (hh : d.respond spawned days = some h) :
    h.daemon = d ∧ h.spawned = spawned := by
  obtain ⟨status, effects, _, hr⟩ := respond_spec d spawned days
  rw [hr, Option.some.injEq] at hh
  subst hh
  exact ⟨rfl, rfl⟩

/-- The callback changes the focus flag only, and makes it agree with the
timer. -/
theorem onPhaseComplete_spec (d : Daemon) (phase : Phase) (days : List DayStats)
    (r : Daemon × List Effect) (h : d.onPhaseComplete phase days = some r) :
    r.1.timer = d.timer ∧ r.1.focusOK := by
  simp only [Daemon.onPhaseComplete, Option.map_eq_some'] at h
  obtain ⟨_, _, h2⟩ := h
  subst h2
  exact ⟨rfl, rfl⟩

/-- The callback returns on every input. -/
theorem onPhaseComplete_total (d : Daemon) (phase : Phase) (days : List DayStats) :
    ∃ r, d.onPhaseComplete phase days = some r := by
  obtain ⟨effects, heff⟩ := notifyStatusChange_total
    { d with
      blocker :=
        d.blocker.SetInInterval
          (decide (d.timer.Phase = Phase.PhaseWork) &&
            decide (d.timer.State = State.StateRunning)) } days
  simp only [Daemon.onPhaseComplete, heff, Option.map_some']
  exact ⟨_, rfl⟩

/-- The method `Start` leaves the timer running. -/
theorem Start_state (s : Timer) (now : Int) : (s.Start now).state = State.StateRunning := by
  unfold Timer.Start
  split_ifs with h
  · exact h
  · rfl

/-- The method `Reset` keeps the callback. -/
theorem Reset_onComplete (s p : Timer) (h : s.Reset = some p) :
    p.onComplete = s.onComplete := by
  simp only [Timer.Reset, Option.bind_eq_some, Option.some.injEq] at h
  obtain ⟨t1, h1, h2⟩ := h
  subst h2
  split_ifs at h1 with hc
  · unfold Timer.closeStop at h1
    split at h1
    · simp only [Option.some.injEq] at h1
      subst h1
      rfl
    · exact absurd h1 (by simp)
    · exact absurd h1 (by simp)
  · simp only [Option.some.injEq] at h1
    subst h1
    rfl

/-- On a timer whose channel is consistent `Pause` returns. -/
theorem Pause_total (s : Timer) (hwf : s.chanOK) : ∃ p, s.Pause = some p := by
  by_cases hr : s.state = State.StateRunning
  · exact ⟨_, Pause_running s hr (hwf hr)⟩
  · exact ⟨_, Pause_not_running s hr⟩

/-- The tail of a case of `handleCommand` answers with success and the status
of the daemon it leaves. -/
theorem respond_ok (d : Daemon) (spawned : List Phase) (days : List DayStats) :
    ∃ h status, d.respond spawned days = some h ∧
      h.response = { Success := true, Data := some status, Error := "" } ∧
      h.daemon.GetStatus days = some status := by
  obtain ⟨status, effects, hst, hr⟩ := respond_spec d spawned days
  exact ⟨_, status, hr, rfl, hst⟩

/-- What a command keeps true: the agreement of the focus flag with the timer
if it held before, the consistency of the stop channel of the timer, and the
registration of the callback. -/
theorem handleCommand_inv (d : Daemon) (cmd : Command) (now : Int) (days : List DayStats)
    (h : Handled) (hwf : d.timer.chanOK) (hcb : d.timer.onComplete = true)
    (hh : d.handleCommand cmd now days = some h) :
    (d.focusOK → h.daemon.focusOK) ∧ h.daemon.timer.chanOK ∧
      h.daemon.timer.onComplete = true := by
  unfold Daemon.handleCommand at hh
  split_ifs at hh with h1 h2 h3 h4 h5 h6 h7 h8
  · simp only [Option.map_eq_some'] at hh
    obtain ⟨_, _, hh⟩ := hh
    subst hh
    exact ⟨id, hwf, hcb⟩
  · obtain ⟨hd, _⟩ := respond_daemon _ _ _ h hh
    rw [hd]
    have hres : d.timer.Resume now = d.timer.Start now := by
      have h3' : d.timer.state = State.StatePaused := h3
      simp [Timer.Resume, h3']
    refine ⟨fun _ => ?_, ?_, ?_⟩
    · unfold Daemon.focusOK
      simp [hres, Start_state, Blocker.SetInInterval, Timer.Phase]
    · show (d.timer.Resume now).chanOK
      rw [hres]
      exact Start_chanOK _ _ hwf
    · show (d.timer.Resume now).onComplete = true
      simp [hcb]
  · obtain ⟨hd, _⟩ := respond_daemon _ _ _ h hh
    rw [hd]
    refine ⟨fun _ => ?_, ?_, ?_⟩
    · unfold Daemon.focusOK
      simp [Start_state, Blocker.SetInInterval, Timer.Phase]
    · show (d.timer.Start now).chanOK
      exact Start_chanOK _ _ hwf
    · show (d.timer.Start now).onComplete = true
      simp [hcb]
  · simp only [Option.bind_eq_some] at hh
    obtain ⟨t, ht, hh⟩ := hh
    obtain ⟨hd, _⟩ := respond_daemon _ _ _ h hh
    rw [hd]
    have hstep : step d.timer Op.pause = some (t, []) := by simp [step, ht]
    refine ⟨fun _ => ?_, step_chanOK _ _ _ hwf hstep,
      (step_onComplete _ Op.pause _ hwf rfl hstep).trans hcb⟩
    unfold Daemon.focusOK
    simp [Blocker.SetInInterval, Pause_state _ _ ht]
  · simp only [Option.bind_eq_some] at hh
    obtain ⟨r, hr, hh⟩ := hh
    obtain ⟨hd, _⟩ := respond_daemon _ _ _ h hh
    rw [hd]
    have hstep : step d.timer Op.skip = some r := hr
    refine ⟨fun _ => ?_, step_chanOK _ _ _ hwf hstep,
      (step_onComplete _ Op.skip _ hwf rfl hstep).trans hcb⟩
    unfold Daemon.focusOK
    simp [Blocker.SetInInterval, Skip_state _ _ hr]
  · simp only [Option.bind_eq_some] at hh
    obtain ⟨t, ht, hh⟩ := hh
    obtain ⟨hd, _⟩ := respond_daemon _ _ _ h hh
    rw [hd]
    have hstep : step d.timer Op.reset = some (t, []) := by simp [step, ht]
    refine ⟨fun _ => ?_, step_chanOK _ _ _ hwf hstep, (Reset_onComplete _ _ ht).trans hcb⟩
    unfold Daemon.focusOK
    simp [Blocker.SetInInterval, Reset_state _ _ ht]
  · obtain ⟨hd, _⟩ := respond_daemon _ _ _ h hh
    rw [hd]
    exact ⟨id, hwf, hcb⟩
  · obtain ⟨hd, _⟩ := respond_daemon _ _ _ h hh
    rw [hd]
    exact ⟨id, hwf, hcb⟩
  · simp only [Option.some.injEq] at hh
    subst hh
    exact ⟨id, hwf, hcb⟩

/-- The section under the lock of an iteration of the tick loop, on a daemon
whose callback is registered: either it makes no transition, and leaves the
phase, the run state and the focus flag as they were, or it is a transition
and the loop has its callback to call. -/
theorem Daemon_tick_inv (d : Daemon) (now : Int) (hwf : d.timer.chanOK)
    (hcb : d.timer.onComplete = true) :
    (d.tick now).1.timer.chanOK ∧ (d.tick now).1.timer.onComplete = true ∧
      (d.tick now).1.blocker = d.blocker ∧
      (((d.tick now).2 = [] ∧ (d.tick now).1.timer.phase = d.timer.phase ∧
          (d.tick now).1.timer.state = d.timer.state) ∨
        (d.tick now).2 = [d.timer.phase]) := by
  have hstep : step d.timer (Op.tick now) = some (d.timer.tick now) := rfl
  have hwf' := step_chanOK _ _ _ hwf hstep
  have hcb' := (step_onComplete _ (Op.tick now) _ hwf rfl hstep).trans hcb
  refine ⟨hwf', hcb', rfl, ?_⟩
  show ((d.timer.tick now).2 = [] ∧ (d.timer.tick now).1.phase = d.timer.phase ∧
      (d.timer.tick now).1.state = d.timer.state) ∨ (d.timer.tick now).2 = [d.timer.phase]
  rcases tick_cases d.timer now with h | ⟨_, h⟩ | h
  · rw [h]
    exact Or.inl ⟨rfl, rfl, rfl⟩
  · rw [h]
    exact Or.inl ⟨rfl, rfl, rfl⟩
  · rw [h, hcb]
    exact Or.inr rfl

/-- Every step of the daemon keeps what the daemon keeps true between
steps. -/
theorem Sys_step_inv (s s1 : Sys) (op : SysOp) (hinv : s.inv) (hh : s.step op = some s1) :
    s1.inv := by
  obtain ⟨hwf, hcb, hf⟩ := hinv
  cases op with
  | command action now days =>
    simp only [Sys.step, Option.map_eq_some'] at hh
    obtain ⟨h, hh, hs⟩ := hh
    subst hs
    obtain ⟨h1, h2, h3⟩ := handleCommand_inv _ _ _ _ h hwf hcb hh
    exact ⟨h2, h3, fun hq => h1 (hf hq)⟩
  | tick now =>
    simp only [Sys.step, Option.some.injEq] at hh
    subst hh
    obtain ⟨h1, h2, h3, h4⟩ := Daemon_tick_inv s.daemon now hwf hcb
    refine ⟨h1, h2, fun hq => ?_⟩
    have hq' : s.calling ++ (s.daemon.tick now).2 = [] := hq
    rw [List.append_eq_nil] at hq'
    rcases h4 with ⟨_, hp, hst⟩ | h4
    · have := hf hq'.1
      unfold Daemon.focusOK at this ⊢
      show (s.daemon.tick now).1.blocker.inInterval = _
      rw [h3, this]
      show _ = (decide ((s.daemon.tick now).1.timer.phase = Phase.PhaseWork) &&
        decide ((s.daemon.tick now).1.timer.state = State.StateRunning))
      rw [hp, hst]
    · rw [h4] at hq'
      exact absurd hq'.2 (by simp)
  | callback i days =>
    simp only [Sys.step] at hh
    split at hh
    · simp only [Option.some.injEq] at hh
      subst hh
      exact ⟨hwf, hcb, hf⟩
    · simp only [Option.map_eq_some'] at hh
      obtain ⟨r, hh, hs⟩ := hh
      subst hs
      obtain ⟨ht, hf'⟩ := onPhaseComplete_spec _ _ _ r hh
      exact ⟨by show r.1.timer.chanOK; rw [ht]; exact hwf,
        by show r.1.timer.onComplete = true; rw [ht]; exact hcb, fun _ => hf'⟩
  | call i days =>
    simp only [Sys.step] at hh
    split at hh
    · simp only [Option.some.injEq] at hh
      subst hh
      exact ⟨hwf, hcb, hf⟩
    · simp only [Option.map_eq_some'] at hh
      obtain ⟨r, hh, hs⟩ := hh
      subst hs
      obtain ⟨ht, hf'⟩ := onPhaseComplete_spec _ _ _ r hh
      exact ⟨by show r.1.timer.chanOK; rw [ht]; exact hwf,
        by show r.1.timer.onComplete = true; rw [ht]; exact hcb, fun _ => hf'⟩

/-- Every sequence of steps of the daemon keeps what the daemon keeps true
between steps. -/
theorem Sys_exec_inv (ops : List SysOp) :
    ∀ (s s1 : Sys), s.inv → Sys.exec s ops = some s1 → s1.inv := by
  induction ops with
  | nil =>
    intro s s1 hinv hh
    simp only [Sys.exec, Option.some.injEq] at hh
    subst hh
    exact hinv
  | cons op ops ih =>
    intro s s1 hinv hh
    simp only [Sys.exec, Option.bind_eq_some] at hh
    obtain ⟨s2, h2, hh⟩ := hh
    exact ih s2 s1 (Sys_step_inv s s2 op hinv h2) hh

/-- The daemon that `New` makes, with no callback due. -/
theorem New_inv (todayCount : Int) :
    ({ daemon := Daemon.New todayCount, pending := [], calling := [] } : Sys).inv :=
  ⟨fun hr => by simp [Daemon.New, New, Timer.SetIntervalsToday, Timer.SetOnComplete] at hr,
    rfl, fun _ => rfl⟩

/-! ## Lemmas on the status text -/

/-- Below one hundred the verb `%02d` writes the two digits. -/
theorem pad2_eq_twoDigits (v : Int) (h0 : 0 ≤ v) (h : v < 100) : pad2 v = twoDigits v := by
  interval_cases v <;> rfl

/-- The remaining time in the status: the text and the seconds that
`GetStatus` computes from the clamped remaining time. -/
theorem GetStatus_remaining (d : Daemon) (days : List DayStats) :
    ∃ status, d.GetStatus days = some status ∧
      status.Remaining =
        pad2
            (truncInt
              (Duration.Minutes (if d.timer.remaining < 0 then 0 else d.timer.remaining))) ++
          ":" ++
          pad2
            (Int.tmod
              (truncInt
                (Duration.Seconds (if d.timer.remaining < 0 then 0 else d.timer.remaining)))
              60) ∧
      status.RemainingSeconds =
        truncInt
          (Duration.Seconds (if d.timer.remaining < 0 then 0 else d.timer.remaining)) := by
  obtain ⟨spark, hspark⟩ := GenerateBrailleSpaced_DailyGoal (days.map fun day => day.Intervals)
  unfold Daemon.GetStatus
  simp only [hspark, Option.some_bind]
  generalize hcs : CompactStatus _ _ _ _ = o
  obtain ⟨line, hline⟩ : ∃ l, o = some l := by
    rw [← hcs]
    exact CompactStatus_total _ _ _ _
  subst hline
  exact ⟨_, rfl, rfl, rfl⟩

/-! ## Lemmas on the sparklines -/

/-- Up to nineteen `Subscript` writes the decimal numeral in subscript
digits. -/
theorem Subscript_below_twenty (n : Int) (h0 : 0 ≤ n) (h : n < 20) :
    Subscript n = some (subscriptNumeral n.toNat) := by
  interval_cases n <;> rfl

/-- The menu item Start sets the focus flag, whatever the phase. -/
theorem handleClick_start (d : Daemon) (now : Int) :
    ∃ r, MenuBar.handleClick d now Click.start = some r ∧
      r.1.timer = d.timer.Start now ∧ r.1.blocker.inInterval = true :=
  ⟨_, rfl, rfl, rfl⟩

/-- An index inside the table `blocks` finds a glyph. -/
theorem sliceIndex_blocks (i : Int) (h0 : 0 ≤ i) (h7 : i ≤ 7) :
    ∃ c, sliceIndex blocks i = some c := by
  interval_cases i <;> exact ⟨_, rfl⟩

/-- A level is on the scale. -/
theorem level_range (L m v : Int) (hL : 0 ≤ L) : 0 ≤ level L m v ∧ level L m v ≤ L := by
  unfold level clamp
  omega

/-- The level does not decrease with the value. -/
theorem level_mono (L m v w : Int) (hL : 0 ≤ L) (hm : 0 < m) (hvw : v ≤ w) :
    level L m v ≤ level L m w := by
  unfold level clamp
  rw [Int.fdiv_eq_ediv _ (le_of_lt hm), Int.fdiv_eq_ediv _ (le_of_lt hm)]
  have h : v * L / m ≤ w * L / m :=
    Int.ediv_le_ediv hm (Int.mul_le_mul_of_nonneg_right hvw hL)
  omega

/-- The level is the top of the scale exactly from the maximum on. -/
theorem level_eq_top_iff (L m v : Int) (hL : 0 < L) (hm : 0 < m) :
    level L m v = L ↔ m ≤ v := by
  unfold level clamp
  rw [Int.fdiv_eq_ediv _ (le_of_lt hm)]
  have h : L ≤ v * L / m ↔ m ≤ v := by
    rw [Int.le_ediv_iff_mul_le hm]
    constructor
    · intro h1
      by_contra hlt
      have h2 : v * L < m * L := Int.mul_lt_mul_of_pos_right (not_le.mp hlt) hL
      have h3 : L * m = m * L := Int.mul_comm L m
      omega
    · intro h1
      have h2 : m * L ≤ v * L := Int.mul_le_mul_of_nonneg_right h1 (le_of_lt hL)
      have h3 : L * m = m * L := Int.mul_comm L m
      omega
  constructor
  · intro h1
    exact h.mp (by omega)
  · intro h1
    have := h.mpr h1
    omega

/-- With a positive maximum `Generate` chooses the glyph at the level of the
value on a scale of seven. -/
theorem blockGlyph_eq (v m : Int) (hm : 0 < m) (hfit : v < m → v * 7 ≤ MaxInt64) :
    blockGlyph v m = sliceIndex blocks (level 7 m v) := by
  unfold blockGlyph level clamp
  have hlen : ((blocks.length : Int) - 1) = 7 := by decide
  rw [hlen, Int.fdiv_eq_ediv _ (le_of_lt hm)]
  split_ifs with h1 h2
  · have h : v * 7 / m ≤ 0 := by
      have := Int.ediv_le_ediv hm (show v * 7 ≤ 0 by omega)
      simpa using this
    rw [show max 0 (min (v * 7 / m) 7) = 0 by omega]
  · have h : 7 ≤ v * 7 / m := by
      rw [Int.le_ediv_iff_mul_le hm]
      omega
    rw [show max 0 (min (v * 7 / m) 7) = 7 by omega]
  · have hv : 0 ≤ v * 7 := by omega
    have h0 : 0 ≤ v * 7 / m := Int.ediv_nonneg hv (le_of_lt hm)
    have h7 : v * 7 / m < 7 := by
      rw [Int.ediv_lt_iff_lt_mul hm]
      omega
    rw [wrapInt_eq _ (by unfold MinInt64; omega) (hfit (by omega)),
      Int.tdiv_eq_ediv hv (le_of_lt hm), show max 0 (min (v * 7 / m) 7) = v * 7 / m by omega]

/-- With a positive maximum the braille sparklines choose the glyph at the
level of the value on a scale of eight. -/
theorem brailleGlyph_eq (v m : Int) (hm : 0 < m) (hfit : v < m → v * 8 ≤ MaxInt64) :
    brailleGlyph v m = sliceIndex brailleExt (level 8 m v) := by
  unfold brailleGlyph level clamp
  have hlen : ((brailleExt.length : Int) - 1) = 8 := by decide
  simp only [hlen]
  rw [Int.fdiv_eq_ediv _ (le_of_lt hm)]
  split_ifs with h1 h2
  · have h : v * 8 / m ≤ 0 := by
      have := Int.ediv_le_ediv hm (show v * 8 ≤ 0 by omega)
      simpa using this
    rw [show max 0 (min (v * 8 / m) 8) = 0 by omega]
  · have h : 8 ≤ v * 8 / m := by
      rw [Int.le_ediv_iff_mul_le hm]
      omega
    rw [show max 0 (min (v * 8 / m) 8) = 8 by omega]
  · have hv : 0 ≤ v * 8 := by omega
    have h0 : 0 ≤ v * 8 / m := Int.ediv_nonneg hv (le_of_lt hm)
    have h8 : v * 8 / m < 8 := by
      rw [Int.ediv_lt_iff_lt_mul hm]
      omega
    rw [wrapInt_eq _ (by unfold MinInt64; omega) (hfit (by omega)),
      Int.tdiv_eq_ediv hv (le_of_lt hm), show max 0 (min (v * 8 / m) 8) = v * 8 / m by omega]

/-- The loop of `Generate` computes the largest of its start and the values. -/
theorem largest_eq_foldl (values : List Int) :
    ∀ a : Int, Generate.largest a values = values.foldl max a := by
  induction values with
  | nil =>
    intro a
    rfl
  | cons v rest ih =>
    intro a
    simp only [Generate.largest, List.foldl_cons]
    rw [ih]
    congr 1
    split_ifs with h <;> omega

/-- The largest of a start and some values is at least the start. -/
theorem le_foldl_max (values : List Int) : ∀ a : Int, a ≤ values.foldl max a := by
  induction values with
  | nil =>
    intro a
    exact le_refl a
  | cons v rest ih =>
    intro a
    exact le_trans (le_max_left a v) (ih (max a v))

/-- The maximum that `Generate` works with is the effective maximum, and it
is positive. -/
theorem blocksMax_eq (values : List Int) (maxVal : Int) :
    (if maxVal ≤ 0 then Generate.largest 1 values else maxVal) = blocksMax values maxVal ∧
      0 < blocksMax values maxVal := by
  unfold blocksMax
  rw [largest_eq_foldl]
  have := le_foldl_max values 1
  split_ifs with h1 h2 h2
  · omega
  · exact ⟨rfl, by omega⟩
  · exact ⟨rfl, h2⟩
  · omega

/-- The maximum that the braille sparklines work with is the effective
maximum, and it is positive. -/
theorem brailleMax_eq (maxVal : Int) :
    (if maxVal ≤ 0 then 12 else maxVal) = brailleMax maxVal ∧ 0 < brailleMax maxVal := by
  unfold brailleMax
  split_ifs with h1 h2 h2
  · omega
  · exact ⟨rfl, by decide⟩
  · exact ⟨rfl, h2⟩
  · omega

/-- A loop that chooses every glyph inside its table writes one glyph for
each value, the glyph of the table at the index chosen. -/
theorem fillRunes_spec (glyph : Int → Option Char) (table : List Char) (index : Int → Int)
    (hin : ∀ v, ∃ c, sliceIndex table (index v) = some c) (values : List Int)
    (hglyph : ∀ v ∈ values, glyph v = sliceIndex table (index v)) :
    ∃ gs, fillRunes glyph values = some gs ∧
      List.Forall₂ (fun v c => sliceIndex table (index v) = some c) values gs := by
  induction values with
  | nil => exact ⟨[], rfl, List.Forall₂.nil⟩
  | cons v rest ih =>
    obtain ⟨gs, hgs, hall⟩ := ih (fun w hw => hglyph w (List.mem_cons_of_mem v hw))
    obtain ⟨c, hc⟩ := hin v
    refine ⟨c :: gs, ?_, List.Forall₂.cons hc hall⟩
    simp only [fillRunes, hglyph v (List.mem_cons_self v rest), hc, Option.some_bind, hgs,
      Option.map_some']

/-- A loop over the values writes one glyph for each. -/
theorem fillRunes_length (glyph : Int → Option Char) (values : List Int) :
    ∀ gs, fillRunes glyph values = some gs → gs.length = values.length := by
  induction values with
  | nil =>
    intro gs h
    simp only [fillRunes, Option.some.injEq] at h
    subst h
    rfl
  | cons v rest ih =>
    intro gs h
    simp only [fillRunes, Option.bind_eq_some, Option.map_eq_some'] at h
    obtain ⟨c, _, cs, hcs, hgs⟩ := h
    subst hgs
    simp [ih cs hcs]

/-- The loop of `GenerateBrailleSpaced` appends the glyphs of the values that
are left, separated by two spaces. -/
theorem GenerateBrailleSpaced_loop_eq (len m : Int) (values : List Int) :
    ∀ (i : Int) (result : String) (gs : List Char), i + values.length = len →
      fillRunes (fun v => brailleGlyph v m) values = some gs →
      GenerateBrailleSpaced.loop len m i values result =
        some (String.mk (result.data ++ spaced gs)) := by
  induction values with
  | nil =>
    intro i result gs _ hgs
    simp only [fillRunes, Option.some.injEq] at hgs
    subst hgs
    simp [GenerateBrailleSpaced.loop, spaced]
  | cons v rest ih =>
    intro i result gs hlen hgs
    simp only [fillRunes, Option.bind_eq_some, Option.map_eq_some'] at hgs
    obtain ⟨c, hc, cs, hcs, hgs⟩ := hgs
    subst hgs
    have hcslen := fillRunes_length _ rest cs hcs
    simp only [GenerateBrailleSpaced.loop, hc, Option.some_bind]
    simp only [List.length_cons, Nat.cast_add, Nat.cast_one] at hlen
    cases rest with
    | nil =>
      have hcs0 : cs = [] := List.length_eq_zero.mp hcslen
      subst hcs0
      have hi : ¬ i < len - 1 := by
        simp only [List.length_nil, Nat.cast_zero] at hlen
        omega
      rw [if_neg hi, ih (i + 1) _ [] (by simpa using hlen) hcs]
      simp [spaced]
    | cons w rest1 =>
      cases cs with
      | nil => simp at hcslen
      | cons d cs1 =>
        have hi : i < len - 1 := by
          simp only [List.length_cons, Nat.cast_add, Nat.cast_one] at hlen
          omega
        rw [if_pos hi, ih (i + 1) _ (d :: cs1) (by omega) hcs]
        have hsp : ("  " : String).data = [' ', ' '] := rfl
        simp [spaced, hsp]

/-- The text of `n ≥ 1` glyphs separated by two spaces has `3 n - 2`
characters. -/
theorem spaced_length (gs : List Char) : gs ≠ [] → (spaced gs).length + 2 = 3 * gs.length := by
  induction gs with
  | nil =>
    intro h
    exact absurd rfl h
  | cons c rest ih =>
    intro _
    cases rest with
    | nil => rfl
    | cons d rest1 =>
      have := ih (by simp)
      simp only [spaced, List.length_cons] at this ⊢
      omega

/-! ## The phase transition -/

/-- Claim C1, amended. For every timer state whose two counters are below
`MaxInt64` (and are values of `int`), `advancePhase` is the specified
transition.  From Work both counters are incremented by one; when the
incremented `intervalsSinceBreak` reaches `LongBreakAfter` the phase becomes
LongBreak with `remaining = LongBreakDuration` and `intervalsSinceBreak = 0`,
otherwise the phase becomes ShortBreak with `remaining = ShortBreakDuration`.
From either break the phase becomes Work with `remaining = WorkDuration` and
the counters unchanged.  Nothing else changes; in particular not `state`.
On every state, whatever the counters, the new `intervalsToday` after Work is
the wrapped `intervalsToday + 1`, and the test of the threshold is made on the
wrapped `intervalsSinceBreak + 1`. -/
theorem advancePhase_spec (s : Timer) :
    (s.phase = Phase.PhaseWork →
      MinInt64 ≤ s.intervalsToday → s.intervalsToday < MaxInt64 →
      MinInt64 ≤ s.intervalsSinceBreak → s.intervalsSinceBreak < MaxInt64 →
      s.intervalsSinceBreak + 1 ≥ s.config.LongBreakAfter →
      s.advancePhase =
        { s with
          phase := Phase.PhaseLongBreak
          remaining := s.config.LongBreakDuration
          intervalsToday := s.intervalsToday + 1
          intervalsSinceBreak := 0 }) ∧
    (s.phase = Phase.PhaseWork →
      MinInt64 ≤ s.intervalsToday → s.intervalsToday < MaxInt64 →
      MinInt64 ≤ s.intervalsSinceBreak → s.intervalsSinceBreak < MaxInt64 →
      s.intervalsSinceBreak + 1 < s.config.LongBreakAfter →
      s.advancePhase =
        { s with
          phase := Phase.PhaseShortBreak
          remaining := s.config.ShortBreakDuration
          intervalsToday := s.intervalsToday + 1
          intervalsSinceBreak := s.intervalsSinceBreak + 1 }) ∧
    (s.phase = Phase.PhaseShortBreak ∨ s.phase = Phase.PhaseLongBreak →
      s.advancePhase =
        { s with
          phase := Phase.PhaseWork
          remaining := s.config.WorkDuration }) ∧
    s.advancePhase.state = s.state ∧
    (s.phase = Phase.PhaseWork →
      s.advancePhase.intervalsToday = wrapInt (s.intervalsToday + 1) ∧
      s.advancePhase.intervalsSinceBreak =
        (if wrapInt (s.intervalsSinceBreak + 1) ≥ s.config.LongBreakAfter then 0
          else wrapInt (s.intervalsSinceBreak + 1)) ∧
      s.advancePhase.phase =
        (if wrapInt (s.intervalsSinceBreak + 1) ≥ s.config.LongBreakAfter then
          Phase.PhaseLongBreak
          else Phase.PhaseShortBreak)) := by
  refine ⟨?_, ?_, ?_, ?_, ?_⟩
  · intro hw ht0 ht1 hi0 hi1 hge
    have hwt : wrapInt (s.intervalsToday + 1) = s.intervalsToday + 1 :=
      wrapInt_eq _ (by omega) (by omega)
    have hwi : wrapInt (s.intervalsSinceBreak + 1) = s.intervalsSinceBreak + 1 :=
      wrapInt_eq _ (by omega) (by omega)
    simp only [Timer.advancePhase, hw, if_true, hwt, hwi]
    rw [if_pos hge]
  · intro hw ht0 ht1 hi0 hi1 hlt
    have hwt : wrapInt (s.intervalsToday + 1) = s.intervalsToday + 1 :=
      wrapInt_eq _ (by omega) (by omega)
    have hwi : wrapInt (s.intervalsSinceBreak + 1) = s.intervalsSinceBreak + 1 :=
      wrapInt_eq _ (by omega) (by omega)
    simp only [Timer.advancePhase, hw, if_true, hwt, hwi]
    rw [if_neg (not_le.mpr hlt)]
  · intro hb
    have hne : s.phase ≠ Phase.PhaseWork := by
      rcases hb with h | h <;> rw [h] <;> decide
    simp only [Timer.advancePhase, if_neg hne]
  · simp only [Timer.advancePhase]
    split_ifs <;> rfl
  · intro hw
    simp only [Timer.advancePhase, hw, if_true]
    split_ifs <;> exact ⟨rfl, rfl, rfl⟩

/-- A long-break entry, a short-break entry and a return to Work, on the
default configuration, and the counter of a timer seeded with 41 intervals. -/
theorem advancePhase_spec_witness :
    ({ New DefaultConfig with intervalsSinceBreak := 3 } : Timer).advancePhase =
        { New DefaultConfig with
          phase := Phase.PhaseLongBreak
          remaining := 20 * Minute
          intervalsToday := 1
          intervalsSinceBreak := 0 } ∧
      (New DefaultConfig).advancePhase =
        { New DefaultConfig with
          phase := Phase.PhaseShortBreak
          remaining := 5 * Minute
          intervalsToday := 1
          intervalsSinceBreak := 1 } ∧
      ({ New DefaultConfig with phase := Phase.PhaseLongBreak, remaining := 7 } :
          Timer).advancePhase = New DefaultConfig ∧
      ((New DefaultConfig).SetIntervalsToday 41).advancePhase.intervalsToday =
        wrapInt (41 + 1) :=
  ⟨(advancePhase_spec { New DefaultConfig with intervalsSinceBreak := 3 }).1 rfl
      (by decide) (by decide) (by decide) (by decide) (by decide),
   (advancePhase_spec (New DefaultConfig)).2.1 rfl
      (by decide) (by decide) (by decide) (by decide) (by decide),
   (advancePhase_spec
      { New DefaultConfig with phase := Phase.PhaseLongBreak, remaining := 7 }).2.2.1
      (Or.inr rfl),
   ((advancePhase_spec ((New DefaultConfig).SetIntervalsToday 41)).2.2.2.2 rfl).1⟩

/-- Counterexample to claim C1 as stated.  A timer seeded by
`SetIntervalsToday(math.MaxInt64)` is in the Work phase with
`intervalsToday = MaxInt64`; `advancePhase` (reached by `Skip`) does not
increase the counter by one: the increment wraps to `MinInt64`. -/
theorem advancePhase_wraps :
    ((New DefaultConfig).SetIntervalsToday MaxInt64).phase = Phase.PhaseWork ∧
      ((New DefaultConfig).SetIntervalsToday MaxInt64).advancePhase.intervalsToday =
        MinInt64 ∧
      ((New DefaultConfig).SetIntervalsToday MaxInt64).advancePhase.intervalsToday ≠
        ((New DefaultConfig).SetIntervalsToday MaxInt64).intervalsToday + 1 ∧
      ((New DefaultConfig).SetIntervalsToday MaxInt64).Skip.map
          (fun r => r.1.Status.IntervalsToday) = some (-9223372036854775808) := by
  refine ⟨rfl, by decide, by decide, by decide⟩

/-- Claim C2, amended. With `LongBreakAfter = k ≥ 1` and a seed `n` of
`intervalsToday` that leaves room for `k` intervals (`n + k ≤ MaxInt64`, both
being values of `int`), take a fresh timer with a completion callback and run it
without `Reset`, each phase ended by `Skip` or by a tick that exhausts the
clock, so that the callback arguments `evs` are the phases completed so far.
After `2 * j + 1` transitions with `j + 1 < k`, the Work phase `j + 1` has been
completed and the timer is in ShortBreak with `intervalsToday = n + (j + 1)`;
after `2 * k - 1` transitions, the Work phase `k` has been completed and the
timer is in LongBreak with `intervalsSinceBreak = 0` and
`intervalsToday = n + k`.  On the default configuration with `n = 0` the
seventh `Skip` ends the fourth Work phase, and the status is then `long_break`
with 4 intervals today. -/
theorem long_break_after_threshold (config : Config) (n : Int) (ops : List Op) (s : Timer)
    (evs : List Phase) (hk : 1 ≤ config.LongBreakAfter)
    (hmax : config.LongBreakAfter ≤ MaxInt64) (hn0 : MinInt64 ≤ n)
    (hn1 : n + config.LongBreakAfter ≤ MaxInt64)
    (hrun : ∀ op ∈ ops, op.isRun = true)
    (h : exec (((New config).SetIntervalsToday n).SetOnComplete true) ops = some (s, evs)) :
    (∀ j : Nat, evs.length = 2 * j + 1 → (j : Int) + 1 < config.LongBreakAfter →
      evs.count Phase.PhaseWork = j + 1 ∧ s.phase = Phase.PhaseShortBreak ∧
      s.intervalsSinceBreak = j + 1 ∧ s.intervalsToday = n + (j + 1)) ∧
    ((evs.length : Int) = 2 * config.LongBreakAfter - 1 →
      (evs.count Phase.PhaseWork : Int) = config.LongBreakAfter ∧
      s.phase = Phase.PhaseLongBreak ∧
      s.intervalsSinceBreak = 0 ∧ s.intervalsToday = n + config.LongBreakAfter) ∧
    (exec (((New DefaultConfig).SetIntervalsToday 0).SetOnComplete true)
        (List.replicate 7 Op.skip)).map
        (fun r => (r.2, r.1.Status.Phase.String, r.1.Status.IntervalsToday)) =
      some ([Phase.PhaseWork, Phase.PhaseShortBreak, Phase.PhaseWork, Phase.PhaseShortBreak,
        Phase.PhaseWork, Phase.PhaseShortBreak, Phase.PhaseWork], "long_break", 4) := by
  have hwf0 : (((New config).SetIntervalsToday n).SetOnComplete true).chanOK := by
    intro h0
    simp [New, Timer.SetIntervalsToday, Timer.SetOnComplete] at h0
  have hcfg : s.config = config :=
    exec_invariant (fun t => t.chanOK ∧ t.config = config)
      (fun a op r ha hstep =>
        ⟨step_chanOK a op r ha.1 hstep, (step_core a op r ha.1 hstep).1.trans ha.2⟩)
      ops _ (s, evs) ⟨hwf0, rfl⟩ h |>.2
  have hcyc0 : Cycle n (((New config).SetIntervalsToday n).SetOnComplete true) [] := by
    refine Or.inl ⟨0, rfl, ?_, rfl, rfl, ?_, ?_⟩
    · show ((0 : Nat) : Int) < config.LongBreakAfter
      omega
    · rfl
    · show n = n + ((0 : Nat) : Int)
      omega
  have hcyc := exec_Cycle n hn0 ops _ (s, evs) [] hmax hn1 hrun hwf0 rfl hcyc0 h
  rw [List.nil_append] at hcyc
  unfold Cycle at hcyc
  rw [hcfg] at hcyc
  dsimp only at hcyc
  refine ⟨?_, ?_, by decide⟩
  · intro j hlen hj
    rcases hcyc with ⟨i, hl, _⟩ | ⟨i, hl, _, hcount, hp, hi, ht⟩ | ⟨hl, _⟩ | hl
    · omega
    · have hij : i = j := by omega
      subst hij
      exact ⟨hcount, hp, hi, ht⟩
    · omega
    · omega
  · intro hlen
    rcases hcyc with ⟨i, hl, _⟩ | ⟨i, hl, hi, _⟩ | ⟨_, hcount, hp, hi, ht⟩ | hl
    · omega
    · omega
    · exact ⟨hcount, hp, hi, ht⟩
    · omega

/-- A timer with a long break after every second interval, seeded with five
intervals: the first Work phase is ended by a tick, the short break by `Skip`,
and the second Work phase, paused and resumed on the way, by a tick; after
these three transitions the timer is in its long break with seven intervals
today. -/
theorem long_break_after_threshold_witness :
    ∃ s evs,
      exec
          (((New { DefaultConfig with LongBreakAfter := 2 }).SetIntervalsToday 5).SetOnComplete
            true)
          [Op.start 0, Op.tick (30 * Minute), Op.skip, Op.start (31 * Minute), Op.pause,
            Op.resume (32 * Minute), Op.tick (62 * Minute)] = some (s, evs) ∧
        (evs.length : Int) = 2 * 2 - 1 ∧
        (evs.count Phase.PhaseWork : Int) = 2 ∧
        s.phase = Phase.PhaseLongBreak ∧
        s.intervalsSinceBreak = 0 ∧ s.intervalsToday = 5 + 2 := by
  have hexec :
      exec
          (((New { DefaultConfig with LongBreakAfter := 2 }).SetIntervalsToday 5).SetOnComplete
            true)
          [Op.start 0, Op.tick (30 * Minute), Op.skip, Op.start (31 * Minute), Op.pause,
            Op.resume (32 * Minute), Op.tick (62 * Minute)] =
        some
          ({ config := { DefaultConfig with LongBreakAfter := 2 }
             state := State.StateRunning
             phase := Phase.PhaseLongBreak
             remaining := 20 * Minute
             intervalsToday := 7
             intervalsSinceBreak := 0
             lastTick := 62 * Minute
             onComplete := true
             stopChan := Chan.opened
             tickLoops := 3 },
            [Phase.PhaseWork, Phase.PhaseShortBreak, Phase.PhaseWork]) := by
    decide
  exact ⟨_, _, hexec, by decide,
    (long_break_after_threshold { DefaultConfig with LongBreakAfter := 2 } 5
      [Op.start 0, Op.tick (30 * Minute), Op.skip, Op.start (31 * Minute), Op.pause,
        Op.resume (32 * Minute), Op.tick (62 * Minute)] _ _
      (by decide) (by decide) (by decide) (by decide) (by decide) hexec).2.1 (by decide)⟩

/-- Counterexample to claim C2 as stated.  On the default configuration
(threshold 4) seeded by `SetIntervalsToday(math.MaxInt64)`, the seven skips
that complete four Work phases end in the long break with
`intervalsSinceBreak = 0`, but `intervals_today` is `MinInt64 + 3`, not
`n + 4`: the first increment wraps. -/
theorem long_break_seed_wraps :
    (exec (((New DefaultConfig).SetIntervalsToday MaxInt64).SetOnComplete true)
        (List.replicate 7 Op.skip)).map
        (fun r => (r.2.count Phase.PhaseWork, r.1.Status.Phase.String, r.1.intervalsSinceBreak,
          r.1.Status.IntervalsToday)) =
      some (4, "long_break", 0, -9223372036854775805) ∧
    (-9223372036854775805 : Int) ≠ MaxInt64 + 4 := by
  refine ⟨by decide, by decide⟩

/-! ## The methods -/

/-- Claim C3. On every timer state (Idle, Running or Paused, any remaining
value; the stop channel of a running timer being open) `Skip` returns, with
the phase, the remaining time and both counters of `advancePhase` applied to
the state, and with `state = StateIdle`; with a callback registered the
callback is called exactly once, on the phase the timer had before the
transition, and without one it is not called. -/
theorem Skip_spec (s : Timer) (hwf : s.chanOK) :
    ∃ s' evs, s.Skip = some (s', evs) ∧
      s'.phase = s.advancePhase.phase ∧
      s'.remaining = s.advancePhase.remaining ∧
      s'.intervalsToday = s.advancePhase.intervalsToday ∧
      s'.intervalsSinceBreak = s.advancePhase.intervalsSinceBreak ∧
      s'.state = State.StateIdle ∧
      (s.onComplete = true → evs = [s.phase]) ∧
      (s.onComplete = false → evs = []) := by
  obtain ⟨h1, h2, h3, h4⟩ :=
    advancePhase_core s.stopped s (by simp) (by simp) (by simp) (by simp)
  refine ⟨_, _, Skip_eq s hwf, h1, h2, h3, h4, rfl, ?_, ?_⟩
  · intro h
    simp [h]
  · intro h
    simp [h]

/-- Skipping a running Work phase of the default configuration with a callback
registered: one callback, on Work, and an idle ShortBreak. -/
theorem Skip_spec_witness :
    ∃ s' evs, (((New DefaultConfig).SetOnComplete true).Start 5).Skip = some (s', evs) ∧
      s'.phase = Phase.PhaseShortBreak ∧
      s'.remaining = 5 * Minute ∧
      s'.intervalsToday = 1 ∧
      s'.intervalsSinceBreak = 1 ∧
      s'.state = State.StateIdle ∧
      evs = [Phase.PhaseWork] := by
  obtain ⟨s', evs, h, hp, hr, ht, hi, hs, hev, _⟩ :=
    Skip_spec (((New DefaultConfig).SetOnComplete true).Start 5) (fun _ => rfl)
  exact ⟨s', evs, h, hp, hr, ht, hi, hs, hev rfl⟩

/-- Claim C4. On every timer state (the stop channel of a running timer being
open) `Reset` returns, with `state = StateIdle`, `phase = PhaseWork`,
`remaining = WorkDuration`, `intervalsSinceBreak = 0` and `intervalsToday`
as it was; a second `Reset` changes nothing; and `Reset` leaves a freshly
constructed timer, whatever `intervalsToday` it was seeded with, as it is, so
its status is the same. -/
theorem Reset_spec (s : Timer) (hwf : s.chanOK) :
    (∃ s', s.Reset = some s' ∧
      s'.state = State.StateIdle ∧
      s'.phase = Phase.PhaseWork ∧
      s'.remaining = s.config.WorkDuration ∧
      s'.intervalsSinceBreak = 0 ∧
      s'.intervalsToday = s.intervalsToday ∧
      s'.Reset = some s') ∧
    (∀ (config : Config) (n : Int),
      ((New config).SetIntervalsToday n).Reset = some ((New config).SetIntervalsToday n) ∧
      (((New config).SetIntervalsToday n).Reset.map Timer.Status) =
        some { State := State.StateIdle
               Phase := Phase.PhaseWork
               Remaining := config.WorkDuration
               IntervalsToday := n }) := by
  constructor
  · refine ⟨_, Reset_eq s hwf, rfl, rfl, by simp, rfl, by simp, ?_⟩
    rw [Reset_eq _ (fun h => by simp at h), stopped_of_not_running _ (by simp)]
    simp
  · intro config n
    constructor <;> rfl

/-- Resetting a running ShortBreak of the default configuration, three
intervals into the day. -/
theorem Reset_spec_witness :
    (∃ s', ({ New DefaultConfig with
              state := State.StateRunning
              phase := Phase.PhaseShortBreak
              remaining := 17 * Second
              intervalsToday := 3
              intervalsSinceBreak := 3
              stopChan := Chan.opened
              tickLoops := 1 } : Timer).Reset = some s' ∧
      s'.state = State.StateIdle ∧
      s'.phase = Phase.PhaseWork ∧
      s'.remaining = 30 * Minute ∧
      s'.intervalsSinceBreak = 0 ∧
      s'.intervalsToday = 3 ∧
      s'.Reset = some s') :=
  (Reset_spec
    { New DefaultConfig with
      state := State.StateRunning
      phase := Phase.PhaseShortBreak
      remaining := 17 * Second
      intervalsToday := 3
      intervalsSinceBreak := 3
      stopChan := Chan.opened
      tickLoops := 1 } (fun _ => rfl)).1

/-- Claim C5. The method `Start` returns a running timer unchanged (no new
channel, no new tick loop, `lastTick` as it was); on an idle or paused timer it
sets `state = StateRunning` and `lastTick = now`, makes a channel and starts one
tick-loop goroutine, and leaves the phase, the remaining time and both counters
as they were; so a second `Start` changes nothing.  After `Start` on a fresh timer with
`WorkDuration` of 25 minutes the status is work, running, 1500 seconds. -/
theorem Start_spec (s : Timer) (config : Config) (now now' : Int) :
    (s.state = State.StateRunning → s.Start now = s) ∧
    (s.state = State.StateIdle ∨ s.state = State.StatePaused →
      s.Start now =
        { s with
          state := State.StateRunning
          lastTick := now
          stopChan := Chan.opened
          tickLoops := s.tickLoops + 1 }) ∧
    (s.Start now).Start now' = s.Start now ∧
    (config.WorkDuration = 25 * Minute →
      ((New config).Start now).Status.Phase.String = "work" ∧
      ((New config).Start now).Status.State.String = "running" ∧
      RemainingSeconds ((New config).Start now).Status = 1500) := by
  refine ⟨?_, ?_, ?_, ?_⟩
  · intro h
    simp [Timer.Start, h]
  · intro h
    have hne : s.state ≠ State.StateRunning := by
      rcases h with h | h <;> rw [h] <;> decide
    simp [Timer.Start, hne]
  · by_cases h : s.state = State.StateRunning <;> simp [Timer.Start, h]
  · intro h
    have hrem : ((New config).Start now).Status.Remaining = 25 * Minute := by
      simp [Timer.Status, Timer.Start, New, h]
    refine ⟨rfl, rfl, ?_⟩
    unfold RemainingSeconds
    rw [hrem]
    have hpos : ¬ (25 * Minute < 0) := by decide
    simp only [if_neg hpos]
    rw [truncInt_Seconds _ (by decide) (by decide)]
    decide

/-- A running timer, an idle timer and the 25 minute configuration. -/
theorem Start_spec_witness :
    ((New DefaultConfig).Start 3).Start 9 = (New DefaultConfig).Start 3 ∧
      (New DefaultConfig).Start 9 =
        { New DefaultConfig with
          state := State.StateRunning
          lastTick := 9
          stopChan := Chan.opened
          tickLoops := 1 } ∧
      RemainingSeconds
        ((New { DefaultConfig with WorkDuration := 25 * Minute }).Start 9).Status = 1500 :=
  ⟨(Start_spec ((New DefaultConfig).Start 3) DefaultConfig 9 0).1 rfl,
   (Start_spec (New DefaultConfig) DefaultConfig 9 0).2.1 (Or.inl rfl),
   ((Start_spec (New DefaultConfig) { DefaultConfig with WorkDuration := 25 * Minute }
      9 0).2.2.2 rfl).2.2⟩

/-- Claim C6. On a running timer (its stop channel open) `Pause` sets
`state = StatePaused` and closes the stop channel, which is the stop signal
for the tick loop, and leaves the remaining time, the phase and both counters
as they were; on an idle or paused timer it changes nothing. -/
theorem Pause_spec (s : Timer) :
    (s.state = State.StateRunning → s.stopChan = Chan.opened →
      s.Pause = some { s with state := State.StatePaused, stopChan := Chan.closed }) ∧
    (s.state = State.StateIdle ∨ s.state = State.StatePaused → s.Pause = some s) := by
  refine ⟨Pause_running s, ?_⟩
  intro h
  apply Pause_not_running
  rcases h with h | h <;> rw [h] <;> decide

/-- Pausing a started timer, and pausing an idle one. -/
theorem Pause_spec_witness :
    ((New DefaultConfig).Start 3).Pause =
        some { New DefaultConfig with
          state := State.StatePaused
          lastTick := 3
          stopChan := Chan.closed
          tickLoops := 1 } ∧
      (New DefaultConfig).Pause = some (New DefaultConfig) :=
  ⟨(Pause_spec ((New DefaultConfig).Start 3)).1 rfl rfl,
   (Pause_spec (New DefaultConfig)).2 (Or.inl rfl)⟩

/-- Claim C7. On a paused timer `Resume` is `Start`; on an idle or running
timer it changes nothing, so it never starts an idle timer. -/
theorem Resume_spec (s : Timer) (now : Int) :
    (s.state = State.StatePaused → s.Resume now = s.Start now) ∧
    (s.state = State.StateIdle ∨ s.state = State.StateRunning → s.Resume now = s) := by
  constructor
  · intro h
    simp [Timer.Resume, h]
  · intro h
    have hne : s.state ≠ State.StatePaused := by
      rcases h with h | h <;> rw [h] <;> decide
    simp [Timer.Resume, hne]

/-- Resuming a paused timer starts it; resuming a fresh timer leaves it idle. -/
theorem Resume_spec_witness :
    ({ New DefaultConfig with state := State.StatePaused } : Timer).Resume 4 =
        ({ New DefaultConfig with state := State.StatePaused } : Timer).Start 4 ∧
      (New DefaultConfig).Resume 4 = New DefaultConfig :=
  ⟨(Resume_spec { New DefaultConfig with state := State.StatePaused } 4).1 rfl,
   (Resume_spec (New DefaultConfig) 4).2 (Or.inl rfl)⟩

/-- Claim C8. On a running timer (its stop channel open) `Pause` followed by
`Resume` at the instant `resumeAt`, with no tick in between, gives a running
timer with the remaining time, the phase and both counters as they were; and
the first tick after it, at the instant `t`, takes `t - resumeAt` off the
remaining time, whatever the time spent paused: it leaves
`remaining - (t - resumeAt)` when that is positive, and is a phase transition
otherwise. -/
theorem Pause_Resume_spec (s : Timer) (resumeAt t : Int)
    (hr : s.state = State.StateRunning) (hc : s.stopChan = Chan.opened) :
    ∃ p, s.Pause = some p ∧
      (p.Resume resumeAt).state = State.StateRunning ∧
      (p.Resume resumeAt).remaining = s.remaining ∧
      (p.Resume resumeAt).phase = s.phase ∧
      (p.Resume resumeAt).intervalsToday = s.intervalsToday ∧
      (p.Resume resumeAt).intervalsSinceBreak = s.intervalsSinceBreak ∧
      (p.Resume resumeAt).lastTick = resumeAt ∧
      (0 < s.remaining - (t - resumeAt) →
        (p.Resume resumeAt).tick t =
          ({ p.Resume resumeAt with
              lastTick := t
              remaining := s.remaining - (t - resumeAt) }, [])) ∧
      (s.remaining - (t - resumeAt) ≤ 0 →
        (p.Resume resumeAt).tick t =
          (({ p.Resume resumeAt with
                lastTick := t
                remaining := s.remaining - (t - resumeAt) } : Timer).advancePhase,
            if s.onComplete then [s.phase] else [])) := by
  refine ⟨_, Pause_running s hr hc, ?_⟩
  have hres :
      ({ s with state := State.StatePaused, stopChan := Chan.closed } :
          Timer).Resume resumeAt =
        { s with
          state := State.StateRunning
          lastTick := resumeAt
          stopChan := Chan.opened
          tickLoops := s.tickLoops + 1 } := by
    simp [Timer.Resume, Timer.Start]
  rw [hres]
  refine ⟨rfl, rfl, rfl, rfl, rfl, rfl, ?_, ?_⟩
  · intro hpos
    exact tick_pos _ t rfl hpos
  · intro hle
    exact tick_nonpos _ t rfl hle

/-- A timer with 100 ns left that last ticked at instant 10, paused and then
resumed at instant 500: the tick at instant 530 leaves 70 ns, not less. -/
theorem Pause_Resume_spec_witness :
    ∃ p, ({ New DefaultConfig with
              state := State.StateRunning
              remaining := 100
              lastTick := 10
              stopChan := Chan.opened
              tickLoops := 1 } : Timer).Pause = some p ∧
      ((p.Resume 500).tick 530).1.remaining = 70 ∧
      ((p.Resume 500).tick 530).2 = [] := by
  obtain ⟨p, h1, _, _, _, _, _, _, h8, _⟩ :=
    Pause_Resume_spec
      { New DefaultConfig with
        state := State.StateRunning
        remaining := 100
        lastTick := 10
        stopChan := Chan.opened
        tickLoops := 1 } 500 530 rfl rfl
  refine ⟨p, h1, ?_, ?_⟩
  · rw [h8 (by decide)]
    rfl
  · rw [h8 (by decide)]

/-! ## Invariants of the reachable states -/

/-- Claim C9. With `LongBreakAfter ≥ 1` (a value of `int`, so at most
`MaxInt64`), in every state reached from a fresh timer by any sequence of
`Start`, `Pause`, `Resume`, `Skip`, `Reset`, `SetIntervalsToday`,
`SetOnComplete` and tick steps, `0 ≤ intervalsSinceBreak < LongBreakAfter`: the
counter stays below the threshold, so its increment never wraps. -/
theorem intervalsSinceBreak_range (config : Config) (ops : List Op) (s : Timer)
    (evs : List Phase) (hk : 1 ≤ config.LongBreakAfter)
    (hmax : config.LongBreakAfter ≤ MaxInt64)
    (h : exec (New config) ops = some (s, evs)) :
    0 ≤ s.intervalsSinceBreak ∧ s.intervalsSinceBreak < config.LongBreakAfter := by
  have hinv :=
    exec_invariant
      (fun t => t.chanOK ∧ t.config = config ∧
        0 ≤ t.intervalsSinceBreak ∧ t.intervalsSinceBreak < config.LongBreakAfter)
      (by
        intro a op r ⟨hwf, hcfg, hrange⟩ hstep
        obtain ⟨hc, hcases⟩ := step_core a op r hwf hstep
        refine ⟨step_chanOK a op r hwf hstep, hc.trans hcfg, ?_⟩
        rcases hcases with ⟨_, _, hi, _⟩ | ⟨_, _, _, hi, _⟩ | ⟨_, _, _, _, hi, _⟩ |
          ⟨n, _, _, _, _, hi, _⟩
        · rw [hi]
          exact hrange
        · rw [hi]
          have := advancePhase_intervalsSinceBreak_range a (hcfg ▸ hk) (hcfg ▸ hmax)
            (hcfg ▸ hrange)
          rw [hcfg] at this
          exact this
        · rw [hi]
          omega
        · rw [hi]
          exact hrange)
      ops (New config) (s, evs) ⟨New_chanOK config, rfl, le_refl 0, by
        show (0 : Int) < config.LongBreakAfter
        omega⟩ h
  exact hinv.2.2

/-- The default configuration: start, a tick that ends the Work phase, and
two skips leave two intervals since the last long break. -/
theorem intervalsSinceBreak_range_witness :
    ∃ s evs,
      exec (New DefaultConfig) [Op.start 0, Op.tick (30 * Minute), Op.skip, Op.skip] =
          some (s, evs) ∧
        s.intervalsSinceBreak = 2 ∧
        0 ≤ s.intervalsSinceBreak ∧ s.intervalsSinceBreak < DefaultConfig.LongBreakAfter := by
  have hexec :
      exec (New DefaultConfig) [Op.start 0, Op.tick (30 * Minute), Op.skip, Op.skip] =
        some
          ({ New DefaultConfig with
             phase := Phase.PhaseShortBreak
             remaining := 5 * Minute
             intervalsToday := 2
             intervalsSinceBreak := 2
             lastTick := 30 * Minute
             stopChan := Chan.closed
             tickLoops := 1 },
            []) := by
    decide
  exact ⟨_, _, hexec, rfl,
    intervalsSinceBreak_range DefaultConfig
      [Op.start 0, Op.tick (30 * Minute), Op.skip, Op.skip] _ _ (by decide) (by decide)
      hexec⟩

/-- Claim C10. With the three durations positive, in every state reached from
a fresh timer by any sequence of `Start`, `Pause`, `Resume`, `Skip`, `Reset`,
`SetIntervalsToday`, `SetOnComplete` and tick steps, each taken atomically, the
remaining time read through `Status` or `Remaining` is strictly positive: a
tick that exhausts the clock installs the duration of the new phase in the
same step.  This holds for every elapsed time, so for the non-negative ones. -/
theorem remaining_pos (config : Config) (ops : List Op) (s : Timer) (evs : List Phase)
    (hw : 0 < config.WorkDuration) (hs : 0 < config.ShortBreakDuration)
    (hl : 0 < config.LongBreakDuration)
    (h : exec (New config) ops = some (s, evs)) :
    0 < s.Status.Remaining ∧ 0 < s.Remaining := by
  have hinv :=
    exec_invariant
      (fun t => t.chanOK ∧ t.config = config ∧ 0 < t.remaining)
      (by
        intro a op r ⟨hwf, hcfg, hpos⟩ hstep
        obtain ⟨hc, hcases⟩ := step_core a op r hwf hstep
        refine ⟨step_chanOK a op r hwf hstep, hc.trans hcfg, ?_⟩
        rcases hcases with ⟨_, _, _, hrem | hrem, _⟩ | ⟨_, hrem, _⟩ | ⟨_, _, hrem, _⟩ |
          ⟨n, _, _, hrem, _⟩
        · rw [hrem]
          exact hpos
        · exact hrem
        · rw [hrem]
          exact advancePhase_remaining_pos a (hcfg ▸ hw) (hcfg ▸ hs) (hcfg ▸ hl)
        · rw [hrem, hcfg]
          exact hw
        · rw [hrem]
          exact hpos)
      ops (New config) (s, evs) ⟨New_chanOK config, rfl, hw⟩ h
  exact ⟨hinv.2.2, hinv.2.2⟩

/-- The default configuration: the tick that overshoots the Work phase by ten
minutes installs the five minutes of the short break. -/
theorem remaining_pos_witness :
    ∃ s evs,
      exec (New DefaultConfig) [Op.start 0, Op.tick (20 * Minute), Op.tick (40 * Minute)] =
          some (s, evs) ∧
        s.Remaining = 5 * Minute ∧ 0 < s.Status.Remaining ∧ 0 < s.Remaining := by
  have hexec :
      exec (New DefaultConfig) [Op.start 0, Op.tick (20 * Minute), Op.tick (40 * Minute)] =
        some
          ({ New DefaultConfig with
             state := State.StateRunning
             phase := Phase.PhaseShortBreak
             remaining := 5 * Minute
             intervalsToday := 1
             intervalsSinceBreak := 1
             lastTick := 40 * Minute
             stopChan := Chan.opened
             tickLoops := 1 },
            []) := by
    decide
  exact ⟨_, _, hexec, rfl,
    remaining_pos DefaultConfig
      [Op.start 0, Op.tick (20 * Minute), Op.tick (40 * Minute)] _ _
      (by decide) (by decide) (by decide) hexec⟩

/-! ## The tick loop -/

/-- Claim C17. Tick arithmetic is free of drift.  For a running timer with
tick reference `lastTick = t0` and remaining time `r0`, and wake-up instants
`t0 ≤ t1 ≤ ... ≤ tk` with `r0 - (tk - t0) > 0`, the `k` ticks make no
transition and call nothing, and leave `remaining = r0 - (tk - t0)` and
`lastTick = tk`, whatever the number and the spacing of the instants in
between. -/
theorem tick_drift_free (s : Timer) (ts : List Int) (hr : s.state = State.StateRunning)
    (hmono : List.Chain (fun x y => x ≤ y) s.lastTick ts)
    (hpos : 0 < s.remaining - (ts.getLastD s.lastTick - s.lastTick)) :
    exec s (ts.map Op.tick) =
      some ({ s with
              lastTick := ts.getLastD s.lastTick
              remaining := s.remaining - (ts.getLastD s.lastTick - s.lastTick) }, []) := by
  induction ts generalizing s with
  | nil =>
    simp [exec]
  | cons t ts ih =>
    rw [List.chain_cons] at hmono
    rw [List.getLastD_cons] at hpos ⊢
    have hlast : t ≤ ts.getLastD t := chain_le_getLastD ts t hmono.2
    have hpos1 : 0 < s.remaining - (t - s.lastTick) := by omega
    have hih :=
      ih { s with lastTick := t, remaining := s.remaining - (t - s.lastTick) } hr hmono.2
        (by
          show 0 < s.remaining - (t - s.lastTick) - (ts.getLastD t - t)
          omega)
    simp only [List.map_cons, exec, step, tick_pos s t hr hpos1, Option.some_bind, hih,
      List.append_nil, Option.some.injEq, Prod.mk.injEq, and_true]
    have hrem :
        s.remaining - (t - s.lastTick) - (ts.getLastD t - t) =
          s.remaining - (ts.getLastD t - s.lastTick) := by
      omega
    rw [hrem]

/-- A running timer with 100 s left that last ticked at second 10: three
wake-ups at uneven instants up to second 17 leave 93 s. -/
theorem tick_drift_free_witness :
    exec
        { New DefaultConfig with
          state := State.StateRunning
          remaining := 100 * Second
          lastTick := 10 * Second
          stopChan := Chan.opened
          tickLoops := 1 }
        [Op.tick (10 * Second + 3), Op.tick (14 * Second), Op.tick (17 * Second)] =
      some ({ New DefaultConfig with
              state := State.StateRunning
              remaining := 93 * Second
              lastTick := 17 * Second
              stopChan := Chan.opened
              tickLoops := 1 }, []) :=
  tick_drift_free
    { New DefaultConfig with
      state := State.StateRunning
      remaining := 100 * Second
      lastTick := 10 * Second
      stopChan := Chan.opened
      tickLoops := 1 }
    [10 * Second + 3, 14 * Second, 17 * Second] rfl
    (List.Chain.cons (by decide)
      (List.Chain.cons (by decide) (List.Chain.cons (by decide) List.Chain.nil)))
    (by decide)

/-- Claim C18. On every running timer, a tick whose elapsed time leaves
`remaining - elapsed ≤ 0`, however far below zero, is one `advancePhase`: the
phase and the counters are those of `advancePhase`, the remaining time is the
full configured duration of the new phase (the overshoot is dropped), the
timer keeps running, and a registered callback is called exactly once, on the
phase that ended.  A tick that leaves `remaining - elapsed > 0` makes no
transition and calls nothing. -/
theorem tick_transition_spec (s : Timer) (now : Int) (hr : s.state = State.StateRunning) :
    (s.remaining - (now - s.lastTick) ≤ 0 →
      (s.tick now).1 =
          ({ s with lastTick := now, remaining := s.remaining - (now - s.lastTick) } :
            Timer).advancePhase ∧
        (s.tick now).1.phase = s.advancePhase.phase ∧
        (s.tick now).1.intervalsToday = s.advancePhase.intervalsToday ∧
        (s.tick now).1.intervalsSinceBreak = s.advancePhase.intervalsSinceBreak ∧
        (s.tick now).1.remaining = s.config.duration (s.tick now).1.phase ∧
        (s.tick now).1.state = State.StateRunning ∧
        (s.onComplete = true → (s.tick now).2 = [s.phase]) ∧
        (s.onComplete = false → (s.tick now).2 = [])) ∧
    (0 < s.remaining - (now - s.lastTick) →
      s.tick now =
        ({ s with lastTick := now, remaining := s.remaining - (now - s.lastTick) }, [])) := by
  constructor
  · intro hle
    have htick := tick_nonpos s now hr hle
    obtain ⟨h1, _, h3, h4⟩ :=
      advancePhase_core
        { s with lastTick := now, remaining := s.remaining - (now - s.lastTick) } s
        rfl rfl rfl rfl
    refine ⟨by rw [htick], by rw [htick]; exact h1, by rw [htick]; exact h3,
      by rw [htick]; exact h4, ?_, by rw [tick_state]; exact hr, ?_, ?_⟩
    · rw [htick]
      exact advancePhase_remaining _
    · intro hcb
      rw [htick, hcb]
      rfl
    · intro hcb
      rw [htick, hcb]
      rfl
  · intro hpos
    exact tick_pos s now hr hpos

/-- A running Work phase of the default configuration with 1 s left: a tick
two hours late starts the 5 minute short break, and calls the callback once on
Work; a tick half a second later leaves half a second. -/
theorem tick_transition_spec_witness :
    (({ New DefaultConfig with
          state := State.StateRunning
          remaining := Second
          onComplete := true
          stopChan := Chan.opened
          tickLoops := 1 } : Timer).tick (120 * Minute)).1.remaining = 5 * Minute ∧
      (({ New DefaultConfig with
          state := State.StateRunning
          remaining := Second
          onComplete := true
          stopChan := Chan.opened
          tickLoops := 1 } : Timer).tick (120 * Minute)).2 = [Phase.PhaseWork] ∧
      ({ New DefaultConfig with
          state := State.StateRunning
          remaining := Second
          onComplete := true
          stopChan := Chan.opened
          tickLoops := 1 } : Timer).tick 500000000 =
        ({ New DefaultConfig with
            state := State.StateRunning
            remaining := 500000000
            lastTick := 500000000
            onComplete := true
            stopChan := Chan.opened
            tickLoops := 1 }, []) :=
  ⟨((tick_transition_spec
      { New DefaultConfig with
        state := State.StateRunning
        remaining := Second
        onComplete := true
        stopChan := Chan.opened
        tickLoops := 1 } (120 * Minute) rfl).1 (by decide)).2.2.2.2.1,
   ((tick_transition_spec
      { New DefaultConfig with
        state := State.StateRunning
        remaining := Second
        onComplete := true
        stopChan := Chan.opened
        tickLoops := 1 } (120 * Minute) rfl).1 (by decide)).2.2.2.2.2.2.1 rfl,
   (tick_transition_spec
      { New DefaultConfig with
        state := State.StateRunning
        remaining := Second
        onComplete := true
        stopChan := Chan.opened
        tickLoops := 1 } 500000000 rfl).2 (by decide)⟩

/-- Claim C19. A tick of a timer that is not running changes nothing and
calls nothing, for every instant: the remaining time, `lastTick`, the phase and
both counters stay as they are.  This is the state `Pause` leaves (Paused, or
as it was) and the state `Skip` and `Reset` leave (Idle). -/
theorem tick_stopped_spec (s : Timer) (now : Int) :
    (s.state ≠ State.StateRunning → s.tick now = (s, [])) ∧
    (∀ p, s.Pause = some p → p.tick now = (p, [])) ∧
    (∀ r, s.Skip = some r → r.1.tick now = (r.1, [])) ∧
    (∀ p, s.Reset = some p → p.tick now = (p, [])) := by
  refine ⟨tick_not_running s now, ?_, ?_, ?_⟩
  · intro p h
    exact tick_not_running p now (Pause_state s p h)
  · intro r h
    exact tick_not_running r.1 now (by rw [Skip_state s r h]; decide)
  · intro p h
    exact tick_not_running p now (by rw [Reset_state s p h]; decide)

/-- A timer started at instant 0 and paused: the tick an hour later changes
nothing. -/
theorem tick_stopped_spec_witness :
    ({ New DefaultConfig with
        state := State.StatePaused
        stopChan := Chan.closed
        tickLoops := 1 } : Timer).tick (60 * Minute) =
      ({ New DefaultConfig with
          state := State.StatePaused
          stopChan := Chan.closed
          tickLoops := 1 }, []) :=
  (tick_stopped_spec ((New DefaultConfig).Start 0) (60 * Minute)).2.1
    { New DefaultConfig with
      state := State.StatePaused
      stopChan := Chan.closed
      tickLoops := 1 }
    (by decide)

/-- Claim C20 fails on the code.  The operation sequences of the claim are
taken on the timer with its goroutines, of which none has been scheduled yet.
After `Start`, `Pause`, `Resume` the timer is running and its stop channel is
open, as in the sequential model, but two tick loops are un-cancelled, not
one: the `close` of `Pause` closed the first channel, and the goroutine of the
first `Start`, which has not read `t.stopChan` yet, will read the channel that
`Resume` made.  After two `Start` calls in a row there is one goroutine, and
the `Pause` that follows cancels it only until the next `Start`: after it the
timer is running with two un-cancelled loops, which both enter the `select` on
the open channel. -/
theorem uncancelled_loops_two (config : Config) (a b c : Int) :
    (∃ k : Conc,
      Conc.exec (Conc.New config) [ConcOp.start a, ConcOp.pause, ConcOp.resume b] = some k ∧
        exec (New config) [Op.start a, Op.pause, Op.resume b] = some (k.timer, []) ∧
        k.timer.state = State.StateRunning ∧ k.timer.stopChan = Chan.opened ∧
        k.currentOpen = true ∧ k.loops.length = 2 ∧ k.uncancelled = 2) ∧
    (∃ k1 k2 k3 : Conc,
      Conc.exec (Conc.New config) [ConcOp.start a, ConcOp.start b] = some k1 ∧
        k1.loops.length = 1 ∧ k1.uncancelled = 1 ∧
        Conc.exec k1 [ConcOp.pause] = some k2 ∧
        k2.uncancelled = 0 ∧ k2.live = 1 ∧
        Conc.exec k2 [ConcOp.start c, ConcOp.enterSelect 0, ConcOp.enterSelect 1] = some k3 ∧
        k3.timer.state = State.StateRunning ∧ k3.timer.stopChan = Chan.opened ∧
        k3.uncancelled = 2 ∧ k3.waitingOnOpen = 2) :=
  ⟨⟨_, rfl, rfl, rfl, rfl, rfl, rfl, rfl⟩,
    ⟨_, _, _, rfl, rfl, rfl, rfl, rfl, rfl, rfl, rfl, rfl, rfl, rfl⟩⟩

/-! ## The blocker -/

/-- Claim C15. For every blocker state the blocking decision `shouldBlock` is
`enabled and (inInterval or alwaysBlock)`; so it is false whenever `enabled`
is false, whatever the other two flags are. -/
theorem shouldBlock_spec (b : Blocker) :
    b.shouldBlock = (b.enabled && (b.inInterval || b.alwaysBlock)) ∧
    (b.enabled = false → b.shouldBlock = false) := by
  constructor
  · unfold Blocker.shouldBlock
    cases b.enabled <;> rfl
  · intro h
    simp [Blocker.shouldBlock, h]

/-- A disabled blocker with both other flags set does not block. -/
theorem shouldBlock_spec_witness :
    ({ Blocker.New with alwaysBlock := true, inInterval := true } : Blocker).shouldBlock =
      false :=
  (shouldBlock_spec { Blocker.New with alwaysBlock := true, inInterval := true }).2 rfl

/-! ## The control server -/

/-- Claim C11, as the code has it.  For every action that `handleCommand`
dispatches, which are `status`, `start`, `pause`, `skip`, `reset`,
`toggle_block` and `toggle_always`, and every daemon whose timer has a
consistent stop channel, `handleCommand` returns a response with
`Success = true`, no error text, and as data the status of the daemon it
leaves. -/
theorem handleCommand_dispatched (d : Daemon) (action : String) (now : Int)
    (days : List DayStats)
    (hact : action ∈
      ["status", "start", "pause", "skip", "reset", "toggle_block", "toggle_always"])
    (hwf : d.timer.chanOK) :
    ∃ h status, d.handleCommand { Action := action } now days = some h ∧
      h.response = { Success := true, Data := some status, Error := "" } ∧
      h.daemon.GetStatus days = some status := by
  simp only [List.mem_cons, List.mem_singleton, List.not_mem_nil, or_false] at hact
  rcases hact with rfl | rfl | rfl | rfl | rfl | rfl | rfl
  · obtain ⟨status, hst, _⟩ := GetStatus_total d days
    simp only [Daemon.handleCommand, String.reduceEq, if_true, hst, Option.map_some']
    exact ⟨_, status, rfl, rfl, hst⟩
  · simp only [Daemon.handleCommand, String.reduceEq, if_true, if_false]
    exact respond_ok _ _ _
  · obtain ⟨t, ht⟩ := Pause_total d.timer hwf
    simp only [Daemon.handleCommand, String.reduceEq, if_true, if_false, ht, Option.some_bind]
    exact respond_ok _ _ _
  · simp only [Daemon.handleCommand, String.reduceEq, if_true, if_false, Skip_eq d.timer hwf,
      Option.some_bind]
    exact respond_ok _ _ _
  · simp only [Daemon.handleCommand, String.reduceEq, if_true, if_false, Reset_eq d.timer hwf,
      Option.some_bind]
    exact respond_ok _ _ _
  · simp only [Daemon.handleCommand, String.reduceEq, if_true, if_false]
    exact respond_ok _ _ _
  · simp only [Daemon.handleCommand, String.reduceEq, if_true, if_false]
    exact respond_ok _ _ _

/-- The command `toggle_always` on a fresh daemon: success, and the status
says that the blocker always blocks. -/
theorem handleCommand_dispatched_witness :
    ∃ h status, (Daemon.New 0).handleCommand { Action := "toggle_always" } 0 [] = some h ∧
      h.response = { Success := true, Data := some status, Error := "" } ∧
      h.daemon.GetStatus [] = some status ∧ h.daemon.blocker.alwaysBlock = true := by
  obtain ⟨h, status, hh, hresp, hst⟩ :=
    handleCommand_dispatched (Daemon.New 0) "toggle_always" 0 []
      (by simp) (fun hr => by simp [Daemon.New, New, Timer.SetIntervalsToday,
        Timer.SetOnComplete] at hr)
  refine ⟨h, status, hh, hresp, hst, ?_⟩
  simp only [Daemon.handleCommand, String.reduceEq, if_true, if_false] at hh
  obtain ⟨hd, _⟩ := respond_daemon _ _ _ h hh
  rw [hd]
  rfl

/-- Claim C11 fails for the action `toggle_always_block` of the protocol's
action set: `handleCommand` does not dispatch it, and answers with
`Success = false` and the error text `unknown action`. -/
theorem handleCommand_toggle_always_block :
    (Daemon.New 0).handleCommand { Action := "toggle_always_block" } 0 [] =
      some
        { daemon := Daemon.New 0
          response := { Success := false, Data := none, Error := "unknown action" }
          spawned := []
          effects := [] } := by
  simp only [Daemon.handleCommand, String.reduceEq, if_false]

/-- Claim C12. For every action that `handleCommand` does not dispatch, the
empty action of a request without an action field among them, `handleCommand`
returns `Success = false` with the error text `unknown action` and no data,
starts nothing, and leaves the daemon, so its timer and its blocker, as it is.
A line on which `json.Unmarshal` reports an error is answered with
`Success = false` and the error text `invalid command`. -/
theorem handleCommand_unknown (d : Daemon) (cmd : Command) (now : Int)
    (days : List DayStats) (unmarshal : String → Option Command) (text : String) :
    (cmd.Action ∉
        ["status", "start", "pause", "skip", "reset", "toggle_block", "toggle_always"] →
      d.handleCommand cmd now days =
        some
          { daemon := d
            response := { Success := false, Data := none, Error := "unknown action" }
            spawned := []
            effects := [] }) ∧
    d.handleCommand { Action := "" } now days =
      some
        { daemon := d
          response := { Success := false, Data := none, Error := "unknown action" }
          spawned := []
          effects := [] } ∧
    (unmarshal text = none →
      d.handleConnection unmarshal (some text) now days =
        some (d, some { Success := false, Data := none, Error := "invalid command" }, [], [])) ∧
    (unmarshal text = some { Action := "" } →
      d.handleConnection unmarshal (some text) now days =
        some (d, some { Success := false, Data := none, Error := "unknown action" }, [], [])) := by
  refine ⟨?_, ?_, ?_, ?_⟩
  · intro hact
    simp only [List.mem_cons, List.mem_singleton, List.not_mem_nil, or_false, not_or] at hact
    obtain ⟨h1, h2, h3, h4, h5, h6, h7⟩ := hact
    simp only [Daemon.handleCommand, h1, h2, h3, h4, h5, h6, h7, if_false]
  · simp only [Daemon.handleCommand, String.reduceEq, if_false]
  · intro hu
    simp only [Daemon.handleConnection, hu]
  · intro hu
    simp only [Daemon.handleConnection, hu, Daemon.handleCommand, String.reduceEq, if_false,
      Option.map_some']

/-- The action `stop` and a line that is not JSON, on a fresh daemon. -/
theorem handleCommand_unknown_witness :
    (Daemon.New 3).handleCommand { Action := "stop" } 0 [] =
        some
          { daemon := Daemon.New 3
            response := { Success := false, Data := none, Error := "unknown action" }
            spawned := []
            effects := [] } ∧
      (Daemon.New 3).handleConnection (fun _ => none) (some "start") 0 [] =
        some (Daemon.New 3,
          some { Success := false, Data := none, Error := "invalid command" }, [], []) :=
  ⟨(handleCommand_unknown (Daemon.New 3) { Action := "stop" } 0 [] (fun _ => none)
      "start").1 (by decide),
   (handleCommand_unknown (Daemon.New 3) { Action := "stop" } 0 [] (fun _ => none)
      "start").2.2.1 rfl⟩

/-- Claim C13 fails on the code.  A daemon made by `New` and started by
`Start` stops once; the second `Stop` closes the stop channel that the first
one closed, which is a panic. -/
theorem Stop_twice_panics (todayCount : Int) :
    ∃ d d1, (Daemon.New todayCount).Start true = Except.ok d ∧
      d.Stop = some d1 ∧ d1.stopChan = Chan.closed ∧ d1.Stop = none :=
  ⟨_, _, rfl, rfl, rfl, rfl⟩

/-- Claim C14, amended. From the daemon that `New` makes, take any sequence
of steps, each a command of the control socket handled by `handleCommand`, the
section under the lock of an iteration of the tick loop, or the run of a
completion callback (one that `Skip` started as a goroutine, or the call a tick
loop makes after its transition).  Whenever no tick loop has a callback still
to call, the focus flag `inInterval` of the blocker is true exactly when the
timer is in the Work phase and running; and after the run of a completion
callback the flag is so in any case, whatever calls are still due. -/
theorem focus_flag_spec (todayCount : Int) (ops : List SysOp) (s : Sys)
    (h : Sys.exec { daemon := Daemon.New todayCount, pending := [], calling := [] } ops =
      some s) :
    (s.calling = [] →
      s.daemon.blocker.inInterval =
        (decide (s.daemon.timer.phase = Phase.PhaseWork) &&
          decide (s.daemon.timer.state = State.StateRunning))) ∧
    (∀ (i : Nat) (days : List DayStats) (s1 : Sys),
      (i < s.calling.length ∧ s.step (SysOp.call i days) = some s1) ∨
        (i < s.pending.length ∧ s.step (SysOp.callback i days) = some s1) →
      s1.daemon.blocker.inInterval =
        (decide (s1.daemon.timer.phase = Phase.PhaseWork) &&
          decide (s1.daemon.timer.state = State.StateRunning))) := by
  have hinv := Sys_exec_inv ops _ s (New_inv todayCount) h
  refine ⟨hinv.2.2, ?_⟩
  intro i days s1 hstep
  rcases hstep with ⟨hi, hstep⟩ | ⟨hi, hstep⟩
  · simp only [Sys.step, List.getElem?_eq_getElem hi, Option.map_eq_some'] at hstep
    obtain ⟨r, hr, hs⟩ := hstep
    subst hs
    exact (onPhaseComplete_spec _ _ _ r hr).2
  · simp only [Sys.step, List.getElem?_eq_getElem hi, Option.map_eq_some'] at hstep
    obtain ⟨r, hr, hs⟩ := hstep
    subst hs
    exact (onPhaseComplete_spec _ _ _ r hr).2

/-- A daemon seeded with two intervals: `start`, a tick that ends the Work
phase and the call of the callback by the tick loop, `skip` out of the short
break, `start` again, and then the callback that `Skip` started: the timer is
running the Work phase and the focus flag is set. -/
theorem focus_flag_spec_witness :
    ∃ s,
      Sys.exec { daemon := Daemon.New 2, pending := [], calling := [] }
          [SysOp.command "start" 0 [], SysOp.tick (31 * Minute), SysOp.call 0 [],
            SysOp.command "skip" (32 * Minute) [], SysOp.command "start" (33 * Minute) [],
            SysOp.callback 0 []] = some s ∧
        s.calling = [] ∧
        s.daemon.timer.phase = Phase.PhaseWork ∧
        s.daemon.timer.state = State.StateRunning ∧
        s.daemon.blocker.inInterval = true := by
  have hexec :
      Sys.exec { daemon := Daemon.New 2, pending := [], calling := [] }
          [SysOp.command "start" 0 [], SysOp.tick (31 * Minute), SysOp.call 0 [],
            SysOp.command "skip" (32 * Minute) [], SysOp.command "start" (33 * Minute) [],
            SysOp.callback 0 []] =
        some
          { daemon :=
              { Daemon.New 2 with
                timer :=
                  { (Daemon.New 2).timer with
                    state := State.StateRunning
                    intervalsToday := 3
                    intervalsSinceBreak := 1
                    lastTick := 33 * Minute
                    stopChan := Chan.opened
                    tickLoops := 2 }
                blocker := { Blocker.New with inInterval := true } }
            pending := []
            calling := [] } := by
    decide
  exact ⟨_, hexec, rfl, rfl, rfl,
    (focus_flag_spec 2
      [SysOp.command "start" 0 [], SysOp.tick (31 * Minute), SysOp.call 0 [],
        SysOp.command "skip" (32 * Minute) [], SysOp.command "start" (33 * Minute) [],
        SysOp.callback 0 []] _ hexec).1 rfl⟩

/-- Counterexample to claim C14 as stated.  On a fresh daemon `start` is
handled, and half an hour later a tick ends the Work phase: the timer is in
the short break and running, and the tick loop has released the lock and not
yet called the callback (which first writes to the store and waits for the
notification).  The command `status` handled now is answered with
`phase = short_break` and `timer_state = running`, and after it the focus flag
`inInterval` is still true. -/
theorem focus_flag_stale :
    (Sys.exec { daemon := Daemon.New 0, pending := [], calling := [] }
        [SysOp.command "start" 0 [], SysOp.tick (30 * Minute),
          SysOp.command "status" (30 * Minute) []]).map
        (fun s =>
          (s.calling, s.daemon.timer.phase, s.daemon.timer.state,
            s.daemon.blocker.inInterval)) =
      some ([Phase.PhaseWork], Phase.PhaseShortBreak, State.StateRunning, true) ∧
    ((Sys.exec { daemon := Daemon.New 0, pending := [], calling := [] }
        [SysOp.command "start" 0 [], SysOp.tick (30 * Minute)]).bind
        (fun s =>
          (s.daemon.handleCommand { Action := "status" } (30 * Minute) []).map fun h =>
            (h.response.Success,
              h.response.Data.map fun st => (st.Phase, st.TimerState)))) =
      some (true, some ("short_break", "running")) := by
  refine ⟨by decide, by decide⟩

/-- Claim C16. On every daemon, `toggle_block` handled twice in a row
returns; the second response carries `BlockEnabled` as it was before the first
toggle, and the two toggles leave the daemon, so its timer, `alwaysBlock` and
`inInterval`, as it was. -/
theorem toggle_block_twice (d : Daemon) (now1 now2 : Int) (days1 days2 : List DayStats) :
    ∃ h1 h2 status,
      d.handleCommand { Action := "toggle_block" } now1 days1 = some h1 ∧
      h1.daemon.blocker.enabled = !d.blocker.enabled ∧
      h1.daemon.handleCommand { Action := "toggle_block" } now2 days2 = some h2 ∧
      h2.response = { Success := true, Data := some status, Error := "" } ∧
      status.BlockEnabled = d.blocker.enabled ∧
      h2.daemon.timer = d.timer ∧
      h2.daemon.blocker.alwaysBlock = d.blocker.alwaysBlock ∧
      h2.daemon.blocker.inInterval = d.blocker.inInterval ∧
      h2.daemon = d := by
  have hcmd : ∀ (e : Daemon) (now : Int) (days : List DayStats),
      e.handleCommand { Action := "toggle_block" } now days =
        ({ e with blocker := e.blocker.ToggleEnabled.1 } : Daemon).respond [] days := by
    intro e now days
    simp only [Daemon.handleCommand, String.reduceEq, if_true, if_false]
  obtain ⟨st1, eff1, _, hr1⟩ :=
    respond_spec { d with blocker := d.blocker.ToggleEnabled.1 } [] days1
  obtain ⟨st2, eff2, hst2, hr2⟩ :=
    respond_spec
      { d with
        blocker :=
          (({ d with blocker := d.blocker.ToggleEnabled.1 } :
            Daemon).blocker.ToggleEnabled).1 } [] days2
  obtain ⟨st, hst, hen, _⟩ := GetStatus_total
      { d with
        blocker :=
          (({ d with blocker := d.blocker.ToggleEnabled.1 } :
            Daemon).blocker.ToggleEnabled).1 } days2
  have hst' : st2 = st := Option.some.inj (hst2.symm.trans hst)
  refine ⟨_, _, st2, (hcmd d now1 days1).trans hr1, rfl,
    (hcmd _ now2 days2).trans hr2, rfl, ?_, rfl, rfl, rfl, ?_⟩
  · rw [hst', hen]
    simp [Blocker.ToggleEnabled]
  · simp [Blocker.ToggleEnabled]

/-! ## The status text -/

/-- Claim C22, amended. For every remaining time `r` of the timer, negative
ones among them, whose clamped value `R = max r 0` is below `2 ^ 18` minutes
(262144 minutes, 182 days), `GetStatus` reports
`RemainingSeconds = floor (R / 1s)`, which is not negative, and as `Remaining`
the minutes `floor (R / 1min)` and the seconds `RemainingSeconds mod 60`, each
written by `%02d`, with a colon in between: in this range the `float64`s of
`Minutes` and `Seconds` have the integer parts of the exact quotients.  The
seconds are in `0..59`, `60 * minutes + seconds = RemainingSeconds`, and when
`R` is below 100 minutes the text is two digits, a colon and two digits: five
characters. -/
theorem GetStatus_remaining_spec (d : Daemon) (days : List DayStats)
    (hrange : max d.timer.remaining 0 < 262144 * Minute) :
    ∃ status, d.GetStatus days = some status ∧
      status.RemainingSeconds = Int.fdiv (max d.timer.remaining 0) Second ∧
      0 ≤ status.RemainingSeconds ∧
      status.Remaining =
        pad2 (Int.fdiv (max d.timer.remaining 0) Minute) ++ ":" ++
          pad2 (Int.fmod status.RemainingSeconds 60) ∧
      0 ≤ Int.fmod status.RemainingSeconds 60 ∧
      Int.fmod status.RemainingSeconds 60 < 60 ∧
      60 * Int.fdiv (max d.timer.remaining 0) Minute + Int.fmod status.RemainingSeconds 60 =
        status.RemainingSeconds ∧
      (max d.timer.remaining 0 < 100 * Minute →
        status.Remaining =
          twoDigits (Int.fdiv (max d.timer.remaining 0) Minute) ++ ":" ++
            twoDigits (Int.fmod status.RemainingSeconds 60) ∧
        status.Remaining.length = 5) := by
  obtain ⟨status, hst, hrem, hsec⟩ := GetStatus_remaining d days
  have hclamp : (if d.timer.remaining < 0 then 0 else d.timer.remaining) =
      max d.timer.remaining 0 := by
    split_ifs with h
    · exact (max_eq_right (le_of_lt h)).symm
    · exact (max_eq_left (not_lt.mp h)).symm
  rw [hclamp] at hrem hsec
  have hR : 0 ≤ max d.timer.remaining 0 := le_max_right _ _
  generalize max d.timer.remaining 0 = R at hrem hsec hR hrange ⊢
  have hS : Second = 1000000000 := by decide
  have hM : Minute = 60000000000 := by decide
  have hrange' : R < 16777216 * Second := by
    rw [hM] at hrange
    rw [hS]
    omega
  rw [truncInt_Seconds R hR hrange'] at hrem hsec
  rw [truncInt_Minutes R hR hrange] at hrem
  rw [hS] at hsec hrem
  rw [hM] at hrem hrange
  have hq : 0 ≤ R / 1000000000 := by omega
  have hmod : Int.tmod (R / 1000000000) 60 = (R / 1000000000) % 60 := by
    rw [Int.tmod_eq_emod hq (by decide)]
  rw [hmod] at hrem
  refine ⟨status, hst, ?_⟩
  rw [hsec, hS, hM, Int.fdiv_eq_ediv R (by decide), Int.fdiv_eq_ediv R (by decide),
    Int.fmod_eq_emod _ (by decide)]
  refine ⟨rfl, hq, hrem, by omega, by omega, by omega, ?_⟩
  intro hlt
  have h1 : pad2 (R / 60000000000) = twoDigits (R / 60000000000) :=
    pad2_eq_twoDigits _ (by omega) (by omega)
  have h2 : pad2 (R / 1000000000 % 60) = twoDigits (R / 1000000000 % 60) :=
    pad2_eq_twoDigits _ (by omega) (by omega)
  rw [hrem, h1, h2]
  exact ⟨rfl, rfl⟩

/-- A timer with 18 minutes, 32 seconds and 5 nanoseconds left: the status
says `18:32` and 1112 seconds. -/
theorem GetStatus_remaining_spec_witness :
    ∃ status,
      ({ Daemon.New 0 with
          timer :=
            { (Daemon.New 0).timer with remaining := 18 * Minute + 32 * Second + 5 } } :
        Daemon).GetStatus [] = some status ∧
      status.RemainingSeconds = 1112 ∧
      status.Remaining = "18:32" ∧
      status.Remaining.length = 5 := by
  obtain ⟨status, hst, hsec, _, _, _, _, _, hlt⟩ :=
    GetStatus_remaining_spec
      { Daemon.New 0 with
        timer := { (Daemon.New 0).timer with remaining := 18 * Minute + 32 * Second + 5 } } []
      (by decide)
  have hsec' : status.RemainingSeconds = 1112 := hsec.trans (by decide)
  obtain ⟨htext, hlen⟩ := hlt (by decide)
  rw [hsec'] at htext
  exact ⟨status, hst, hsec', htext.trans (by decide), hlen⟩

/-- Counterexample to claim C22 as stated.  With
`16777216.999999999` seconds left (`2 ^ 24` seconds and `999999999`
nanoseconds, 194 days) the whole seconds are `16777216`, which is `16` modulo
60, but `remaining.Seconds()` is the `float64` `16777217`: `GetStatus` reports
`RemainingSeconds = 16777217` and the text `279620:17`. -/
theorem GetStatus_remaining_rounds_up :
    ∃ status,
      ({ Daemon.New 0 with
          timer := { (Daemon.New 0).timer with remaining := 16777216999999999 } } :
        Daemon).GetStatus [] = some status ∧
      status.RemainingSeconds = 16777217 ∧
      status.Remaining = "279620:17" ∧
      Int.fdiv (max 16777216999999999 0) Second = 16777216 ∧
      Int.fmod (Int.fdiv (max 16777216999999999 0) Second) 60 = 16 := by
  obtain ⟨status, hst, hrem, hsec⟩ :=
    GetStatus_remaining
      { Daemon.New 0 with
        timer := { (Daemon.New 0).timer with remaining := 16777216999999999 } } []
  have hrem' : status.Remaining =
      pad2 (truncInt (Duration.Minutes 16777216999999999)) ++ ":" ++
        pad2 (Int.tmod (truncInt (Duration.Seconds 16777216999999999)) 60) := hrem
  have hsec' : status.RemainingSeconds = truncInt (Duration.Seconds 16777216999999999) := hsec
  rw [truncInt_Seconds_rounds_up] at hrem' hsec'
  rw [truncInt_Minutes_large] at hrem'
  exact ⟨status, hst, hsec', hrem'.trans (by decide), by decide, by decide⟩

/-! ## The menu bar -/

/-- Claim C23 fails on the code.  On a fresh daemon the command `skip` leaves
the timer idle in the short break; the menu item Start then starts the timer
and sets the focus flag `inInterval`, although the phase is not Work.  The
command `start` of the control socket leaves the flag unset on the same
daemon. -/
theorem menubar_start_in_break :
    (((Daemon.New 0).handleCommand { Action := "skip" } 0 []).bind fun h =>
        (MenuBar.handleClick h.daemon 5 Click.start).map fun r =>
          (r.1.timer.phase, r.1.timer.state, r.1.blocker.inInterval)) =
      some (Phase.PhaseShortBreak, State.StateRunning, true) ∧
    (((Daemon.New 0).handleCommand { Action := "skip" } 0 []).bind fun h =>
        (h.daemon.handleCommand { Action := "start" } 5 []).map fun r =>
          (r.daemon.timer.phase, r.daemon.timer.state, r.daemon.blocker.inInterval)) =
      some (Phase.PhaseShortBreak, State.StateRunning, false) := by
  constructor <;> decide

/-! ## The subscripts -/

/-- Claim C24 fails on the code.  The count 23 is written `₁₃`, not `₂₃`:
from 13 on `Subscript` writes the subscript one and the last digit.  So 13 and
23 are written alike.  The counts 8 and 12 are written as the claim says. -/
theorem Subscript_twenty_three :
    Subscript 23 = some "₁₃" ∧
    subscriptNumeral 23 = "₂₃" ∧
    Subscript 23 ≠ some (subscriptNumeral 23) ∧
    Subscript 13 = Subscript 23 ∧
    Subscript 8 = some "₈" ∧
    Subscript 12 = some "₁₂" := by
  refine ⟨by decide, by decide, by decide, by decide, by decide, by decide⟩

/-! ## The sparklines -/

/-- Claim C25, amended. For every `maxVal` and every list of values whose
products with the number of levels fit in an `int` (`7 v ≤ MaxInt64` for the
blocks and `8 v ≤ MaxInt64` for braille, asked only of the values below the
effective maximum, the others not being multiplied), `Generate`,
`GenerateBraille` and `GenerateBrailleSpaced` return: no index leaves the glyph
table.  The glyph of the value `v` is the entry of the table at the level
`clamp (floor (v * L / m)) 0 L`, with `L = 7` for the blocks and `L = 8` for
braille, and with `m` the effective maximum: `maxVal` if positive, otherwise 12
for braille and the largest value, at least 1, for the blocks.  The level is on
the scale, does not decrease with `v`, and is `L` exactly when `v ≥ m`.
`Generate` and `GenerateBraille` write one glyph for each value, and
`GenerateBrailleSpaced` writes the glyphs of `GenerateBraille` separated by two
spaces, `3 n - 2` characters for `n ≥ 1` values. -/
theorem sparkline_spec (values : List Int) (maxVal : Int) :
    ((∀ v ∈ values, v < blocksMax values maxVal → v * 7 ≤ MaxInt64) →
      ∃ gs : List Char,
        Generate values maxVal = some (String.mk gs) ∧
        List.Forall₂
          (fun v c => sliceIndex blocks (level 7 (blocksMax values maxVal) v) = some c)
          values gs ∧
        (String.mk gs).length = values.length) ∧
    ((∀ v ∈ values, v < brailleMax maxVal → v * 8 ≤ MaxInt64) →
      ∃ bs : List Char,
        GenerateBraille values maxVal = some (String.mk bs) ∧
        List.Forall₂
          (fun v c => sliceIndex brailleExt (level 8 (brailleMax maxVal) v) = some c)
          values bs ∧
        GenerateBrailleSpaced values maxVal = some (String.mk (spaced bs)) ∧
        (String.mk bs).length = values.length ∧
        (1 ≤ values.length → (String.mk (spaced bs)).length = 3 * values.length - 2)) ∧
    0 < blocksMax values maxVal ∧
    0 < brailleMax maxVal ∧
    (∀ L m v : Int, 0 ≤ L → 0 ≤ level L m v ∧ level L m v ≤ L) ∧
    (∀ L m v w : Int, 0 ≤ L → 0 < m → v ≤ w → level L m v ≤ level L m w) ∧
    (∀ L m v : Int, 0 < L → 0 < m → (level L m v = L ↔ m ≤ v)) := by
  obtain ⟨hbm, hbpos⟩ := blocksMax_eq values maxVal
  obtain ⟨hrm, hrpos⟩ := brailleMax_eq maxVal
  refine ⟨?_, ?_, hbpos, hrpos, fun L m v hL => level_range L m v hL, level_mono,
    level_eq_top_iff⟩
  · intro hfit
    obtain ⟨gs, hgs, hgall⟩ :=
      fillRunes_spec (fun v => blockGlyph v (blocksMax values maxVal)) blocks
        (fun v => level 7 (blocksMax values maxVal) v)
        (fun v => sliceIndex_blocks _ (level_range 7 _ v (by decide)).1
          (level_range 7 _ v (by decide)).2) values
        (fun v hv => blockGlyph_eq v _ hbpos (hfit v hv))
    have hglen : gs.length = values.length := fillRunes_length _ values gs hgs
    refine ⟨gs, ?_, hgall, hglen⟩
    by_cases h : values.length = 0
    · have hnil : gs = [] := List.length_eq_zero.mp (hglen.trans h)
      rw [Generate, if_pos h, hnil]
    · rw [Generate, if_neg h]
      simp only [hbm, hgs, Option.map_some']
  · intro hfit
    obtain ⟨bs, hbs, hball⟩ :=
      fillRunes_spec (fun v => brailleGlyph v (brailleMax maxVal)) brailleExt
        (fun v => level 8 (brailleMax maxVal) v)
        (fun v => sliceIndex_brailleExt _ (level_range 8 _ v (by decide)).1
          (level_range 8 _ v (by decide)).2) values
        (fun v hv => brailleGlyph_eq v _ hrpos (hfit v hv))
    have hblen : bs.length = values.length := fillRunes_length _ values bs hbs
    refine ⟨bs, ?_, hball, ?_, hblen, ?_⟩
    · by_cases h : values.length = 0
      · have hnil : bs = [] := List.length_eq_zero.mp (hblen.trans h)
        rw [GenerateBraille, if_pos h, hnil]
      · rw [GenerateBraille, if_neg h]
        simp only [hrm, hbs, Option.map_some']
    · by_cases h : values.length = 0
      · have hnil : bs = [] := List.length_eq_zero.mp (hblen.trans h)
        rw [GenerateBrailleSpaced, if_pos h, hnil]
        rfl
      · rw [GenerateBrailleSpaced, if_neg h]
        simp only [hrm]
        rw [GenerateBrailleSpaced_loop_eq _ _ values 0 "" bs (by simp) hbs]
        rfl
    · intro hn
      have hne : bs ≠ [] := by
        intro h0
        rw [h0] at hblen
        simp only [List.length_nil] at hblen
        omega
      have := spaced_length bs hne
      rw [String.length_mk]
      omega

/-- A week of seven counts with the daily goal of 12 as maximum: seven block
glyphs, seven braille glyphs, and 19 characters with the spaces. -/
theorem sparkline_spec_witness :
    (∀ v ∈ [0, 3, 6, 12, 15, 1, -2], v < blocksMax [0, 3, 6, 12, 15, 1, -2] 12 →
        v * 7 ≤ MaxInt64) ∧
      (∀ v ∈ [0, 3, 6, 12, 15, 1, -2], v < brailleMax 12 → v * 8 ≤ MaxInt64) ∧
      (∃ gs : List Char,
        Generate [0, 3, 6, 12, 15, 1, -2] 12 = some (String.mk gs) ∧
        (String.mk gs).length = 7) ∧
      (∃ bs : List Char,
        GenerateBraille [0, 3, 6, 12, 15, 1, -2] 12 = some (String.mk bs) ∧
        GenerateBrailleSpaced [0, 3, 6, 12, 15, 1, -2] 12 = some (String.mk (spaced bs)) ∧
        (String.mk (spaced bs)).length = 3 * 7 - 2) ∧
      Generate [0, 3, 6, 12, 15, 1, -2] 12 = some "▁▂▄██▁▁" ∧
      GenerateBraille [0, 3, 6, 12, 15, 1, -2] 12 = some "⠀⣀⣤⣿⣿⠀⠀" ∧
      GenerateBrailleSpaced [0, 3, 6, 12, 15, 1, -2] 12 = some "⠀  ⣀  ⣤  ⣿  ⣿  ⠀  ⠀" ∧
      level 7 12 3 ≤ level 7 12 6 ∧
      level 8 12 15 = 8 := by
  have hb : ∀ v ∈ [0, 3, 6, 12, 15, 1, -2], v < blocksMax [0, 3, 6, 12, 15, 1, -2] 12 →
      v * 7 ≤ MaxInt64 := by decide
  have hr : ∀ v ∈ [0, 3, 6, 12, 15, 1, -2], v < brailleMax 12 → v * 8 ≤ MaxInt64 := by decide
  obtain ⟨hblocks, hbraille, _, _, _, hmono, htop⟩ :=
    sparkline_spec [0, 3, 6, 12, 15, 1, -2] 12
  obtain ⟨gs, hgs, _, hglen⟩ := hblocks hb
  obtain ⟨bs, hbs, _, hsp, _, hlen⟩ := hbraille hr
  exact ⟨hb, hr, ⟨gs, hgs, hglen⟩, ⟨bs, hbs, hsp, hlen (by decide)⟩,
    by decide, by decide, by decide,
    hmono 7 12 3 6 (by decide) (by decide) (by decide),
    (htop 8 12 15 (by decide) (by decide)).mpr (by decide)⟩

/-- Counterexample to claim C25 as stated.  With the maximum `2 ^ 62` the
value `2 ^ 62 - 1` has the level `floor (7 v / m) = 6`, but the product `7 v`
of `Generate` wraps to `- 2 ^ 62 - 7`, the index is `-1`, and `Generate`
panics.  With the maximum `2 ^ 60 + 1` the value `2 ^ 60` has the level 7, but
the product `8 v` of the braille sparklines wraps to `- 2 ^ 63`, the index is
`-7`, and `GenerateBraille` and `GenerateBrailleSpaced` panic. -/
theorem sparkline_product_wraps :
    Generate [4611686018427387903] 4611686018427387904 = none ∧
      level 7 4611686018427387904 4611686018427387903 = 6 ∧
      Int.tdiv (wrapInt (4611686018427387903 * 7)) 4611686018427387904 = -1 ∧
      GenerateBraille [1152921504606846976] 1152921504606846977 = none ∧
      GenerateBrailleSpaced [1152921504606846976] 1152921504606846977 = none ∧
      level 8 1152921504606846977 1152921504606846976 = 7 ∧
      Int.tdiv (wrapInt (1152921504606846976 * 8)) 1152921504606846977 = -7 := by
  refine ⟨by decide, by decide, by decide, by decide, by decide, by decide, by decide⟩

/-! ## The tick loop among concurrent calls -/

/-- Claim C21 fails on the code.  `Start`, `Pause` and `Resume` are called
before the goroutine of the first `Start` has entered its `select`; the
goroutine then reads `t.stopChan`, which holds the channel that `Resume` made,
and so does the goroutine of `Resume`: two goroutines of the tick loop are
live, both wait on the open channel, and the `close` of `Pause` has reached
neither.  Both go on to tick the timer.  The same happens when the first
goroutine has taken a tick but not yet the mutex when `Pause` and `Resume`
are called; its tick then runs on the resumed timer with an instant before
`lastTick`, and the remaining time grows beyond the full Work duration.  When
the first goroutine is in its `select` at the time of `Pause` and takes the
stop case before `Resume`, one goroutine is live. -/
theorem two_tick_loops :
    ((Conc.exec (Conc.New DefaultConfig)
        [ConcOp.start 0, ConcOp.pause, ConcOp.resume 5, ConcOp.enterSelect 0,
          ConcOp.enterSelect 1]).map fun c =>
        (c.timer.state, c.loops, c.closed, c.live, c.waitingOnOpen)) =
      some (State.StateRunning,
        [LoopPC.selecting (some 1), LoopPC.selecting (some 1)], [0], 2, 2) ∧
    ((Conc.exec (Conc.New DefaultConfig)
        [ConcOp.start 0, ConcOp.pause, ConcOp.resume 5, ConcOp.enterSelect 0,
          ConcOp.enterSelect 1, ConcOp.tickCase 0 Second, ConcOp.body 0,
          ConcOp.tickCase 1 (2 * Second), ConcOp.body 1]).map fun c =>
        (c.loops, c.live, c.timer.lastTick, c.timer.remaining)) =
      some ([LoopPC.top, LoopPC.top], 2, 2 * Second, 30 * Minute - (2 * Second - 5)) ∧
    ((Conc.exec (Conc.New DefaultConfig)
        [ConcOp.start 0, ConcOp.enterSelect 0, ConcOp.tickCase 0 100, ConcOp.pause,
          ConcOp.resume 150, ConcOp.body 0, ConcOp.enterSelect 0,
          ConcOp.enterSelect 1]).map fun c =>
        (c.timer.state, c.loops, c.live, c.waitingOnOpen, c.timer.remaining)) =
      some (State.StateRunning,
        [LoopPC.selecting (some 1), LoopPC.selecting (some 1)], 2, 2, 30 * Minute + 50) ∧
    ((Conc.exec (Conc.New DefaultConfig)
        [ConcOp.start 0, ConcOp.enterSelect 0, ConcOp.pause, ConcOp.stopCase 0,
          ConcOp.resume 5, ConcOp.enterSelect 1]).map fun c =>
        (c.timer.state, c.loops, c.live, c.waitingOnOpen)) =
      some (State.StateRunning,
        [LoopPC.returned, LoopPC.selecting (some 1)], 1, 1) := by
  refine ⟨by decide, by decide, by decide, by decide⟩

end Pomme

